import Mathlib

/-!
# CBinaryReader (Source/Common/Serialization/CBinaryReader.h)

A shallow embedding of the binary archive reader: the parameter stack, the
size-field policy, `ParamBegin` / `ParamEnd`, the container-size lookahead, the
integer overloads of `SerializePrimitive`, the pointer gate and the two
constructors, with sequences of client calls run on the reader.

Conventions.
* Every `uint32` of the source is a `Nat`; the places where the source
  truncates to 32 bits carry an explicit `% U32`.
* `std::vector<SBinaryParm>` is a `List SBinaryParm` whose head is `back()`;
  `push_back` is `::`, `pop_back` drops the head.
* `back()` on an empty vector is undefined behaviour: the operations that do it
  return `none` there.
-/

namespace LibCommon

/-! ## Machine integers and bytes -/

/-- Modulus of the 32-bit unsigned arithmetic of the source, two to the 32. -/
def U32 : Nat := 4294967296

/-- Value of a `bits`-wide two's-complement pattern `v` as a signed integer:
what a read returning `int16` / `int32` hands back. -/
def toSigned (bits : Nat) (v : Nat) : Int :=
  if v < 2 ^ (bits - 1) then (v : Int) else (v : Int) - (2 : Int) ^ bits

/-- Conversion of a signed value to `uint32`, the cast `(uint32) x`. -/
def toU32 (x : Int) : Nat := (x % 4294967296).toNat

/-- Conversion of a signed value to `uint16`, an assignment to a `uint16`. -/
def toU16 (x : Int) : Nat := (x % 65536).toNat

/-- The byte stored at absolute position `i` of a byte source; bytes past the
end read as zero. -/
def byteAt (data : List Nat) (i : Nat) : Nat := data.getD i 0 % 256

/-- Big-endian unsigned value of the `n` bytes of `data` starting at position `p`. -/
def beNat (data : List Nat) (p : Nat) : Nat → Nat
  | 0 => 0
  | n + 1 => beNat data p n * 256 + byteAt data (p + n)

/-- Big-endian bytes of a 16-bit field. -/
def u16be (v : Nat) : List Nat := [v / 256 % 256, v % 256]

/-- Big-endian bytes of a 32-bit field. -/
def u32be (v : Nat) : List Nat := [v / 16777216 % 256, v / 65536 % 256, v / 256 % 256, v % 256]

/-! ## The byte stream -/

/-- Modelled from the spec: the byte stream of section 6 (`IInputStream` and
`CFileInStream` are not part of this file). A big-endian cursor over a byte
source: `data` are the bytes, `pos` the cursor, `valid` the answer of
`IsValid()`. Bytes past the end of `data` read as zero. Positions are 32-bit,
as the reader keeps them in `uint32` variables. -/
structure IInputStream where
  data : List Nat
  pos : Nat
  valid : Bool
deriving DecidableEq, Repr

namespace IInputStream

/-- Modelled from the spec: `Tell() -> position`, stored by the reader in a `uint32`. -/
def Tell (s : IInputStream) : Nat := s.pos % U32

/-- Modelled from the spec: `GoTo(position)`, an absolute seek. -/
def GoTo (s : IInputStream) (a : Nat) : IInputStream := { s with pos := a % U32 }

/-- Modelled from the spec: `Skip(deltaBytes)`, a relative seek. -/
def Skip (s : IInputStream) (n : Nat) : IInputStream := { s with pos := (s.pos + n) % U32 }

/-- Modelled from the spec: `ReadShort`, a consuming big-endian 2-byte read. The
result is signed: the source compares `PeekShort()` with `-1` and stores
`ReadShort()` in an `int16`. -/
def ReadShort (s : IInputStream) : Int × IInputStream :=
  (toSigned 16 (beNat s.data s.pos 2), s.Skip 2)

/-- Modelled from the spec: `ReadLong`, a consuming big-endian 4-byte read, signed. -/
def ReadLong (s : IInputStream) : Int × IInputStream :=
  (toSigned 32 (beNat s.data s.pos 4), s.Skip 4)

/-- Modelled from the spec: `ReadFourCC`, a consuming read of a 4-byte code. -/
def ReadFourCC (s : IInputStream) : Nat × IInputStream :=
  (beNat s.data s.pos 4, s.Skip 4)

/-- Modelled from the spec: `Peek16()`, the value `ReadShort` would return, not consumed. -/
def PeekShort (s : IInputStream) : Int := s.ReadShort.1

/-- Modelled from the spec: `Peek32()`, the value `ReadLong` would return, not consumed. -/
def PeekLong (s : IInputStream) : Int := s.ReadLong.1

/-- Modelled from the spec: `IsValid() -> bool`. -/
def IsValid (s : IInputStream) : Bool := s.valid

end IInputStream

/-- Modelled from the spec: `ReadBytes(buffer, count)`, the `count` bytes at the
cursor, consumed. -/
def IInputStream.ReadBytes (s : IInputStream) (n : Nat) : List Nat × IInputStream :=
  ((List.range n).map (fun i => byteAt s.data (s.pos + i)), s.Skip n)

/-! ## The reader -/

/-- The frame `struct SBinaryParm` (lines 10-16). -/
structure SBinaryParm where
  Offset : Nat
  Size : Nat
  NumChildren : Nat
  ChildIndex : Nat
deriving DecidableEq, Repr

/-- The reader: the members of lines 17-22 and the three version members it
inherits from `IArchive` (`mArchiveVersion`, `mFileVersion`, `mGame`), which are
declared outside this file and modelled from the spec as unsigned 16-bit
fields and a game identifier. -/
structure CBinaryReader where
  mArchiveVersion : Nat
  mFileVersion : Nat
  mGame : Nat
  mBinaryParmStack : List SBinaryParm
  mpStream : IInputStream
  mMagicValid : Bool
  mOwnsStream : Bool
  mInAttribute : Bool
deriving DecidableEq, Repr

/-- The version object `CSerialVersion` handed to the stream constructor. -/
structure CSerialVersion where
  ArchiveVersion : Nat
  FileVersion : Nat
  Game : Nat
deriving DecidableEq, Repr

/-- What the reader uses from the rest of the repository and that is not in
this file, taken as parameters: the name hash `TString::Hash32`, the two
archive-version thresholds, the flag bit `SH_IgnoreName`, the lookup
`GameFrom4CC`, the values the `IArchive()` constructor leaves in the version
members, and the `IArchive` member `SerializeVersion` that the legacy branch of
the path constructor calls. -/
structure Externals where
  Hash32 : String → Nat
  eArVer_32BitBinarySize : Nat
  eArVer_Refactor : Nat
  SH_IgnoreName : Nat
  GameFrom4CC : Nat → Nat
  defArchiveVersion : Nat
  defFileVersion : Nat
  defGame : Nat
  SerializeVersion : CBinaryReader → CBinaryReader

namespace CBinaryReader

/-- `IsValid()` (line 72). -/
def IsValid (r : CBinaryReader) : Bool := r.mpStream.IsValid && r.mMagicValid

/-- `ReadSize()` (lines 87-90): a signed 16-bit read cast to `uint32` below the
threshold, a 32-bit read otherwise. -/
def ReadSize (E : Externals) (r : CBinaryReader) : Nat × CBinaryReader :=
  if r.mArchiveVersion < E.eArVer_32BitBinarySize then
    (toU32 r.mpStream.ReadShort.1, { r with mpStream := r.mpStream.ReadShort.2 })
  else
    (toU32 r.mpStream.ReadLong.1, { r with mpStream := r.mpStream.ReadLong.2 })

/-- Number of bytes of a size field for the reader's archive version. -/
def sizeWidth (E : Externals) (r : CBinaryReader) : Nat :=
  if r.mArchiveVersion < E.eArVer_32BitBinarySize then 2 else 4

/-- `InitParamStack()` (lines 75-83). -/
def InitParamStack (E : Externals) (r : CBinaryReader) : CBinaryReader :=
  let r1 : CBinaryReader := { r with mpStream := r.mpStream.Skip 4 }
  let Size := r1.ReadSize E
  let Offset := Size.2.mpStream.Tell
  let NumChildren := Size.2.ReadSize E
  { NumChildren.2 with
    mBinaryParmStack :=
      { Offset := Offset, Size := Size.1, NumChildren := NumChildren.1, ChildIndex := 0 }
        :: NumChildren.2.mBinaryParmStack }

/-- The loop of lines 125-138, with `fuel = NumChildren - ChildIdx` iterations
left. The result is the matching index and size together with the reader after
the matching header, or `none` and the reader after the last skip. -/
def scanChildren (E : Externals) (ParamID : Nat) :
    Nat → Nat → CBinaryReader → Option (Nat × Nat) × CBinaryReader
  | 0, _, r => (none, r)
  | fuel + 1, ChildIdx, r =>
    let ChildID := toU32 r.mpStream.ReadLong.1
    let r1 : CBinaryReader := { r with mpStream := r.mpStream.ReadLong.2 }
    let ChildSize := r1.ReadSize E
    if ChildID ≠ ParamID then
      scanChildren E ParamID fuel (ChildIdx + 1)
        { ChildSize.2 with mpStream := ChildSize.2.mpStream.Skip ChildSize.1 }
    else
      (some (ChildIdx, ChildSize.1), ChildSize.2)

/-- Lines 118-143 of `ParamBegin`: the scan from the parent frame's `Offset`
and the final rollback. `back` is the top frame, `rest` the frames beneath it;
the test `!mBinaryParmStack.empty()` of line 119 holds as `back` exists. -/
def ParamBeginScan (E : Externals) (r : CBinaryReader) (back : SBinaryParm)
    (rest : List SBinaryParm) (Offset ParamID : Nat) : Bool × CBinaryReader :=
  let ParentOffset := back.Offset
  let NumChildren := back.NumChildren
  let r1 : CBinaryReader := { r with mpStream := r.mpStream.GoTo ParentOffset }
  match scanChildren E ParamID NumChildren 0 r1 with
  | (some (ChildIdx, ChildSize), r2) =>
    (true, { r2 with
      mBinaryParmStack :=
        { Offset := r2.mpStream.Tell, Size := ChildSize, NumChildren := 0xFFFFFFFF, ChildIndex := 0 }
          :: { back with ChildIndex := ChildIdx } :: rest })
  | (none, r2) =>
    (false, { r2 with mpStream := r2.mpStream.GoTo Offset, mBinaryParmStack := back :: rest })

/-- Lines 100-143 of `ParamBegin`, once the child count of the top frame `back`
is known. -/
def ParamBeginResolved (E : Externals) (r : CBinaryReader) (back : SBinaryParm)
    (rest : List SBinaryParm) (pkName : String) (Flags : Nat) : Bool × CBinaryReader :=
  let Offset := r.mpStream.Tell
  let ParamID := E.Hash32 pkName % U32
  if back.ChildIndex < back.NumChildren then
    let NextID := toU32 r.mpStream.ReadLong.1
    let r1 : CBinaryReader := { r with mpStream := r.mpStream.ReadLong.2 }
    let NextSize := r1.ReadSize E
    if NextID = ParamID ∨ Flags &&& E.SH_IgnoreName ≠ 0 then
      (true, { NextSize.2 with
        mBinaryParmStack :=
          { Offset := NextSize.2.mpStream.Tell, Size := NextSize.1,
            NumChildren := 0xFFFFFFFF, ChildIndex := 0 } :: back :: rest })
    else
      ParamBeginScan E NextSize.2 back rest Offset ParamID
  else
    ParamBeginScan E r back rest Offset ParamID

/-- `ParamBegin(pkName, Flags)` (lines 92-144). -/
def ParamBegin (E : Externals) (r : CBinaryReader) (pkName : String) (Flags : Nat) :
    Option (Bool × CBinaryReader) :=
  match r.mBinaryParmStack with
  | [] => none
  | back :: rest =>
    if back.NumChildren = 0xFFFFFFFF then
      let n := r.ReadSize E
      some (ParamBeginResolved E n.2 { back with NumChildren := n.1 } rest pkName Flags)
    else
      some (ParamBeginResolved E r back rest pkName Flags)

/-- `ParamEnd()` (lines 146-157). -/
def ParamEnd (r : CBinaryReader) : Option CBinaryReader :=
  match r.mBinaryParmStack with
  | [] => none
  | rParam :: rest =>
    let EndOffset := (rParam.Offset + rParam.Size) % U32
    let s := r.mpStream.GoTo EndOffset
    match rest with
    | [] => some { r with mpStream := s, mBinaryParmStack := [] }
    | parent :: below =>
      some { r with
        mpStream := s
        mBinaryParmStack := { parent with ChildIndex := (parent.ChildIndex + 1) % U32 } :: below }

/-- `SerializeContainerSize(rSize, rkElemName)` (lines 173-177): the value
stored in `rSize` and the reader afterwards. -/
def SerializeContainerSize (E : Externals) (r : CBinaryReader) : Nat × CBinaryReader :=
  (if r.mArchiveVersion < E.eArVer_32BitBinarySize then toU32 r.mpStream.PeekShort
   else toU32 r.mpStream.PeekLong, r)

/-- The path constructor `CBinaryReader(rkFilename, Magic)` (lines 25-51).
`file` is the content of the file and `opened` whether `CFileInStream` could
open it; `uninit` is the value the never-assigned `mMagicValid` happens to hold
when the stream is not valid. -/
def fromFile (E : Externals) (file : List Nat) (opened : Bool) (Magic : Nat) (uninit : Bool) :
    CBinaryReader :=
  let r0 : CBinaryReader :=
    { mArchiveVersion := E.defArchiveVersion, mFileVersion := E.defFileVersion,
      mGame := E.defGame, mBinaryParmStack := [],
      mpStream := { data := file, pos := 0, valid := opened },
      mMagicValid := uninit, mOwnsStream := true, mInAttribute := false }
  let r1 : CBinaryReader :=
    if r0.mpStream.IsValid then
      { r0 with
        mMagicValid := decide (toU32 r0.mpStream.ReadLong.1 = Magic % U32)
        mpStream := r0.mpStream.ReadLong.2 }
    else r0
  if r1.mpStream.PeekShort = -1 then
    E.SerializeVersion (r1.InitParamStack E)
  else
    let av := r1.mpStream.ReadShort
    let fv := av.2.ReadShort
    let cc := fv.2.ReadFourCC
    InitParamStack E
      { r1 with
        mArchiveVersion := toU16 av.1
        mFileVersion := toU16 fv.1
        mGame := E.GameFrom4CC cc.1
        mpStream := cc.2 }

/-- The stream constructor `CBinaryReader(pStream, rkVersion)` (lines 53-65).
The `ASSERT` of line 59 is a diagnostic and does not change the state. -/
def fromStream (E : Externals) (pStream : IInputStream) (rkVersion : CSerialVersion) :
    CBinaryReader :=
  InitParamStack E
    { mArchiveVersion := rkVersion.ArchiveVersion, mFileVersion := rkVersion.FileVersion,
      mGame := rkVersion.Game, mBinaryParmStack := [],
      mpStream := pStream,
      mMagicValid := true, mOwnsStream := false, mInAttribute := false }

end CBinaryReader

/-- The value `ReadSize` returns when the stream of `r` stands at position `p`:
the size field at `p` as the reader decodes it. -/
def CBinaryReader.sizeAt (E : Externals) (r : CBinaryReader) (p : Nat) : Nat :=
  (CBinaryReader.ReadSize E { r with mpStream := r.mpStream.GoTo p }).1

/-- `SerializePrimitive(int32&, Flags)` (line 185): the value read and the
reader afterwards. -/
def CBinaryReader.SerializePrimitiveInt32 (r : CBinaryReader) : Int × CBinaryReader :=
  (r.mpStream.ReadLong.1, { r with mpStream := r.mpStream.ReadLong.2 })

/-- `SerializeBulkData(pData, Size, Flags)` (line 194): the bytes stored in the
buffer and the reader afterwards. -/
def CBinaryReader.SerializeBulkData (r : CBinaryReader) (Size : Nat) : List Nat × CBinaryReader :=
  ((r.mpStream.ReadBytes Size).1, { r with mpStream := (r.mpStream.ReadBytes Size).2 })

/-! ## The primitive reads and the pointer gate -/

/-- Conversion of a signed value to `uint8`, an assignment to a `uint8`. -/
def toU8 (x : Int) : Nat := (x % 256).toNat

/-- Conversion of a signed value to `uint64`, an assignment to a `uint64`. -/
def toU64 (x : Int) : Nat := (x % 18446744073709551616).toNat

/-- Modelled from the spec: `ReadBool`, a consuming 1-byte read, true when the
byte is not zero. -/
def IInputStream.ReadBool (s : IInputStream) : Bool × IInputStream :=
  (decide (beNat s.data s.pos 1 ≠ 0), s.Skip 1)

/-- Modelled from the spec: `ReadByte`, a consuming 1-byte read, signed as
`ReadShort` and `ReadLong` are. -/
def IInputStream.ReadByte (s : IInputStream) : Int × IInputStream :=
  (toSigned 8 (beNat s.data s.pos 1), s.Skip 1)

/-- Modelled from the spec: `ReadLongLong`, a consuming big-endian 8-byte read,
signed. -/
def IInputStream.ReadLongLong (s : IInputStream) : Int × IInputStream :=
  (toSigned 64 (beNat s.data s.pos 8), s.Skip 8)

/-- The integer kinds of the overloads of `SerializePrimitive` (lines 179-188). -/
inductive PrimKind where
  | bool
  | char
  | int8
  | uint8
  | int16
  | uint16
  | int32
  | uint32
  | int64
  | uint64
deriving DecidableEq, Repr

/-- `SerializePrimitive(rValue, Flags)` for the integer kinds (lines 179-188):
the value stored in `rValue`, as an integer, and the reader afterwards. A `bool`
is given as 0 or 1; an unsigned kind receives the signed result of the read
converted to its type; a `char` receives the result of `ReadByte()` and is given
with the sign of `int8`. -/
def CBinaryReader.SerializePrimitive (k : PrimKind) (r : CBinaryReader) : Int × CBinaryReader :=
  match k with
  | .bool =>
    (if r.mpStream.ReadBool.1 then 1 else 0, { r with mpStream := r.mpStream.ReadBool.2 })
  | .char => (r.mpStream.ReadByte.1, { r with mpStream := r.mpStream.ReadByte.2 })
  | .int8 => (r.mpStream.ReadByte.1, { r with mpStream := r.mpStream.ReadByte.2 })
  | .uint8 => ((toU8 r.mpStream.ReadByte.1 : Nat), { r with mpStream := r.mpStream.ReadByte.2 })
  | .int16 => (r.mpStream.ReadShort.1, { r with mpStream := r.mpStream.ReadShort.2 })
  | .uint16 => ((toU16 r.mpStream.ReadShort.1 : Nat), { r with mpStream := r.mpStream.ReadShort.2 })
  | .int32 => (r.mpStream.ReadLong.1, { r with mpStream := r.mpStream.ReadLong.2 })
  | .uint32 => ((toU32 r.mpStream.ReadLong.1 : Nat), { r with mpStream := r.mpStream.ReadLong.2 })
  | .int64 => (r.mpStream.ReadLongLong.1, { r with mpStream := r.mpStream.ReadLongLong.2 })
  | .uint64 =>
    ((toU64 r.mpStream.ReadLongLong.1 : Nat), { r with mpStream := r.mpStream.ReadLongLong.2 })

/-- Number of bytes section 4.5 of the spec gives to each integer kind. -/
def PrimKind.width : PrimKind → Nat
  | .bool => 1
  | .char => 1
  | .int8 => 1
  | .uint8 => 1
  | .int16 => 2
  | .uint16 => 2
  | .int32 => 4
  | .uint32 => 4
  | .int64 => 8
  | .uint64 => 8

/-- `PreSerializePointer(Pointer, Flags)` (lines 159-171): the value returned
and the reader afterwards. `Pointer` is the address the pointer holds, 0 for
`nullptr`. `Serial` stands for `*this << SerialParameter(name, value)` of
`IArchive`, which is outside this file: from the name, the value of the
variable and the reader it gives the value of the variable and the reader
afterwards. -/
def CBinaryReader.PreSerializePointer (E : Externals)
    (Serial : String → Bool → CBinaryReader → Bool × CBinaryReader)
    (r : CBinaryReader) (Pointer : Nat) (_Flags : Nat) : Bool × CBinaryReader :=
  if r.mArchiveVersion ≥ E.eArVer_Refactor then
    let ValidPtr := decide (Pointer ≠ 0)
    let s := Serial "PointerValid" ValidPtr r
    (s.1, s.2)
  else
    (true, r)

/-! ## Sequences of client calls -/

/-- A call of the client on the reader. -/
inductive ClientCall where
  | ParamBegin (pkName : String) (Flags : Nat)
  | ParamEnd
  | SerializeContainerSize
  | SerializePrimitive (k : PrimKind)
  | SerializeBulkData (Size : Nat)
deriving DecidableEq, Repr

/-- Outcome of a sequence of client calls: the reader and the number of
parameters open at the end; or the sequence is not well nested, a `ParamEnd`
arriving when no parameter opened by a successful `ParamBegin` is open; or a
call met an empty stack. -/
inductive RunResult where
  | done (r : CBinaryReader) (nOpen : Nat)
  | notNested
  | emptyStack
deriving DecidableEq, Repr

/-- The reader run through a sequence of client calls, `nOpen` counting the
parameters currently open: a `ParamBegin` that returns true opens one, a
`ParamEnd` closes one. -/
def runCalls (E : Externals) : List ClientCall → CBinaryReader → Nat → RunResult
  | [], r, nOpen => .done r nOpen
  | .ParamBegin pkName Flags :: cs, r, nOpen =>
    match r.ParamBegin E pkName Flags with
    | none => .emptyStack
    | some (true, r1) => runCalls E cs r1 (nOpen + 1)
    | some (false, r1) => runCalls E cs r1 nOpen
  | .ParamEnd :: cs, r, nOpen =>
    match nOpen with
    | 0 => .notNested
    | m + 1 =>
      match r.ParamEnd with
      | none => .emptyStack
      | some r1 => runCalls E cs r1 m
  | .SerializeContainerSize :: cs, r, nOpen => runCalls E cs (r.SerializeContainerSize E).2 nOpen
  | .SerializePrimitive k :: cs, r, nOpen => runCalls E cs (r.SerializePrimitive k).2 nOpen
  | .SerializeBulkData Size :: cs, r, nOpen => runCalls E cs (r.SerializeBulkData Size).2 nOpen

/-- The stack invariant of the spec: `nOpen` frames above a bottom frame that
has the `Offset` and the `Size` of `root`. -/
def StackInv (root : SBinaryParm) (r : CBinaryReader) (nOpen : Nat) : Prop :=
  ∃ above bottom, r.mBinaryParmStack = above ++ [bottom] ∧ above.length = nOpen ∧
    bottom.Offset = root.Offset ∧ bottom.Size = root.Size

/-! ## The wire layout -/

/-- Bytes of a size field of width `w` (2 or 4 bytes) holding `v`. -/
def sizeField (w : Nat) (v : Nat) : List Nat := if w = 2 then u16be v else u32be v

mutual
/-- A named parameter of the wire layout of the spec: a leaf carrying the bytes
of a primitive value, or a container of further parameters. -/
inductive Param where
  | leaf (name : String) (payload : List Nat)
  | node (name : String) (children : ParamList)
/-- The children of a container, in the order they were written. -/
inductive ParamList where
  | nil
  | cons (p : Param) (ps : ParamList)
end

mutual
/-- Modelled from the spec: the wire layout of section 6 for one parameter (the
writer is not part of this file),
`[id:4 = hash32(name)][size:2|4][payload: size bytes]`, a container starting
its payload with its child count. -/
def Param.encode (E : Externals) (w : Nat) : Param → List Nat
  | .leaf name payload => u32be (E.Hash32 name % U32) ++ sizeField w payload.length ++ payload
  | .node name children =>
    u32be (E.Hash32 name % U32)
      ++ sizeField w (sizeField w children.length ++ children.encode E w).length
      ++ (sizeField w children.length ++ children.encode E w)
/-- Modelled from the spec: the wire layout of a run of children, their
encodings one after the other. -/
def ParamList.encode (E : Externals) (w : Nat) : ParamList → List Nat
  | .nil => []
  | .cons p ps => p.encode E w ++ ps.encode E w
/-- Number of parameters in a run of children. -/
def ParamList.length : ParamList → Nat
  | .nil => 0
  | .cons _ ps => ps.length + 1
end

/-- Modelled from the spec: the wire layout of the root node,
`[parentId:4 = 0xFFFFFFFF][size:2|4][childCount:2|4]` and the children. -/
def encodeRoot (E : Externals) (w : Nat) (children : ParamList) : List Nat :=
  u32be 0xFFFFFFFF
    ++ sizeField w (sizeField w children.length ++ children.encode E w).length
    ++ (sizeField w children.length ++ children.encode E w)

/-- Modelled from the spec: the wire layout of a whole file,
`[magic:4][archiveVersion:2][fileVersion:2][gameCode:4]` and the root node, the
width of the size fields following the archive version. -/
def encodeFile (E : Externals) (magic archiveVersion fileVersion gameCode : Nat)
    (children : ParamList) : List Nat :=
  u32be magic ++ u16be archiveVersion ++ u16be fileVersion ++ u32be gameCode
    ++ encodeRoot E (if archiveVersion < E.eArVer_32BitBinarySize then 2 else 4) children

/-- Name of a parameter. -/
def Param.name : Param → String
  | .leaf name _ => name
  | .node name _ => name

/-- Payload of a parameter in the wire layout: the bytes of a leaf, the child
count and the children of a container. -/
def Param.body (E : Externals) (w : Nat) : Param → List Nat
  | .leaf _ payload => payload
  | .node _ children => sizeField w children.length ++ children.encode E w

/-- The largest size or count plus one that `ReadSize` decodes as written:
16-bit fields with the top bit set are sign-extended. -/
def sizeBound (w : Nat) : Nat := if w = 2 then 32768 else 4294967296

mutual
/-- A parameter whose sizes and counts all lie below `sizeBound` and whose
payloads are bytes. -/
def Param.fits (E : Externals) (w : Nat) : Param → Prop
  | .leaf _ payload => payload.length < sizeBound w ∧ ∀ b ∈ payload, b < 256
  | .node _ children =>
    (sizeField w children.length ++ children.encode E w).length < sizeBound w ∧ children.fits E w
/-- A run of children all of which fit. -/
def ParamList.fits (E : Externals) (w : Nat) : ParamList → Prop
  | .nil => True
  | .cons p ps => p.fits E w ∧ ps.fits E w
end

/-- The bytes `l` stand in `data` at position `p`. -/
def seg (data : List Nat) (p : Nat) (l : List Nat) : Prop :=
  ∃ pre post, data = pre ++ l ++ post ∧ pre.length = p

/-- The first child of a run whose id is `ParamID`, as the wire layout has it:
its index, its declared size and the start of its payload; `idx` is the index
of the first child of the run and `start` the position of its header. -/
def ParamList.firstMatch (E : Externals) (w : Nat) (ParamID : Nat) :
    ParamList → Nat → Nat → Option (Nat × Nat × Nat)
  | .nil, _, _ => none
  | .cons p ps, idx, start =>
    if E.Hash32 p.name % U32 = ParamID then some (idx, (p.body E w).length, start + 4 + w)
    else ps.firstMatch E w ParamID (idx + 1) (start + (p.encode E w).length)

/-! ## A client reading in the order written -/

mutual
/-- A client reading back, in the order written, the content of a parameter it
has just entered with `ParamBegin`: a leaf is read as the `Size` bytes of its
frame, a container by reading its children in order; then `ParamEnd`. Only the
names and the nesting of the first argument are used. The result is the
parameter read, the frames `ParamBegin` pushed, in order, and the reader
afterwards. -/
def Param.readBody (E : Externals) :
    Param → CBinaryReader → Option (Param × List SBinaryParm × CBinaryReader)
  | .leaf name _, r1 =>
    match r1.mBinaryParmStack with
    | top :: _ =>
      match (r1.SerializeBulkData top.Size).2.ParamEnd with
      | some r2 => some (.leaf name (r1.SerializeBulkData top.Size).1, [top], r2)
      | none => none
    | [] => none
  | .node name children, r1 =>
    match r1.mBinaryParmStack with
    | top :: _ =>
      match children.readBack E r1 with
      | some (cs, fs, r2) =>
        match r2.ParamEnd with
        | some r3 => some (.node name cs, top :: fs, r3)
        | none => none
      | none => none
    | [] => none
/-- The client on a run of children: for each one `ParamBegin(name)`, which
must return true, then its content. -/
def ParamList.readBack (E : Externals) :
    ParamList → CBinaryReader → Option (ParamList × List SBinaryParm × CBinaryReader)
  | .nil, r => some (.nil, [], r)
  | .cons p ps, r =>
    match r.ParamBegin E p.name 0 with
    | some (true, r1) =>
      match p.readBody E r1 with
      | some (p', fs, r2) =>
        match ps.readBack E r2 with
        | some (ps', fs', r3) => some (.cons p' ps', fs ++ fs', r3)
        | none => none
      | none => none
    | _ => none
end

mutual
/-- The frames an in-order read is expected to push for a parameter whose
payload starts at `q`: payload start and declared size of each node. -/
def Param.frames (E : Externals) (w : Nat) (q : Nat) : Param → List SBinaryParm
  | .leaf _ payload =>
    [{ Offset := q, Size := payload.length, NumChildren := 0xFFFFFFFF, ChildIndex := 0 }]
  | .node _ children =>
    { Offset := q, Size := (sizeField w children.length ++ children.encode E w).length,
      NumChildren := 0xFFFFFFFF, ChildIndex := 0 }
      :: children.frames E w (q + w)
/-- The frames expected for a run of children whose first header starts at
`start`. -/
def ParamList.frames (E : Externals) (w : Nat) (start : Nat) : ParamList → List SBinaryParm
  | .nil => []
  | .cons p ps => p.frames E w (start + 4 + w) ++ ps.frames E w (start + (p.encode E w).length)
end

/-! ## Concrete inputs -/

/-- An example name hash, used where a concrete run needs one. -/
def sampleHash32 (s : String) : Nat :=
  s.toList.foldl (fun h c => (h + c.toNat) * 101 % U32) 0

/-- An example environment for concrete runs: 32-bit sizes from archive
version 1 on. -/
def sampleE : Externals :=
  { Hash32 := sampleHash32, eArVer_32BitBinarySize := 1, eArVer_Refactor := 2,
    SH_IgnoreName := 1, GameFrom4CC := id, defArchiveVersion := 0, defFileVersion := 0,
    defGame := 0, SerializeVersion := id }

/-- The tree of the scenario of the spec: `X` (int32 7) then `Y` (int32 9). -/
def scenarioTree : ParamList :=
  .cons (.leaf "X" (u32be 7)) (.cons (.leaf "Y" (u32be 9)) .nil)

/-- The concrete scenario of the spec: magic `0x1234`, archive version 5, file
version 1, game `0x41424344`, two children `X` (int32 7) and `Y` (int32 9). -/
def scenarioFile : List Nat :=
  encodeFile sampleE 0x1234 5 1 0x41424344 scenarioTree

/-- The reader the path constructor builds on the scenario of the spec. -/
def scenarioReader : CBinaryReader :=
  CBinaryReader.fromFile sampleE scenarioFile true 0x1234 false

/-- A file whose root holds one container `X` without children: the payload of
`X` is its child count, zero. -/
def emptyContainerFile : List Nat :=
  encodeFile sampleE 0x1234 5 1 0x41424344 (.cons (.node "X" .nil) .nil)

/-- The reader standing inside the container `X` of `emptyContainerFile`,
right after `ParamBegin("X")`: the child count of `X` is still unread. -/
def emptyContainerReader : CBinaryReader :=
  match (CBinaryReader.fromFile sampleE emptyContainerFile true 0x1234 false).ParamBegin
      sampleE "X" 0 with
  | some (_, r) => r
  | none => CBinaryReader.fromFile sampleE emptyContainerFile true 0x1234 false

/-- The reader after the failed `ParamBegin("Z")` inside the container `X` of
`emptyContainerFile`. -/
def emptyContainerMiss : CBinaryReader :=
  match emptyContainerReader.ParamBegin sampleE "Z" 0 with
  | some (_, r) => r
  | none => emptyContainerReader

/-- A payload of 32768 zero bytes. -/
def bigPayload : List Nat := List.replicate 32768 0

/-- A file of archive version 0 (16-bit size fields) whose root holds one leaf
`X` with a payload of 32768 bytes. -/
def bigLeafFile : List Nat :=
  encodeFile sampleE 0x1234 0 1 0x41424344 (.cons (.leaf "X" bigPayload) .nil)

/-- The reader the path constructor builds on `bigLeafFile`. -/
def bigLeafReader : CBinaryReader :=
  CBinaryReader.fromFile sampleE bigLeafFile true 0x1234 false

/-- A reader of archive version 0 whose stream holds the 16-bit size field
`0x8000`. -/
def signBitReader : CBinaryReader :=
  { mArchiveVersion := 0, mFileVersion := 0, mGame := 0, mBinaryParmStack := [],
    mpStream := { data := [0x80, 0x00], pos := 0, valid := true },
    mMagicValid := true, mOwnsStream := false, mInAttribute := false }

/-- A tree with a nested container, for concrete runs. -/
def nestedTree : ParamList :=
  .cons (.node "X" (.cons (.leaf "A" (u32be 7)) (.cons (.leaf "B" [1, 2]) .nil)))
    (.cons (.leaf "Y" (u32be 9)) .nil)

/-- An example of what `SerializeVersion` may do, built from the reader's own
operations: open the parameter `ArchiveVer`, read it as a 16-bit value into
`mArchiveVersion`, close it. What the member of `IArchive` really does is
outside this file. -/
def readArchiveVer (r : CBinaryReader) : CBinaryReader :=
  match r.ParamBegin sampleE "ArchiveVer" 0 with
  | some (true, r1) =>
    match ({ r1 with
              mArchiveVersion := toU16 r1.mpStream.ReadShort.1
              mpStream := r1.mpStream.ReadShort.2 } : CBinaryReader).ParamEnd with
    | some r2 => r2
    | none => r1
  | some (false, r1) => r1
  | none => r

/-- The example environment with `readArchiveVer` for `SerializeVersion`. -/
def versionReadingE : Externals := { sampleE with SerializeVersion := readArchiveVer }

/-- A file in the legacy layout: the magic, then at once the root node (16-bit
size fields, as for the default archive version 0 of `sampleE`), holding the
parameter `ArchiveVer` with the value 5. -/
def legacyFile : List Nat :=
  u32be 0x1234 ++ encodeRoot sampleE 2 (.cons (.leaf "ArchiveVer" (u16be 5)) .nil)

/-- An example of what `*this << SerialParameter(name, value)` may do for a
`bool`, built from the reader's own operations: open the parameter, read it,
close it; the variable keeps its value when the parameter is absent. What the
operator of `IArchive` really does is outside this file. -/
def serialBool (pkName : String) (value : Bool) (r : CBinaryReader) : Bool × CBinaryReader :=
  match r.ParamBegin sampleE pkName 0 with
  | some (true, r1) =>
    match (r1.SerializePrimitive .bool).2.ParamEnd with
    | some r2 => (decide ((r1.SerializePrimitive .bool).1 ≠ 0), r2)
    | none => (value, r1)
  | some (false, r1) => (value, r1)
  | none => (value, r)

/-- The reader of a file of archive version `av` whose root holds the one
parameter `PointerValid`, a `bool` that is false. With `sampleE` version 1 lies
below the refactor threshold and version 2 on it. -/
def pointerReader (av : Nat) : CBinaryReader :=
  CBinaryReader.fromFile sampleE
    (encodeFile sampleE 0x1234 av 1 0x41424344 (.cons (.leaf "PointerValid" [0]) .nil))
    true 0x1234 false

/-- A well-nested sequence of client calls on the scenario of the spec: an
absent name, then `X` entered, read and left, then `Y` entered. -/
def sampleCalls : List ClientCall :=
  [.ParamBegin "Z" 0, .ParamBegin "X" 0, .SerializePrimitive .int32, .ParamEnd,
    .ParamBegin "Y" 0, .SerializeContainerSize]

/-- The file of `nestedTree` with archive version 5. -/
def nestedFile : List Nat := encodeFile sampleE 0x1234 5 1 0x41424344 nestedTree

/-- The reader the path constructor builds on `nestedFile`. -/
def nestedReader : CBinaryReader := CBinaryReader.fromFile sampleE nestedFile true 0x1234 false

/-- The reader inside the container `X` of `nestedFile`, right after
`ParamBegin("X")`: the child count of `X` is still unread. -/
def insideXReader : CBinaryReader :=
  match nestedReader.ParamBegin sampleE "X" 0 with
  | some (_, r) => r
  | none => nestedReader

/-- A reader of archive version 5 whose stream holds the bytes `80 01 FF FE 00
00 00 02`, for the primitive reads. -/
def primReader : CBinaryReader :=
  { mArchiveVersion := 5, mFileVersion := 0, mGame := 0,
    mBinaryParmStack := [{ Offset := 0, Size := 8, NumChildren := 0xFFFFFFFF, ChildIndex := 0 }],
    mpStream := { data := [0x80, 0x01, 0xFF, 0xFE, 0, 0, 0, 2], pos := 0, valid := true },
    mMagicValid := true, mOwnsStream := false, mInAttribute := false }

/-- A second file in the legacy layout: the root holds `ArchiveVer` with the
value 0, which keeps the 16-bit size fields, and a leaf `X` of two zero bytes. -/
def legacyFileX : List Nat :=
  u32be 0x1234
    ++ encodeRoot sampleE 2 (.cons (.leaf "ArchiveVer" (u16be 0)) (.cons (.leaf "X" [0, 0]) .nil))

/-- A well-nested sequence of client calls on `legacyFileX`: `X` entered, an
absent name asked inside it, one byte read. -/
def legacyCalls : List ClientCall :=
  [.ParamBegin "X" 0, .ParamBegin "Z" 0, .SerializePrimitive .uint8]

/-- The reader the path constructor builds on `legacyFileX` when
`SerializeVersion` is the example `readArchiveVer`. -/
def legacyXReader : CBinaryReader :=
  CBinaryReader.fromFile versionReadingE legacyFileX true 0x1234 false

/-- The reader the stream constructor builds on the root node of the scenario
of the spec, the stream standing after the header and the version handed in. -/
def embeddedReader : CBinaryReader :=
  CBinaryReader.fromStream sampleE { data := scenarioFile, pos := 12, valid := true }
    { ArchiveVersion := 5, FileVersion := 1, Game := 0x41424344 }

/-- A tree whose container `X` has one child `A` and is followed by the leaf
`Y`. -/
def singleChildTree : ParamList :=
  .cons (.node "X" (.cons (.leaf "A" (u32be 7)) .nil)) (.cons (.leaf "Y" (u32be 9)) .nil)

/-- The file of `singleChildTree` with archive version 5. -/
def singleChildFile : List Nat := encodeFile sampleE 0x1234 5 1 0x41424344 singleChildTree

/-- The reader the path constructor builds on `singleChildFile`. -/
def singleChildReader : CBinaryReader :=
  CBinaryReader.fromFile sampleE singleChildFile true 0x1234 false

/-- A well-nested sequence of client calls on `singleChildFile`: `X` entered,
the absent name `Z` asked in it, then the twelve bytes of its child `A` read as
an `int64` and an `int32`. -/
def skippingCalls : List ClientCall :=
  [.ParamBegin "X" 0, .ParamBegin "Z" 0, .SerializePrimitive .int64, .SerializePrimitive .int32]

/-- A well-nested sequence of client calls on `singleChildFile`: `X` entered,
its child `A` entered and left. -/
def enteringCalls : List ClientCall :=
  [.ParamBegin "X" 0, .ParamBegin "A" 0, .ParamEnd]

/-- The reader on `singleChildFile` inside `X`, the child count of `X` read,
the stream after the child of `X` at 48, and the `ChildIndex` of the frame of
`X` at `ci`. -/
def afterChildReader (ci : Nat) : CBinaryReader :=
  { singleChildReader with
    mpStream := { singleChildReader.mpStream with pos := 48 }
    mBinaryParmStack :=
      [{ Offset := 32, Size := 16, NumChildren := 1, ChildIndex := ci },
       { Offset := 20, Size := 40, NumChildren := 2, ChildIndex := 0 }] }

/-- A well-nested sequence of client calls on the scenario of the spec: the
twelve bytes of `X` read as an `int64` and an `int32`, `X` not being entered. -/
def scenarioSkipCalls : List ClientCall :=
  [.SerializePrimitive .int64, .SerializePrimitive .int32]

/-- A well-nested sequence of client calls on the scenario of the spec: `X`
entered and left. -/
def scenarioEnterCalls : List ClientCall := [.ParamBegin "X" 0, .ParamEnd]

/-- The reader of the scenario of the spec with the stream on the header of `Y`
at 36 and the `ChildIndex` of the root frame at `ci`. -/
def beforeYReader (ci : Nat) : CBinaryReader :=
  { scenarioReader with
    mpStream := { scenarioReader.mpStream with pos := 36 }
    mBinaryParmStack := [{ Offset := 20, Size := 28, NumChildren := 2, ChildIndex := ci }] }

/-! # Lemmas -/

/-! ## Arithmetic of the reads -/

theorem toU32_toSigned32 (v : Nat) (h : v < 4294967296) : toU32 (toSigned 32 v) = v := by
  unfold toU32 toSigned
  split <;> omega

theorem toU32_toSigned16 (v : Nat) (h : v < 65536) :
    toU32 (toSigned 16 v) = if v < 32768 then v else v + 4294901760 := by
  unfold toU32 toSigned
  split <;> split <;> omega

theorem toU16_toSigned16 (v : Nat) (h : v < 65536) : toU16 (toSigned 16 v) = v := by
  unfold toU16 toSigned
  split <;> omega

theorem toSigned16_eq_neg_one (v : Nat) (h : v < 65536) : toSigned 16 v = -1 ↔ v = 65535 := by
  unfold toSigned
  split <;> omega

theorem byteAt_lt (data : List Nat) (i : Nat) : byteAt data i < 256 := by
  unfold byteAt
  omega

theorem beNat_lt (data : List Nat) (p n : Nat) : beNat data p n < 256 ^ n := by
  induction n with
  | zero => simp [beNat]
  | succ n ih =>
    have hb := byteAt_lt data (p + n)
    rw [beNat, pow_succ]
    nlinarith

theorem beNat_two_lt (data : List Nat) (p : Nat) : beNat data p 2 < 65536 := by
  simpa using beNat_lt data p 2

theorem beNat_four_lt (data : List Nat) (p : Nat) : beNat data p 4 < 4294967296 := by
  simpa using beNat_lt data p 4

namespace CBinaryReader

/-- `ReadSize` changes nothing but the cursor, which moves by the width of the
size field. -/
theorem ReadSize_snd (E : Externals) (r : CBinaryReader) :
    (r.ReadSize E).2 = { r with mpStream := r.mpStream.Skip (sizeWidth E r) } := by
  unfold ReadSize sizeWidth
  split <;> rfl

/-- Value of `ReadSize` at or above the threshold: the unsigned 32-bit field. -/
theorem ReadSize_long (E : Externals) (r : CBinaryReader)
    (h : ¬ r.mArchiveVersion < E.eArVer_32BitBinarySize) :
    (r.ReadSize E).1 = beNat r.mpStream.data r.mpStream.pos 4 := by
  unfold ReadSize
  rw [if_neg h]
  exact toU32_toSigned32 _ (beNat_four_lt _ _)

/-- Value of `ReadSize` below the threshold: the 16-bit field, sign-extended
to 32 bits by the cast of the signed `ReadShort()` result. -/
theorem ReadSize_short (E : Externals) (r : CBinaryReader)
    (h : r.mArchiveVersion < E.eArVer_32BitBinarySize) :
    (r.ReadSize E).1 =
      if beNat r.mpStream.data r.mpStream.pos 2 < 32768 then beNat r.mpStream.data r.mpStream.pos 2
      else beNat r.mpStream.data r.mpStream.pos 2 + 4294901760 := by
  unfold ReadSize
  rw [if_pos h]
  exact toU32_toSigned16 _ (beNat_two_lt _ _)

theorem ReadSize_lt (E : Externals) (r : CBinaryReader) : (r.ReadSize E).1 < U32 := by
  unfold ReadSize toU32 U32
  split <;> omega

/-- The size field at `p` as the reader decodes it depends only on the archive
version and the bytes of the stream. -/
theorem sizeAt_explicit (E : Externals) (r : CBinaryReader) (p : Nat) :
    r.sizeAt E p =
      if r.mArchiveVersion < E.eArVer_32BitBinarySize then
        toU32 (toSigned 16 (beNat r.mpStream.data (p % U32) 2))
      else toU32 (toSigned 32 (beNat r.mpStream.data (p % U32) 4)) := by
  unfold sizeAt ReadSize
  split <;> rfl

/-- `InitParamStack` in closed form: the cursor moves over the 4-byte root id
and two size fields, and one frame is pushed. -/
theorem InitParamStack_eq (E : Externals) (r : CBinaryReader) :
    r.InitParamStack E =
      { r with
        mpStream := { r.mpStream with pos := (r.mpStream.pos + 4 + 2 * r.sizeWidth E) % U32 }
        mBinaryParmStack :=
          { Offset := (r.mpStream.pos + 4 + r.sizeWidth E) % U32,
            Size := r.sizeAt E (r.mpStream.pos + 4),
            NumChildren := r.sizeAt E (r.mpStream.pos + 4 + r.sizeWidth E),
            ChildIndex := 0 } :: r.mBinaryParmStack } := by
  unfold InitParamStack
  simp only [ReadSize_snd, sizeAt, sizeWidth, IInputStream.Skip, IInputStream.Tell,
    IInputStream.GoTo, Nat.mod_mod, Nat.add_mod_mod, Nat.mod_add_mod]
  have h2 : ∀ w : Nat, r.mpStream.pos + 4 + w + w = r.mpStream.pos + 4 + 2 * w := by
    intro w; omega
  simp only [h2]

/-- The scan loop moves the cursor and touches nothing else. -/
theorem scanChildren_frame (E : Externals) (ParamID : Nat) (fuel : Nat) :
    ∀ (ChildIdx : Nat) (r : CBinaryReader), ∃ q,
      (scanChildren E ParamID fuel ChildIdx r).2 =
        { r with mpStream := { r.mpStream with pos := q } } := by
  induction fuel with
  | zero => intro ChildIdx r; exact ⟨r.mpStream.pos, rfl⟩
  | succ fuel ih =>
    intro ChildIdx r
    unfold scanChildren
    simp only
    split
    · obtain ⟨q, hq⟩ := ih (ChildIdx + 1)
        { (ReadSize E { r with mpStream := r.mpStream.ReadLong.2 }).2 with
          mpStream := (ReadSize E { r with mpStream := r.mpStream.ReadLong.2 }).2.mpStream.Skip
            (ReadSize E { r with mpStream := r.mpStream.ReadLong.2 }).1 }
      refine ⟨q, ?_⟩
      rw [hq]
      simp [ReadSize_snd, IInputStream.Skip, IInputStream.ReadLong]
    · exact ⟨_, by simp [ReadSize_snd, IInputStream.Skip, IInputStream.ReadLong]; rfl⟩

/-- A failed scan puts the cursor back on the saved offset and leaves the
stack as it was. -/
theorem ParamBeginScan_false (E : Externals) (r r' : CBinaryReader) (back : SBinaryParm)
    (rest : List SBinaryParm) (Offset ParamID : Nat)
    (h : ParamBeginScan E r back rest Offset ParamID = (false, r')) :
    r' = { r with mpStream := { r.mpStream with pos := Offset % U32 },
                  mBinaryParmStack := back :: rest } := by
  unfold ParamBeginScan at h
  simp only at h
  split at h
  · simp at h
  · rename_i r2 heq
    obtain ⟨q, hq⟩ := scanChildren_frame E ParamID back.NumChildren 0
      { r with mpStream := r.mpStream.GoTo back.Offset }
    rw [heq] at hq
    simp only at hq
    subst hq
    simp only [Prod.mk.injEq, true_and] at h
    rw [← h]
    simp [IInputStream.GoTo]

/-- When `ParamBegin` fails past the child-count resolution, only the cursor
may have changed, and it stands on the offset saved at line 101. -/
theorem ParamBeginResolved_false (E : Externals) (r r' : CBinaryReader) (back : SBinaryParm)
    (rest : List SBinaryParm) (pkName : String) (Flags : Nat)
    (h : ParamBeginResolved E r back rest pkName Flags = (false, r')) :
    r' = { r with mpStream := { r.mpStream with pos := r.mpStream.pos % U32 },
                  mBinaryParmStack := back :: rest } := by
  unfold ParamBeginResolved at h
  simp only at h
  split at h
  · split at h
    · simp at h
    · have := ParamBeginScan_false E _ _ _ _ _ _ h
      rw [this]
      simp [ReadSize_snd, IInputStream.Skip, IInputStream.ReadLong, IInputStream.Tell]
  · have := ParamBeginScan_false E _ _ _ _ _ _ h
    rw [this]
    simp [IInputStream.Tell]

end CBinaryReader

/-- The path constructor on a valid stream, in closed form: whatever `Magic`
is, the header is parsed and `InitParamStack` run; `Magic` only decides
`mMagicValid`. -/
theorem fromFile_opened (E : Externals) (file : List Nat) (Magic : Nat) (uninit : Bool) :
    CBinaryReader.fromFile E file true Magic uninit =
      if beNat file 4 2 = 65535 then
        E.SerializeVersion (CBinaryReader.InitParamStack E
          { mArchiveVersion := E.defArchiveVersion, mFileVersion := E.defFileVersion,
            mGame := E.defGame, mBinaryParmStack := [],
            mpStream := { data := file, pos := 4, valid := true },
            mMagicValid := decide (beNat file 0 4 = Magic % U32),
            mOwnsStream := true, mInAttribute := false })
      else
        CBinaryReader.InitParamStack E
          { mArchiveVersion := beNat file 4 2, mFileVersion := beNat file 6 2,
            mGame := E.GameFrom4CC (beNat file 8 4), mBinaryParmStack := [],
            mpStream := { data := file, pos := 12, valid := true },
            mMagicValid := decide (beNat file 0 4 = Magic % U32),
            mOwnsStream := true, mInAttribute := false } := by
  simp [CBinaryReader.fromFile, IInputStream.IsValid, IInputStream.PeekShort,
    IInputStream.ReadShort, IInputStream.ReadLong, IInputStream.ReadFourCC, IInputStream.Skip,
    toSigned16_eq_neg_one _ (beNat_two_lt _ _), toU32_toSigned32 _ (beNat_four_lt _ _),
    toU16_toSigned16 _ (beNat_two_lt _ _), U32]

/-- The legacy branch up to the call of `SerializeVersion`: on a valid stream
whose 16 bits after the magic are `0xFFFF`, no version field is consumed, the
version members still hold the values of `IArchive()`, the root frame comes from
the bytes after the magic (4-byte placeholder at 4, size field at 8, count field
at `8 + w`), and the reader in that state is handed to `SerializeVersion`. -/
theorem fromFile_legacy (E : Externals) (file : List Nat) (Magic : Nat) (uninit : Bool)
    (hleg : beNat file 4 2 = 0xFFFF) :
    ∃ r0 : CBinaryReader,
      CBinaryReader.fromFile E file true Magic uninit = E.SerializeVersion r0 ∧
      r0.mArchiveVersion = E.defArchiveVersion ∧ r0.mFileVersion = E.defFileVersion ∧
      r0.mGame = E.defGame ∧
      r0.mBinaryParmStack
        = [{ Offset := 8 + r0.sizeWidth E, Size := r0.sizeAt E 8,
             NumChildren := r0.sizeAt E (8 + r0.sizeWidth E), ChildIndex := 0 }] ∧
      r0.mpStream.pos = 8 + 2 * r0.sizeWidth E ∧ r0.mpStream.data = file := by
  rw [fromFile_opened, if_pos hleg, CBinaryReader.InitParamStack_eq]
  have h1 : (if E.defArchiveVersion < E.eArVer_32BitBinarySize then 2 else 4) ≤ 4 := by
    split <;> omega
  refine ⟨_, rfl, rfl, rfl, rfl, ?_, ?_, rfl⟩
  · simp only [CBinaryReader.sizeAt_explicit, CBinaryReader.sizeWidth, U32]
    have e1 : (4 + 4 + (if E.defArchiveVersion < E.eArVer_32BitBinarySize then 2 else 4))
        % 4294967296 = 8 + (if E.defArchiveVersion < E.eArVer_32BitBinarySize then 2 else 4) := by
      omega
    simp only [e1]
  · simp only [CBinaryReader.sizeWidth, U32]
    omega

/-- `InitParamStack` leaves the magic flag and the validity of the stream alone. -/
theorem InitParamStack_valid (E : Externals) (r : CBinaryReader) :
    (r.InitParamStack E).mMagicValid = r.mMagicValid ∧
      (r.InitParamStack E).mpStream.valid = r.mpStream.valid := by
  rw [CBinaryReader.InitParamStack_eq]
  exact ⟨rfl, rfl⟩

theorem bigPayload_length : bigPayload.length = 32768 := List.length_replicate _ _

/-- Bytes of a file of archive version 0 holding one leaf `X`, whatever its
payload. -/
theorem encodeFile_single_leaf (payload : List Nat) :
    encodeFile sampleE 0x1234 0 1 0x41424344 (.cons (.leaf "X" payload) .nil) =
      [0, 0, 18, 52, 0, 0, 0, 1, 65, 66, 67, 68, 255, 255, 255, 255]
        ++ u16be (2 + (4 + 2 + payload.length)) ++ [0, 1, 0, 0, 34, 184]
        ++ u16be payload.length ++ payload := by
  simp [encodeFile, encodeRoot, ParamList.encode, Param.encode, ParamList.length,
    sizeField, u16be, u32be, sampleE, sampleHash32, U32]
  omega

theorem bigLeafFile_eq :
    bigLeafFile =
      [0, 0, 18, 52, 0, 0, 0, 1, 65, 66, 67, 68, 255, 255, 255, 255, 128, 8, 0, 1,
        0, 0, 34, 184, 128, 0] ++ bigPayload := by
  unfold bigLeafFile
  rw [encodeFile_single_leaf, bigPayload_length]
  rfl


/-! ## Bytes of the wire layout -/

theorem seg_append_left {data : List Nat} {p : Nat} {a b : List Nat}
    (h : seg data p (a ++ b)) : seg data p a := by
  obtain ⟨pre, post, rfl, rfl⟩ := h
  exact ⟨pre, b ++ post, by simp, rfl⟩

theorem seg_append_right {data : List Nat} {p : Nat} {a b : List Nat}
    (h : seg data p (a ++ b)) : seg data (p + a.length) b := by
  obtain ⟨pre, post, rfl, rfl⟩ := h
  exact ⟨pre ++ a, post, by simp, by simp⟩

theorem seg_length_le {data : List Nat} {p : Nat} {l : List Nat}
    (h : seg data p l) : p + l.length ≤ data.length := by
  obtain ⟨pre, post, rfl, rfl⟩ := h
  simp

theorem seg_byteAt {data : List Nat} {p : Nat} {l : List Nat} (h : seg data p l)
    (i : Nat) (hi : i < l.length) : byteAt data (p + i) = byteAt l i := by
  obtain ⟨pre, post, rfl, rfl⟩ := h
  unfold byteAt
  rw [List.append_assoc, List.getD_append_right _ _ _ _ (by omega), List.getD_append _ _ _ _ (by omega)]
  simp

theorem seg_beNat {data : List Nat} {p : Nat} {l : List Nat} (h : seg data p l) :
    ∀ n, n ≤ l.length → beNat data p n = beNat l 0 n := by
  intro n
  induction n with
  | zero => intro _; rfl
  | succ n ih =>
    intro hn
    rw [beNat, beNat, ih (by omega), seg_byteAt h n (by omega), Nat.zero_add]

theorem beNat_u32be (v : Nat) : beNat (u32be v) 0 4 = v % 4294967296 := by
  simp [beNat, byteAt, u32be]
  omega

theorem beNat_u16be (v : Nat) : beNat (u16be v) 0 2 = v % 65536 := by
  simp [beNat, byteAt, u16be]
  omega

namespace CBinaryReader

theorem sizeWidth_cases (E : Externals) (r : CBinaryReader) :
    r.sizeWidth E = 2 ∨ r.sizeWidth E = 4 := by
  unfold sizeWidth
  split
  · exact Or.inl rfl
  · exact Or.inr rfl

theorem length_sizeField (E : Externals) (r : CBinaryReader) (v : Nat) :
    (sizeField (r.sizeWidth E) v).length = r.sizeWidth E := by
  rcases sizeWidth_cases E r with h | h <;> simp [h, sizeField, u16be, u32be]

/-- A size field written with a value below `sizeBound` is decoded as written. -/
theorem sizeAt_of_seg (E : Externals) (r : CBinaryReader) (p v : Nat)
    (hseg : seg r.mpStream.data p (sizeField (r.sizeWidth E) v))
    (hp : p < U32) (hv : v < sizeBound (r.sizeWidth E)) :
    r.sizeAt E p = v := by
  rw [sizeAt_explicit, Nat.mod_eq_of_lt hp]
  unfold sizeWidth at hseg hv
  unfold sizeBound at hv
  split
  · rename_i h
    simp only [h, if_true, sizeField] at hseg hv
    rw [seg_beNat hseg 2 (by simp [u16be]), beNat_u16be, toU32_toSigned16 _ (by omega)]
    rw [if_pos (by omega)]
    omega
  · rename_i h
    simp only [h, if_false, sizeField] at hseg hv
    have h42 : ¬ (4 = 2) := by decide
    simp only [h42, if_false] at hseg hv
    rw [seg_beNat hseg 4 (by simp [u32be]), beNat_u32be, toU32_toSigned32 _ (by omega)]
    omega

/-- The general form of the fast-path hit of lines 105-115. -/
theorem ParamBegin_fast_hit (E : Externals) (r : CBinaryReader) (back : SBinaryParm)
    (rest : List SBinaryParm) (pkName : String) (Flags : Nat)
    (hstack : r.mBinaryParmStack = back :: rest)
    (hres : back.NumChildren ≠ 0xFFFFFFFF)
    (hidx : back.ChildIndex < back.NumChildren)
    (hit : beNat r.mpStream.data r.mpStream.pos 4 = E.Hash32 pkName % U32
      ∨ Flags &&& E.SH_IgnoreName ≠ 0) :
    r.ParamBegin E pkName Flags = some (true,
      { r with
        mpStream := { r.mpStream with pos := (r.mpStream.pos + 4 + r.sizeWidth E) % U32 }
        mBinaryParmStack :=
          { Offset := (r.mpStream.pos + 4 + r.sizeWidth E) % U32,
            Size := r.sizeAt E (r.mpStream.pos + 4),
            NumChildren := 0xFFFFFFFF, ChildIndex := 0 } :: back :: rest }) := by
  unfold ParamBegin
  rw [hstack]
  simp only [hres, if_false]
  unfold ParamBeginResolved
  simp only [hidx, if_true]
  have hid : toU32 r.mpStream.ReadLong.1 = beNat r.mpStream.data r.mpStream.pos 4 :=
    toU32_toSigned32 _ (beNat_four_lt _ _)
  rw [hid, if_pos hit]
  simp only [ReadSize_snd, sizeAt, sizeWidth,
    IInputStream.ReadLong, IInputStream.Skip, IInputStream.Tell, IInputStream.GoTo,
    Nat.mod_mod, Nat.add_mod_mod, Nat.mod_add_mod]

/-- One turn of the scan loop, in closed form. -/
theorem scanChildren_succ (E : Externals) (ParamID fuel ChildIdx : Nat) (r : CBinaryReader) :
    scanChildren E ParamID (fuel + 1) ChildIdx r =
      if beNat r.mpStream.data r.mpStream.pos 4 ≠ ParamID then
        scanChildren E ParamID fuel (ChildIdx + 1)
          { r with mpStream :=
              ((r.mpStream.Skip 4).Skip (r.sizeWidth E)).Skip (r.sizeAt E (r.mpStream.pos + 4)) }
      else
        (some (ChildIdx, r.sizeAt E (r.mpStream.pos + 4)),
          { r with mpStream := (r.mpStream.Skip 4).Skip (r.sizeWidth E) }) := by
  have hid : toU32 r.mpStream.ReadLong.1 = beNat r.mpStream.data r.mpStream.pos 4 :=
    toU32_toSigned32 _ (beNat_four_lt _ _)
  rw [scanChildren]
  simp only [hid, ReadSize_snd]
  rfl

/-- The scan loop does not look at the parameter stack. -/
theorem scanChildren_stack (E : Externals) (ParamID : Nat) (st : List SBinaryParm)
    (fuel : Nat) : ∀ (ChildIdx : Nat) (r : CBinaryReader),
      scanChildren E ParamID fuel ChildIdx { r with mBinaryParmStack := st } =
        ((scanChildren E ParamID fuel ChildIdx r).1,
          { (scanChildren E ParamID fuel ChildIdx r).2 with mBinaryParmStack := st }) := by
  induction fuel with
  | zero => intro ChildIdx r; rfl
  | succ fuel ih =>
    intro ChildIdx r
    rw [scanChildren_succ, scanChildren_succ]
    by_cases h : beNat r.mpStream.data r.mpStream.pos 4 ≠ ParamID
    · rw [if_pos h, if_pos h]
      have hst := ih (ChildIdx + 1)
        { r with mpStream :=
            ((r.mpStream.Skip 4).Skip (r.sizeWidth E)).Skip (r.sizeAt E (r.mpStream.pos + 4)) }
      simp only [sizeAt_explicit, sizeWidth] at hst ⊢
      exact hst
    · rw [if_neg h, if_neg h]
      simp only [sizeAt_explicit, sizeWidth]

/-- Lines 118-143 do not look at the stack member: they work on `back` and
`rest`. -/
theorem ParamBeginScan_stack (E : Externals) (r : CBinaryReader) (st : List SBinaryParm)
    (back : SBinaryParm) (rest : List SBinaryParm) (Offset ParamID : Nat) :
    ParamBeginScan E { r with mBinaryParmStack := st } back rest Offset ParamID =
      ParamBeginScan E r back rest Offset ParamID := by
  unfold ParamBeginScan
  simp only
  rw [show ({ ({ r with mBinaryParmStack := st } : CBinaryReader) with
        mpStream := r.mpStream.GoTo back.Offset } : CBinaryReader)
      = { ({ r with mpStream := r.mpStream.GoTo back.Offset } : CBinaryReader) with
        mBinaryParmStack := st } from rfl, scanChildren_stack]
  cases scanChildren E ParamID back.NumChildren 0
      { r with mpStream := r.mpStream.GoTo back.Offset } with
  | mk found r2 =>
    cases found with
    | none => rfl
    | some x => rfl

/-- Value of `ReadSize`, whatever the stack. -/
theorem ReadSize_fst (E : Externals) (r : CBinaryReader) :
    (r.ReadSize E).1 =
      if r.mArchiveVersion < E.eArVer_32BitBinarySize then
        toU32 (toSigned 16 (beNat r.mpStream.data r.mpStream.pos 2))
      else toU32 (toSigned 32 (beNat r.mpStream.data r.mpStream.pos 4)) := by
  unfold ReadSize
  split <;> rfl

/-- Lines 100-143 do not look at the stack member: they work on `back` and
`rest`. -/
theorem ParamBeginResolved_stack (E : Externals) (r : CBinaryReader) (st : List SBinaryParm)
    (back : SBinaryParm) (rest : List SBinaryParm) (pkName : String) (Flags : Nat) :
    ParamBeginResolved E { r with mBinaryParmStack := st } back rest pkName Flags =
      ParamBeginResolved E r back rest pkName Flags := by
  have hscan : ∀ (av fv g : Nat) (st1 st2 : List SBinaryParm) (s : IInputStream)
      (mv os ia : Bool) (Offset ParamID : Nat),
      ParamBeginScan E ⟨av, fv, g, st1, s, mv, os, ia⟩ back rest Offset ParamID =
        ParamBeginScan E ⟨av, fv, g, st2, s, mv, os, ia⟩ back rest Offset ParamID :=
    fun av fv g st1 st2 s mv os ia Offset ParamID =>
      ParamBeginScan_stack E ⟨av, fv, g, st2, s, mv, os, ia⟩ st1 back rest Offset ParamID
  unfold ParamBeginResolved
  simp only [ReadSize_snd, ReadSize_fst, sizeWidth]
  split
  · split
    · rfl
    · exact hscan _ _ _ _ _ _ _ _ _ _ _
  · exact hscan _ _ _ _ _ _ _ _ _ _ _

/-- A first child access reads the child count and then behaves as on the
frame with that count. -/
theorem ParamBegin_unresolved (E : Externals) (r : CBinaryReader) (back : SBinaryParm)
    (rest : List SBinaryParm) (pkName : String) (Flags : Nat)
    (hstack : r.mBinaryParmStack = back :: rest)
    (hunres : back.NumChildren = 0xFFFFFFFF)
    (hn : r.sizeAt E r.mpStream.pos ≠ 0xFFFFFFFF) (hpos : r.mpStream.pos < U32) :
    r.ParamBegin E pkName Flags =
      CBinaryReader.ParamBegin E
        { r with
          mpStream := r.mpStream.Skip (r.sizeWidth E)
          mBinaryParmStack := { back with NumChildren := r.sizeAt E r.mpStream.pos } :: rest }
        pkName Flags := by
  have hsz : r.sizeAt E r.mpStream.pos = (r.ReadSize E).1 := by
    unfold sizeAt IInputStream.GoTo
    rw [Nat.mod_eq_of_lt hpos]
  unfold ParamBegin
  rw [hstack]
  simp only [hunres, if_true, hn, if_false]
  rw [← hsz, ReadSize_snd]
  rw [show ({ r with
        mpStream := r.mpStream.Skip (r.sizeWidth E)
        mBinaryParmStack := { back with NumChildren := r.sizeAt E r.mpStream.pos } :: rest }
          : CBinaryReader)
      = { ({ r with mpStream := r.mpStream.Skip (r.sizeWidth E) } : CBinaryReader) with
        mBinaryParmStack := { back with NumChildren := r.sizeAt E r.mpStream.pos } :: rest }
      from rfl, ParamBeginResolved_stack]

end CBinaryReader

namespace CBinaryReader

/-- `ParamBegin` on the header of an encoded parameter that is the next child
of a frame with a known count: the fast path enters it. -/
theorem ParamBegin_encoded (E : Externals) (r : CBinaryReader) (back : SBinaryParm)
    (rest : List SBinaryParm) (pkName : String) (len : Nat)
    (hstack : r.mBinaryParmStack = back :: rest)
    (hres : back.NumChildren ≠ 0xFFFFFFFF)
    (hidx : back.ChildIndex < back.NumChildren)
    (hseg : seg r.mpStream.data r.mpStream.pos
      (u32be (E.Hash32 pkName % U32) ++ sizeField (r.sizeWidth E) len))
    (hlen : len < sizeBound (r.sizeWidth E))
    (hdata : r.mpStream.data.length < U32) :
    r.ParamBegin E pkName 0 = some (true,
      { r with
        mpStream := { r.mpStream with pos := r.mpStream.pos + 4 + r.sizeWidth E }
        mBinaryParmStack :=
          { Offset := r.mpStream.pos + 4 + r.sizeWidth E, Size := len,
            NumChildren := 0xFFFFFFFF, ChildIndex := 0 } :: back :: rest }) := by
  have hle := seg_length_le hseg
  rw [List.length_append, length_sizeField] at hle
  have h4 : (u32be (E.Hash32 pkName % U32)).length = 4 := rfl
  rw [h4] at hle
  have hid : beNat r.mpStream.data r.mpStream.pos 4 = E.Hash32 pkName % U32 := by
    rw [seg_beNat (seg_append_left hseg) 4 (by simp [u32be]), beNat_u32be]
    exact Nat.mod_eq_of_lt (Nat.mod_lt _ (by decide))
  have hsz : r.sizeAt E (r.mpStream.pos + 4) = len := by
    have := seg_append_right hseg
    rw [h4] at this
    exact sizeAt_of_seg E r _ _ this (by omega) hlen
  rw [ParamBegin_fast_hit E r back rest pkName 0 hstack hres hidx (Or.inl hid), hsz,
    Nat.mod_eq_of_lt (by omega)]

/-- `ParamBegin` on the first child of a frame whose count is still unread:
the count is read, then the fast path enters the child. -/
theorem ParamBegin_encoded_first (E : Externals) (r : CBinaryReader) (back : SBinaryParm)
    (rest : List SBinaryParm) (pkName : String) (n len : Nat)
    (hstack : r.mBinaryParmStack = back :: rest)
    (hunres : back.NumChildren = 0xFFFFFFFF)
    (hidx : back.ChildIndex < n)
    (hseg : seg r.mpStream.data r.mpStream.pos
      (sizeField (r.sizeWidth E) n
        ++ (u32be (E.Hash32 pkName % U32) ++ sizeField (r.sizeWidth E) len)))
    (hn : n < sizeBound (r.sizeWidth E)) (hn' : n ≠ 0xFFFFFFFF)
    (hlen : len < sizeBound (r.sizeWidth E))
    (hdata : r.mpStream.data.length < U32) :
    r.ParamBegin E pkName 0 = some (true,
      { r with
        mpStream :=
          { r.mpStream with pos := r.mpStream.pos + r.sizeWidth E + 4 + r.sizeWidth E }
        mBinaryParmStack :=
          { Offset := r.mpStream.pos + r.sizeWidth E + 4 + r.sizeWidth E, Size := len,
            NumChildren := 0xFFFFFFFF, ChildIndex := 0 }
            :: { back with NumChildren := n } :: rest }) := by
  have hle := seg_length_le hseg
  rw [List.length_append, length_sizeField] at hle
  have hcount : r.sizeAt E r.mpStream.pos = n :=
    sizeAt_of_seg E r _ _ (seg_append_left hseg) (by omega) hn
  rw [ParamBegin_unresolved E r back rest pkName 0 hstack hunres (by rw [hcount]; exact hn')
    (by omega), hcount]
  have hseg2 := seg_append_right hseg
  rw [length_sizeField] at hseg2
  have hskip : r.mpStream.Skip (r.sizeWidth E)
      = { r.mpStream with pos := r.mpStream.pos + r.sizeWidth E } := by
    unfold IInputStream.Skip
    rw [Nat.mod_eq_of_lt (by omega)]
  rw [hskip]
  exact ParamBegin_encoded E _ { back with NumChildren := n } rest pkName len rfl hn' hidx
    hseg2 hlen hdata

/-- `ParamEnd` below the root, in closed form. -/
theorem ParamEnd_cons (r : CBinaryReader) (top parent : SBinaryParm) (below : List SBinaryParm)
    (hstack : r.mBinaryParmStack = top :: parent :: below) :
    r.ParamEnd = some
      { r with
        mpStream := { r.mpStream with pos := (top.Offset + top.Size) % U32 }
        mBinaryParmStack :=
          { parent with ChildIndex := (parent.ChildIndex + 1) % U32 } :: below } := by
  unfold ParamEnd
  rw [hstack]
  simp [IInputStream.GoTo]

end CBinaryReader

theorem map_byteAt_range (l : List Nat) (hb : ∀ b ∈ l, b < 256) :
    (List.range l.length).map (fun i => byteAt l i) = l := by
  apply List.ext_getElem
  · simp
  · intro i h1 h2
    simp only [List.getElem_map, List.getElem_range, byteAt]
    rw [List.getD_eq_getElem _ _ h2]
    exact Nat.mod_eq_of_lt (hb _ (List.getElem_mem _))

/-- Reading the bytes of a payload that stands at the cursor gives the payload. -/
theorem SerializeBulkData_of_seg (r : CBinaryReader) (payload : List Nat)
    (hseg : seg r.mpStream.data r.mpStream.pos payload) (hb : ∀ b ∈ payload, b < 256) :
    (r.SerializeBulkData payload.length).1 = payload := by
  unfold CBinaryReader.SerializeBulkData IInputStream.ReadBytes
  simp only
  rw [← map_byteAt_range payload hb]
  simp only [List.length_map, List.length_range]
  apply List.map_congr_left
  intro i hi
  exact seg_byteAt hseg i (List.mem_range.mp hi)

/-! ## In-order read of an encoded tree -/

theorem Param.encode_eq (E : Externals) (w : Nat) (p : Param) :
    p.encode E w =
      u32be (E.Hash32 p.name % U32) ++ sizeField w (p.body E w).length ++ p.body E w := by
  cases p <;> rfl

theorem readBack_cons_of_begin (E : Externals) (c : Param) (cs cs' : ParamList) (c' : Param)
    (r r2 r3 r4 : CBinaryReader) (fs fs' : List SBinaryParm)
    (h1 : r.ParamBegin E c.name 0 = some (true, r2))
    (h2 : c.readBody E r2 = some (c', fs, r3))
    (h3 : cs.readBack E r3 = some (cs', fs', r4)) :
    (ParamList.cons c cs).readBack E r = some (.cons c' cs', fs ++ fs', r4) := by
  rw [ParamList.readBack, h1]
  simp only [h2, h3]

theorem Param.body_length_lt (E : Externals) (w : Nat) (p : Param) (h : p.fits E w) :
    (p.body E w).length < sizeBound w := by
  cases p with
  | leaf name payload => exact h.1
  | node name children => exact h.1

theorem Param.encode_length (E : Externals) (r : CBinaryReader) (p : Param) :
    (p.encode E (r.sizeWidth E)).length = 4 + r.sizeWidth E + (p.body E (r.sizeWidth E)).length := by
  rw [Param.encode_eq, List.length_append, List.length_append, CBinaryReader.length_sizeField]
  rfl

theorem ParamList.length_le_encode (E : Externals) (r : CBinaryReader) :
    (ps : ParamList) → 4 * ps.length ≤ (ps.encode E (r.sizeWidth E)).length
  | .nil => by simp [ParamList.length, ParamList.encode]
  | .cons p ps => by
    have ih := ParamList.length_le_encode E r ps
    rw [ParamList.encode, List.length_append, Param.encode_length, ParamList.length]
    omega

theorem sizeBound_le (w : Nat) : sizeBound w ≤ U32 := by
  unfold sizeBound U32
  split <;> omega

mutual
/-- Reading back the content of an encoded parameter just entered: the tree,
the frames and the final reader are as written. -/
theorem Param.readBody_encode (E : Externals) (w : Nat) :
    (p : Param) → ∀ (r1 : CBinaryReader) (back : SBinaryParm) (rest : List SBinaryParm),
      r1.sizeWidth E = w →
      r1.mBinaryParmStack =
        { Offset := r1.mpStream.pos, Size := (p.body E w).length,
          NumChildren := 0xFFFFFFFF, ChildIndex := 0 } :: back :: rest →
      seg r1.mpStream.data r1.mpStream.pos (p.body E w) →
      r1.mpStream.data.length < U32 → back.ChildIndex + 1 < U32 → p.fits E w →
      p.readBody E r1 = some (p, p.frames E w r1.mpStream.pos,
        { r1 with
          mpStream := { r1.mpStream with pos := r1.mpStream.pos + (p.body E w).length }
          mBinaryParmStack := { back with ChildIndex := back.ChildIndex + 1 } :: rest })
  | .leaf name payload, r1, back, rest, hw, hstack, hseg, hdata, hidx, hfit => by
    have hle := seg_length_le hseg
    simp only [Param.body] at hstack hseg hle ⊢
    obtain ⟨_, hbytes⟩ := hfit
    rw [Param.readBody, hstack]
    simp only
    have hb := SerializeBulkData_of_seg r1 payload hseg hbytes
    rw [hb]
    rw [CBinaryReader.ParamEnd_cons _ _ back rest (by
      simp only [CBinaryReader.SerializeBulkData]; exact hstack)]
    simp only [CBinaryReader.SerializeBulkData, IInputStream.ReadBytes, IInputStream.Skip,
      Param.frames]
    rw [Nat.mod_eq_of_lt hidx,
      Nat.mod_eq_of_lt (show r1.mpStream.pos + payload.length < U32 by omega)]
  | .node name .nil, r1, back, rest, hw, hstack, hseg, hdata, hidx, hfit => by
    have hle := seg_length_le hseg
    simp only [Param.body, ParamList.encode, ParamList.length, List.append_nil] at hstack hseg hle ⊢
    rw [Param.readBody, hstack]
    simp only [ParamList.readBack]
    rw [CBinaryReader.ParamEnd_cons _ _ back rest hstack]
    simp only [Param.frames, ParamList.frames, ParamList.encode, ParamList.length,
      List.append_nil]
    rw [Nat.mod_eq_of_lt hidx,
      Nat.mod_eq_of_lt (show r1.mpStream.pos + (sizeField w 0).length < U32 by omega)]
  | .node name (.cons c cs), r1, back, rest, hw, hstack, hseg, hdata, hidx, hfit => by
    subst hw
    obtain ⟨hsize, hfc, hfcs⟩ := hfit
    have hcount := ParamList.length_le_encode E r1 (.cons c cs)
    have hbound := sizeBound_le (r1.sizeWidth E)
    have hlen := Param.encode_length E r1 c
    have hle := seg_length_le hseg
    simp only [Param.body, ParamList.encode, ParamList.length, List.length_append,
      CBinaryReader.length_sizeField] at hstack hseg hle hsize hcount ⊢
    have hn : cs.length + 1 < sizeBound (r1.sizeWidth E) := by omega
    have hn' : cs.length + 1 ≠ 0xFFFFFFFF := by
      unfold U32 at hbound
      omega
    have hsplit : sizeField (r1.sizeWidth E) (cs.length + 1)
          ++ (c.encode E (r1.sizeWidth E) ++ cs.encode E (r1.sizeWidth E))
        = (sizeField (r1.sizeWidth E) (cs.length + 1)
            ++ (u32be (E.Hash32 c.name % U32)
              ++ sizeField (r1.sizeWidth E) (c.body E (r1.sizeWidth E)).length))
          ++ (c.body E (r1.sizeWidth E) ++ cs.encode E (r1.sizeWidth E)) := by
      rw [Param.encode_eq]
      simp only [List.append_assoc]
    have hseg2 := hseg
    rw [hsplit] at hseg2
    have hrest := seg_append_right hseg2
    rw [List.length_append, List.length_append, CBinaryReader.length_sizeField,
      CBinaryReader.length_sizeField, show (u32be (E.Hash32 c.name % U32)).length = 4 from rfl,
      ← Nat.add_assoc, ← Nat.add_assoc] at hrest
    have hsegcs := seg_append_right hrest
    have h1 := CBinaryReader.ParamBegin_encoded_first E r1 _ (back :: rest) c.name
      (cs.length + 1) _ hstack rfl (by simp only; omega) (seg_append_left hseg2) hn hn'
      (Param.body_length_lt E _ c hfc) hdata
    have h2 := Param.readBody_encode E (r1.sizeWidth E) c
      { r1 with
        mpStream :=
          { r1.mpStream with pos := r1.mpStream.pos + r1.sizeWidth E + 4 + r1.sizeWidth E }
        mBinaryParmStack :=
          { Offset := r1.mpStream.pos + r1.sizeWidth E + 4 + r1.sizeWidth E,
            Size := (c.body E (r1.sizeWidth E)).length,
            NumChildren := 0xFFFFFFFF, ChildIndex := 0 }
            :: { Offset := r1.mpStream.pos,
                 Size := r1.sizeWidth E
                   + ((c.encode E (r1.sizeWidth E)).length + (cs.encode E (r1.sizeWidth E)).length),
                 NumChildren := cs.length + 1, ChildIndex := 0 } :: back :: rest }
      _ (back :: rest) rfl rfl (seg_append_left hrest) hdata (by unfold U32; simp only; omega) hfc
    have h3 := ParamList.readBack_encode E (r1.sizeWidth E) cs
      { r1 with
        mpStream :=
          { r1.mpStream with
            pos := r1.mpStream.pos + r1.sizeWidth E + 4 + r1.sizeWidth E
              + (c.body E (r1.sizeWidth E)).length }
        mBinaryParmStack :=
          { Offset := r1.mpStream.pos,
            Size := r1.sizeWidth E
              + ((c.encode E (r1.sizeWidth E)).length + (cs.encode E (r1.sizeWidth E)).length),
            NumChildren := cs.length + 1, ChildIndex := 0 + 1 } :: back :: rest }
      _ (back :: rest) rfl rfl hn' (by simp only; omega) (by simp only; omega) hsegcs hdata hfcs
    have hcons := readBack_cons_of_begin E c cs cs c r1 _ _ _ _ _ h1 h2 h3
    rw [Param.readBody, hstack]
    simp only [hcons]
    rw [CBinaryReader.ParamEnd_cons _ _ back rest rfl]
    simp only [Param.frames, ParamList.frames, ParamList.encode, ParamList.length,
      List.length_append, CBinaryReader.length_sizeField]
    have e1 : r1.mpStream.pos + r1.sizeWidth E + 4 + r1.sizeWidth E
          + (c.body E (r1.sizeWidth E)).length
        = r1.mpStream.pos + r1.sizeWidth E + (c.encode E (r1.sizeWidth E)).length := by omega
    rw [Nat.mod_eq_of_lt hidx,
      Nat.mod_eq_of_lt (show r1.mpStream.pos + (r1.sizeWidth E
        + ((c.encode E (r1.sizeWidth E)).length + (cs.encode E (r1.sizeWidth E)).length))
          < U32 by omega)]
    simp only [e1]
/-- Reading back an encoded run of children below a frame with a known
count: the trees, the frames and the final reader are as written. -/
theorem ParamList.readBack_encode (E : Externals) (w : Nat) :
    (ps : ParamList) → ∀ (r : CBinaryReader) (back : SBinaryParm) (rest : List SBinaryParm),
      r.sizeWidth E = w →
      r.mBinaryParmStack = back :: rest →
      back.NumChildren ≠ 0xFFFFFFFF → back.ChildIndex + ps.length ≤ back.NumChildren →
      back.NumChildren < U32 →
      seg r.mpStream.data r.mpStream.pos (ps.encode E w) →
      r.mpStream.data.length < U32 → ps.fits E w →
      ps.readBack E r = some (ps, ps.frames E w r.mpStream.pos,
        { r with
          mpStream := { r.mpStream with pos := r.mpStream.pos + (ps.encode E w).length }
          mBinaryParmStack := { back with ChildIndex := back.ChildIndex + ps.length } :: rest })
  | .nil, r, back, rest, hw, hstack, hres, hcnt, hnum, hseg, hdata, hfit => by
    simp only [ParamList.readBack, ParamList.frames, ParamList.encode, ParamList.length,
      List.length_nil, Nat.add_zero]
    rw [← hstack]
  | .cons c cs, r, back, rest, hw, hstack, hres, hcnt, hnum, hseg, hdata, hfit => by
    subst hw
    obtain ⟨hfc, hfcs⟩ := hfit
    simp only [ParamList.length, ParamList.encode] at hcnt hseg
    have hlen := Param.encode_length E r c
    have hsegc := seg_append_left hseg
    have hsegcs := seg_append_right hseg
    have hle := seg_length_le hseg
    rw [List.length_append] at hle
    rw [Param.encode_eq] at hsegc
    have hbody := seg_append_right hsegc
    rw [List.length_append, CBinaryReader.length_sizeField,
      show (u32be (E.Hash32 c.name % U32)).length = 4 from rfl, ← Nat.add_assoc] at hbody
    have h1 := CBinaryReader.ParamBegin_encoded E r back rest c.name _ hstack hres
      (by omega) (seg_append_left hsegc) (Param.body_length_lt E _ c hfc) hdata
    have h2 := Param.readBody_encode E (r.sizeWidth E) c
      { r with
        mpStream := { r.mpStream with pos := r.mpStream.pos + 4 + r.sizeWidth E }
        mBinaryParmStack :=
          { Offset := r.mpStream.pos + 4 + r.sizeWidth E,
            Size := (c.body E (r.sizeWidth E)).length,
            NumChildren := 0xFFFFFFFF, ChildIndex := 0 } :: back :: rest }
      back rest rfl rfl hbody hdata (by omega) hfc
    have h3 := ParamList.readBack_encode E (r.sizeWidth E) cs
      { r with
        mpStream :=
          { r.mpStream with
            pos := r.mpStream.pos + 4 + r.sizeWidth E + (c.body E (r.sizeWidth E)).length }
        mBinaryParmStack := { back with ChildIndex := back.ChildIndex + 1 } :: rest }
      { back with ChildIndex := back.ChildIndex + 1 } rest rfl rfl hres (by simp only; omega)
      hnum (by
        have e : r.mpStream.pos + 4 + r.sizeWidth E + (c.body E (r.sizeWidth E)).length
            = r.mpStream.pos + (c.encode E (r.sizeWidth E)).length := by omega
        simp only [e]
        exact hsegcs) hdata hfcs
    rw [readBack_cons_of_begin E c cs cs c r _ _ _ _ _ h1 h2 h3]
    simp only [ParamList.frames, ParamList.encode, ParamList.length, List.length_append]
    have e1 : r.mpStream.pos + 4 + r.sizeWidth E + (c.body E (r.sizeWidth E)).length
        = r.mpStream.pos + (c.encode E (r.sizeWidth E)).length := by omega
    have e2 : r.mpStream.pos + (c.encode E (r.sizeWidth E)).length
          + (cs.encode E (r.sizeWidth E)).length
        = r.mpStream.pos + ((c.encode E (r.sizeWidth E)).length
          + (cs.encode E (r.sizeWidth E)).length) := by omega
    have e3 : back.ChildIndex + 1 + cs.length = back.ChildIndex + (cs.length + 1) := by omega
    simp only [e1, e2, e3]
end

theorem seg_self (data : List Nat) : seg data 0 data :=
  ⟨[], [], by simp, rfl⟩

/-- In-order round trip below the sign bit. For a file written according to
the wire layout whose archive version is not the legacy sentinel, whose sizes
and counts all lie below `sizeBound` (every 32-bit value, and the 16-bit values
below `0x8000`) and which is shorter than 4 GiB, the reader built by the path
constructor, asked for the same names in the same nesting order, enters every
parameter, pushes for each one the frame of its payload start and declared size,
reads back every leaf as written, and ends at the end of the file with the root
frame counting all its children. -/
theorem in_order_round_trip (E : Externals) (magic av fv gc : Nat) (children : ParamList)
    (Magic : Nat) (uninit : Bool)
    (hav : av < 65535)
    (hfit : children.fits E (if av < E.eArVer_32BitBinarySize then 2 else 4))
    (hcount : children.length < sizeBound (if av < E.eArVer_32BitBinarySize then 2 else 4))
    (hlen : (encodeFile E magic av fv gc children).length < U32) :
    ∃ root : SBinaryParm,
      (CBinaryReader.fromFile E (encodeFile E magic av fv gc children) true Magic
          uninit).mBinaryParmStack = [root] ∧
      root.Offset = 16 + (if av < E.eArVer_32BitBinarySize then 2 else 4) ∧
      root.NumChildren = children.length ∧
      children.readBack E
          (CBinaryReader.fromFile E (encodeFile E magic av fv gc children) true Magic uninit)
        = some (children,
            children.frames E (if av < E.eArVer_32BitBinarySize then 2 else 4)
              (16 + 2 * (if av < E.eArVer_32BitBinarySize then 2 else 4)),
            { (CBinaryReader.fromFile E (encodeFile E magic av fv gc children) true Magic
                uninit) with
              mpStream :=
                { data := encodeFile E magic av fv gc children,
                  pos := (encodeFile E magic av fv gc children).length, valid := true }
              mBinaryParmStack := [{ root with ChildIndex := children.length }] }) := by
  generalize hfile : encodeFile E magic av fv gc children = file at hlen ⊢
  have h0 : seg file 0 (encodeFile E magic av fv gc children) := by
    rw [hfile]
    exact seg_self file
  unfold encodeFile encodeRoot at h0
  have hroot := seg_append_right h0
  have hav2 := seg_append_right (seg_append_left (seg_append_left (seg_append_left h0)))
  simp only [List.length_append, show ∀ v, (u32be v).length = 4 from fun _ => rfl,
    show ∀ v, (u16be v).length = 2 from fun _ => rfl, Nat.zero_add] at hroot hav2
  have hver : beNat file 4 2 = av := by
    rw [seg_beNat hav2 2 (by simp [u16be]), beNat_u16be]
    omega
  rw [fromFile_opened, hver, if_neg (by omega), CBinaryReader.InitParamStack_eq]
  generalize hr0 :
    ({ mArchiveVersion := av, mFileVersion := beNat file 6 2,
       mGame := E.GameFrom4CC (beNat file 8 4), mBinaryParmStack := [],
       mpStream := { data := file, pos := 12, valid := true },
       mMagicValid := decide (beNat file 0 4 = Magic % U32),
       mOwnsStream := true, mInAttribute := false } : CBinaryReader) = r0
  have hw : r0.sizeWidth E = (if av < E.eArVer_32BitBinarySize then 2 else 4) := by
    rw [← hr0]
    rfl
  have hpos : r0.mpStream.pos = 12 := by rw [← hr0]
  have hdat : r0.mpStream.data = file := by rw [← hr0]
  have hst : r0.mBinaryParmStack = [] := by rw [← hr0]
  have hval : r0.mpStream.valid = true := by rw [← hr0]
  rw [← hw] at hroot hfit hcount ⊢
  have hbody := seg_append_right hroot
  rw [List.length_append, CBinaryReader.length_sizeField,
    show (u32be 0xFFFFFFFF).length = 4 from rfl] at hbody
  rw [show 4 + 2 + 2 + 4 + (4 + r0.sizeWidth E) = 12 + 4 + r0.sizeWidth E by omega] at hbody
  have hcnt := seg_append_left hbody
  have henc := seg_append_right hbody
  rw [CBinaryReader.length_sizeField] at henc
  have hle := seg_length_le henc
  have hwc := CBinaryReader.sizeWidth_cases E r0
  have hbound := sizeBound_le (r0.sizeWidth E)
  have h4 := ParamList.length_le_encode E r0 children
  have hnum : r0.sizeAt E (r0.mpStream.pos + 4 + r0.sizeWidth E) = children.length := by
    rw [hpos]
    exact CBinaryReader.sizeAt_of_seg E r0 _ _ (by rw [hdat]; exact hcnt)
      (by unfold U32 at *; omega) hcount
  have hne : children.length ≠ 0xFFFFFFFF := by
    unfold U32 at *
    omega
  rw [hnum, hst, hpos]
  have e1 : (12 + 4 + r0.sizeWidth E) % U32 = 16 + r0.sizeWidth E := by
    unfold U32 at *
    omega
  have e2 : (12 + 4 + 2 * r0.sizeWidth E) % U32 = 16 + 2 * r0.sizeWidth E := by
    unfold U32 at *
    omega
  rw [e1, e2]
  refine ⟨_, rfl, rfl, rfl, ?_⟩
  have hmain := ParamList.readBack_encode E (r0.sizeWidth E) children
    { r0 with
      mpStream := { r0.mpStream with pos := 16 + 2 * r0.sizeWidth E }
      mBinaryParmStack :=
        [{ Offset := 16 + r0.sizeWidth E, Size := r0.sizeAt E (12 + 4),
           NumChildren := children.length, ChildIndex := 0 }] }
    _ [] rfl rfl hne (by simp only; omega) (by unfold U32 at *; simp only; omega)
    (by
      simp only [hdat]
      have e : 16 + 2 * r0.sizeWidth E = 12 + 4 + r0.sizeWidth E + r0.sizeWidth E := by omega
      rw [e]
      exact henc)
    (by simp only [hdat]; exact hlen) hfit
  rw [hmain]
  simp only [hdat, hval, Nat.zero_add]
  have e3 : 16 + 2 * r0.sizeWidth E + (children.encode E (r0.sizeWidth E)).length = file.length := by
    rw [← hfile]
    unfold encodeFile encodeRoot
    rw [← hw]
    simp only [List.length_append, CBinaryReader.length_sizeField,
      show ∀ v, (u32be v).length = 4 from fun _ => rfl,
      show ∀ v, (u16be v).length = 2 from fun _ => rfl]
    omega
  rw [e3]

/-- The round trip on `nestedTree` written with 16-bit size fields. -/
theorem in_order_round_trip_nestedTree :
    ∃ root : SBinaryParm,
      (CBinaryReader.fromFile sampleE (encodeFile sampleE 0x1234 0 1 0x41424344 nestedTree)
          true 0x1234 false).mBinaryParmStack = [root] ∧
      root.Offset = 16 + (if 0 < sampleE.eArVer_32BitBinarySize then 2 else 4) ∧
      root.NumChildren = nestedTree.length ∧
      nestedTree.readBack sampleE
          (CBinaryReader.fromFile sampleE (encodeFile sampleE 0x1234 0 1 0x41424344 nestedTree)
            true 0x1234 false)
        = some (nestedTree,
            nestedTree.frames sampleE (if 0 < sampleE.eArVer_32BitBinarySize then 2 else 4)
              (16 + 2 * (if 0 < sampleE.eArVer_32BitBinarySize then 2 else 4)),
            { (CBinaryReader.fromFile sampleE
                (encodeFile sampleE 0x1234 0 1 0x41424344 nestedTree) true 0x1234 false) with
              mpStream :=
                { data := encodeFile sampleE 0x1234 0 1 0x41424344 nestedTree,
                  pos := (encodeFile sampleE 0x1234 0 1 0x41424344 nestedTree).length,
                  valid := true }
              mBinaryParmStack := [{ root with ChildIndex := nestedTree.length }] }) :=
  in_order_round_trip sampleE 0x1234 0 1 0x41424344 nestedTree 0x1234 false (by decide)
    (by
      simp [nestedTree, ParamList.fits, Param.fits, ParamList.encode, Param.encode,
        ParamList.length, sizeField, sizeBound, u16be, u32be, sampleE])
    (by decide) (by decide)

/-! ## The fallback scan on the scenario of the spec, for any name hash -/

theorem byteAt_beyond (data : List Nat) (i : Nat) (h : data.length ≤ i) : byteAt data i = 0 := by
  unfold byteAt
  rw [List.getD_eq_default _ _ h]

theorem beNat_beyond (data : List Nat) (p : Nat) (h : data.length ≤ p) :
    ∀ n, beNat data p n = 0 := by
  intro n
  induction n with
  | zero => rfl
  | succ n ih => rw [beNat, ih, byteAt_beyond data (p + n) (by omega)]

theorem seg_beNat_off {data : List Nat} {p : Nat} {l : List Nat} (h : seg data p l) (i : Nat) :
    ∀ n, i + n ≤ l.length → beNat data (p + i) n = beNat l i n := by
  intro n
  induction n with
  | zero => intro _; rfl
  | succ n ih =>
    intro hn
    rw [beNat, beNat, ih (by omega), Nat.add_assoc, seg_byteAt h (i + n) (by omega)]

/-- The file of the scenario of the spec for an arbitrary name hash, byte by
byte, when archive version 5 has 32-bit size fields. -/
theorem scenario_bytes (E : Externals) (hthr : ¬ 5 < E.eArVer_32BitBinarySize) :
    encodeFile E 0x1234 5 1 0x41424344 scenarioTree =
      [0, 0, 18, 52, 0, 5, 0, 1, 65, 66, 67, 68, 255, 255, 255, 255, 0, 0, 0, 28, 0, 0, 0, 2]
        ++ (u32be (E.Hash32 "X" % U32) ++ ([0, 0, 0, 4, 0, 0, 0, 7]
        ++ (u32be (E.Hash32 "Y" % U32) ++ [0, 0, 0, 4, 0, 0, 0, 9]))) := by
  simp [encodeFile, encodeRoot, scenarioTree, ParamList.encode, Param.encode, ParamList.length,
    sizeField, hthr, u16be, u32be]

/-- Reverse order on the scenario of the spec, whatever the name hash: when
archive version 5 has 32-bit size fields, the hash of `Y` is neither that of
`X` nor 0 nor 2, and the hash of `X` lies between 20 and `2^32 - 29`, asking the
root for `Y` first returns false and leaves the reader as it was. The scan reads
its first record on the child count at 20 (id 2, size the hash of `X`) and its
second one past the end of the file. -/
theorem reverse_order_misses_for_any_hash (E : Externals) (Magic : Nat) (uninit : Bool)
    (hthr : ¬ 5 < E.eArVer_32BitBinarySize)
    (hXY : E.Hash32 "Y" % U32 ≠ E.Hash32 "X" % U32)
    (hY0 : E.Hash32 "Y" % U32 ≠ 0) (hY2 : E.Hash32 "Y" % U32 ≠ 2)
    (hX1 : 20 ≤ E.Hash32 "X" % U32) (hX2 : E.Hash32 "X" % U32 + 29 ≤ U32) :
    (CBinaryReader.fromFile E (encodeFile E 0x1234 5 1 0x41424344 scenarioTree) true Magic
        uninit).mBinaryParmStack
        = [{ Offset := 20, Size := 28, NumChildren := 2, ChildIndex := 0 }] ∧
      (CBinaryReader.fromFile E (encodeFile E 0x1234 5 1 0x41424344 scenarioTree) true Magic
        uninit).mpStream.pos = 24 ∧
      CBinaryReader.ParamBegin E
          (CBinaryReader.fromFile E (encodeFile E 0x1234 5 1 0x41424344 scenarioTree) true Magic
            uninit) "Y" 0
        = some (false,
            CBinaryReader.fromFile E (encodeFile E 0x1234 5 1 0x41424344 scenarioTree) true Magic
              uninit) := by
  have hbytes := scenario_bytes E hthr
  generalize hhX : E.Hash32 "X" % U32 = hX at *
  generalize hhY : E.Hash32 "Y" % U32 = hY at *
  generalize hfile : encodeFile E 0x1234 5 1 0x41424344 scenarioTree = file at *
  have hXlt : hX < U32 := by rw [← hhX]; exact Nat.mod_lt _ (by decide)
  have hlen : file.length = 48 := by rw [hbytes]; rfl
  have h0 : seg file 0
      ([0, 0, 18, 52, 0, 5, 0, 1, 65, 66, 67, 68, 255, 255, 255, 255, 0, 0, 0, 28, 0, 0, 0, 2]
        ++ (u32be hX ++ ([0, 0, 0, 4, 0, 0, 0, 7] ++ (u32be hY ++ [0, 0, 0, 4, 0, 0, 0, 9])))) := by
    rw [← hbytes]
    exact seg_self file
  have hpre := seg_append_left h0
  have hsX := seg_append_left (seg_append_right h0)
  simp only [List.length_cons, List.length_nil, Nat.zero_add, Nat.reduceAdd,
    show (u32be hX).length = 4 from rfl] at hsX
  have b4 : beNat file 4 2 = 5 := by
    have := seg_beNat_off hpre 4 2 (by decide)
    rw [Nat.zero_add] at this
    rw [this]
    decide
  have b6 : beNat file 6 2 = 1 := by
    have := seg_beNat_off hpre 6 2 (by decide)
    rw [Nat.zero_add] at this
    rw [this]
    decide
  have b16 : beNat file 16 4 = 28 := by
    have := seg_beNat_off hpre 16 4 (by decide)
    rw [Nat.zero_add] at this
    rw [this]
    decide
  have b20 : beNat file 20 4 = 2 := by
    have := seg_beNat_off hpre 20 4 (by decide)
    rw [Nat.zero_add] at this
    rw [this]
    decide
  have b24 : beNat file 24 4 = hX := by
    rw [seg_beNat hsX 4 (by rfl), beNat_u32be]
    exact Nat.mod_eq_of_lt hXlt
  have hR : CBinaryReader.fromFile E file true Magic uninit =
      { mArchiveVersion := 5, mFileVersion := 1, mGame := E.GameFrom4CC (beNat file 8 4),
        mBinaryParmStack := [{ Offset := 20, Size := 28, NumChildren := 2, ChildIndex := 0 }],
        mpStream := { data := file, pos := 24, valid := true },
        mMagicValid := decide (beNat file 0 4 = Magic % U32),
        mOwnsStream := true, mInAttribute := false } := by
    rw [fromFile_opened, b4, if_neg (by decide), b6, CBinaryReader.InitParamStack_eq]
    simp [CBinaryReader.sizeAt_explicit, CBinaryReader.sizeWidth, hthr, U32, b16, b20,
      toU32_toSigned32]
  rw [hR]
  refine ⟨rfl, rfl, ?_⟩
  unfold CBinaryReader.ParamBegin
  simp only [show ((2 : Nat) = 0xFFFFFFFF) = False from by simp, if_false]
  unfold CBinaryReader.ParamBeginResolved
  have hid : toU32 (IInputStream.ReadLong { data := file, pos := 24, valid := true }).1 = hX := by
    rw [← b24]
    exact toU32_toSigned32 _ (beNat_four_lt _ _)
  simp only [show (0 : Nat) < 2 from by decide, if_true, hid, hhY]
  rw [if_neg (by
    intro h
    rcases h with h | h
    · exact hXY h.symm
    · simp at h)]
  unfold CBinaryReader.ParamBeginScan
  simp only [IInputStream.GoTo, IInputStream.Tell, CBinaryReader.ReadSize_snd,
    IInputStream.ReadLong, IInputStream.Skip]
  rw [CBinaryReader.scanChildren_succ]
  simp only [show (20 : Nat) % U32 = 20 from by decide, b20]
  rw [if_pos (fun h => hY2 h.symm), CBinaryReader.scanChildren_succ]
  have hsz : CBinaryReader.sizeAt E
      { mArchiveVersion := 5, mFileVersion := 1, mGame := E.GameFrom4CC (beNat file 8 4),
        mBinaryParmStack := [{ Offset := 20, Size := 28, NumChildren := 2, ChildIndex := 0 }],
        mpStream := { data := file, pos := 20, valid := true },
        mMagicValid := decide (beNat file 0 4 = Magic % U32),
        mOwnsStream := true, mInAttribute := false } (20 + 4) = hX := by
    simp [CBinaryReader.sizeAt_explicit, hthr, U32, b24, toU32_toSigned32 _ hXlt]
  simp only [hsz, CBinaryReader.sizeWidth, hthr, if_false, IInputStream.Skip]
  have hq : ((20 + 4) % U32 + 4) % U32 = 28 := by decide
  have hq2 : (28 + hX) % U32 = 28 + hX := Nat.mod_eq_of_lt (by omega)
  simp only [hq, hq2]
  rw [beNat_beyond file (28 + hX) (by omega), if_pos (fun h => hY0 h.symm)]
  simp [CBinaryReader.scanChildren, U32]

/-! ## What the operations leave alone -/

namespace CBinaryReader

/-- The scan and the rollback touch only the cursor and the stack. -/
theorem ParamBeginScan_frame (E : Externals) (r : CBinaryReader) (back : SBinaryParm)
    (rest : List SBinaryParm) (Offset ParamID : Nat) :
    ∃ q st, (ParamBeginScan E r back rest Offset ParamID).2 =
      { r with mpStream := { r.mpStream with pos := q }, mBinaryParmStack := st } := by
  unfold ParamBeginScan
  simp only
  obtain ⟨q, hq⟩ := scanChildren_frame E ParamID back.NumChildren 0
    { r with mpStream := r.mpStream.GoTo back.Offset }
  cases hres : scanChildren E ParamID back.NumChildren 0
      { r with mpStream := r.mpStream.GoTo back.Offset } with
  | mk found r2 =>
    rw [hres] at hq
    simp only at hq
    subst hq
    cases found with
    | none => exact ⟨_, _, rfl⟩
    | some x => exact ⟨_, _, rfl⟩

/-- Lines 100-143 touch only the cursor and the stack. -/
theorem ParamBeginResolved_frame (E : Externals) (r : CBinaryReader) (back : SBinaryParm)
    (rest : List SBinaryParm) (pkName : String) (Flags : Nat) :
    ∃ q st, (ParamBeginResolved E r back rest pkName Flags).2 =
      { r with mpStream := { r.mpStream with pos := q }, mBinaryParmStack := st } := by
  unfold ParamBeginResolved
  simp only [ReadSize_snd]
  split
  · split
    · exact ⟨_, _, rfl⟩
    · have hs := ParamBeginScan_frame E
        { r with
          mpStream :=
            (r.mpStream.ReadLong.2).Skip (sizeWidth E { r with mpStream := r.mpStream.ReadLong.2 }) }
        back rest r.mpStream.Tell (E.Hash32 pkName % U32)
      obtain ⟨q, st, h⟩ := hs
      exact ⟨q, st, by rw [h]; rfl⟩
  · exact ParamBeginScan_frame E r back rest _ _

/-- `ParamBegin` touches only the cursor and the stack: the bytes and the
validity of the stream, the version members and the magic flag stay. -/
theorem ParamBegin_frame (E : Externals) (r r' : CBinaryReader) (pkName : String)
    (Flags : Nat) (b : Bool) (h : r.ParamBegin E pkName Flags = some (b, r')) :
    ∃ q st, r' = { r with mpStream := { r.mpStream with pos := q }, mBinaryParmStack := st } := by
  unfold ParamBegin at h
  split at h
  · simp at h
  · rename_i back rest hstack
    split at h
    · obtain ⟨q, st, hq⟩ := ParamBeginResolved_frame E (r.ReadSize E).2
        { back with NumChildren := (r.ReadSize E).1 } rest pkName Flags
      simp only [Option.some.injEq] at h
      rw [h] at hq
      simp only at hq
      rw [hq, ReadSize_snd]
      exact ⟨q, st, rfl⟩
    · obtain ⟨q, st, hq⟩ := ParamBeginResolved_frame E r back rest pkName Flags
      simp only [Option.some.injEq] at h
      rw [h] at hq
      exact ⟨q, st, hq⟩

/-- `ParamEnd` touches only the cursor and the stack. -/
theorem ParamEnd_frame (r r' : CBinaryReader) (h : r.ParamEnd = some r') :
    ∃ q st, r' = { r with mpStream := { r.mpStream with pos := q }, mBinaryParmStack := st } := by
  unfold ParamEnd at h
  split at h
  · simp at h
  · rename_i rParam rest hstack
    simp only at h
    split at h
    · simp only [Option.some.injEq] at h
      exact ⟨_, _, h.symm⟩
    · simp only [Option.some.injEq] at h
      exact ⟨_, _, h.symm⟩

end CBinaryReader

/-- The example `readArchiveVer` leaves the magic flag and the validity of the
stream alone, as everything built from the reader's operations does. -/
theorem readArchiveVer_frame (r : CBinaryReader) :
    (readArchiveVer r).mMagicValid = r.mMagicValid ∧
      (readArchiveVer r).mpStream.valid = r.mpStream.valid := by
  unfold readArchiveVer
  split
  · rename_i r1 hb
    obtain ⟨q, st, h1⟩ := CBinaryReader.ParamBegin_frame sampleE r r1 "ArchiveVer" 0 true hb
    split
    · rename_i r2 he
      obtain ⟨q2, st2, h2⟩ := CBinaryReader.ParamEnd_frame _ r2 he
      rw [h2, h1]
      exact ⟨rfl, rfl⟩
    · rw [h1]
      exact ⟨rfl, rfl⟩
  · rename_i r1 hb
    obtain ⟨q, st, h1⟩ := CBinaryReader.ParamBegin_frame sampleE r r1 "ArchiveVer" 0 false hb
    rw [h1]
    exact ⟨rfl, rfl⟩
  · exact ⟨rfl, rfl⟩

/-- On one and the same legacy file, the archive version after construction
is the default with a `SerializeVersion` that does nothing, and 5 with one that
reads the parameter `ArchiveVer`: what the legacy branch leaves in the version
members is decided by `SerializeVersion`, not by the code of this file. -/
theorem legacy_version_depends_on_SerializeVersion :
    beNat legacyFile 4 2 = 0xFFFF ∧
      (CBinaryReader.fromFile sampleE legacyFile true 0x1234 false).mArchiveVersion
        = sampleE.defArchiveVersion ∧
      (CBinaryReader.fromFile versionReadingE legacyFile true 0x1234 false).mArchiveVersion = 5 ∧
      versionReadingE.defArchiveVersion = 0 := by
  decide

/-! ## The effect of `ParamBegin` on the stack -/

namespace CBinaryReader

/-- A hit of the scan loop: the index lies in the range scanned, the cursor
stands after a size field, and the stack is as it was. -/
theorem scanChildren_hit (E : Externals) (ParamID : Nat) (fuel : Nat) :
    ∀ (ChildIdx : Nat) (r r2 : CBinaryReader) (k sz : Nat),
      scanChildren E ParamID fuel ChildIdx r = (some (k, sz), r2) →
        ChildIdx ≤ k ∧ k < ChildIdx + fuel ∧ r2.mpStream.pos < U32 := by
  induction fuel with
  | zero =>
    intro ChildIdx r r2 k sz h
    simp [scanChildren] at h
  | succ fuel ih =>
    intro ChildIdx r r2 k sz h
    rw [scanChildren_succ] at h
    split at h
    · obtain ⟨h1, h2, h3⟩ := ih _ _ _ _ _ h
      exact ⟨by omega, by omega, h3⟩
    · simp only [Prod.mk.injEq, Option.some.injEq] at h
      obtain ⟨⟨hk, _⟩, hr⟩ := h
      subst hr
      refine ⟨by omega, by omega, ?_⟩
      simp only [IInputStream.Skip]
      exact Nat.mod_lt _ (by decide)

/-- A hit of lines 118-139: the parent frame keeps everything but its
`ChildIndex`, which becomes the index found, and the frame pushed starts at the
cursor. -/
theorem ParamBeginScan_true (E : Externals) (r r' : CBinaryReader) (back : SBinaryParm)
    (rest : List SBinaryParm) (Offset ParamID : Nat)
    (h : ParamBeginScan E r back rest Offset ParamID = (true, r')) :
    ∃ k sz, k < back.NumChildren ∧ r'.mpStream.pos < U32 ∧
      r'.mBinaryParmStack =
        { Offset := r'.mpStream.pos, Size := sz, NumChildren := 0xFFFFFFFF, ChildIndex := 0 }
          :: { back with ChildIndex := k } :: rest := by
  unfold ParamBeginScan at h
  simp only at h
  split at h
  · rename_i k sz r2 heq
    obtain ⟨_, h2, h3⟩ := scanChildren_hit E ParamID _ _ _ _ _ _ heq
    simp only [Prod.mk.injEq, true_and] at h
    subst h
    refine ⟨k, sz, by omega, h3, ?_⟩
    simp only [IInputStream.Tell]
    rw [Nat.mod_eq_of_lt h3]
  · simp at h

/-- A hit of lines 100-139, by the fast path or by the scan. -/
theorem ParamBeginResolved_true (E : Externals) (r r' : CBinaryReader) (back : SBinaryParm)
    (rest : List SBinaryParm) (pkName : String) (Flags : Nat)
    (h : ParamBeginResolved E r back rest pkName Flags = (true, r')) :
    ∃ ci sz, (ci = back.ChildIndex ∨ ci < back.NumChildren) ∧ r'.mpStream.pos < U32 ∧
      r'.mBinaryParmStack =
        { Offset := r'.mpStream.pos, Size := sz, NumChildren := 0xFFFFFFFF, ChildIndex := 0 }
          :: { back with ChildIndex := ci } :: rest := by
  unfold ParamBeginResolved at h
  simp only at h
  split at h
  · split at h
    · simp only [Prod.mk.injEq, true_and] at h
      subst h
      have hp : (ReadSize E { r with mpStream := r.mpStream.ReadLong.2 }).2.mpStream.pos < U32 := by
        rw [ReadSize_snd]
        simp only [IInputStream.Skip]
        exact Nat.mod_lt _ (by decide)
      refine ⟨back.ChildIndex, (ReadSize E { r with mpStream := r.mpStream.ReadLong.2 }).1,
        Or.inl rfl, hp, ?_⟩
      simp only [IInputStream.Tell]
      rw [Nat.mod_eq_of_lt hp]
    · obtain ⟨k, sz, hk, hp, hst⟩ := ParamBeginScan_true E _ _ _ _ _ _ h
      exact ⟨k, sz, Or.inr hk, hp, hst⟩
  · obtain ⟨k, sz, hk, hp, hst⟩ := ParamBeginScan_true E _ _ _ _ _ _ h
    exact ⟨k, sz, Or.inr hk, hp, hst⟩

/-- On a non-empty stack `ParamBegin` returns. -/
theorem ParamBegin_returns (E : Externals) (r : CBinaryReader) (back : SBinaryParm)
    (rest : List SBinaryParm) (pkName : String) (Flags : Nat)
    (hstack : r.mBinaryParmStack = back :: rest) :
    ∃ b r', r.ParamBegin E pkName Flags = some (b, r') := by
  unfold ParamBegin
  rw [hstack]
  simp only
  split
  · exact ⟨_, _, rfl⟩
  · exact ⟨_, _, rfl⟩

/-- Stack after a successful `ParamBegin`: one frame pushed, starting at the
cursor; the frame that was on top keeps its `Offset` and `Size`, has its child
count resolved, and the frames beneath it are as they were. -/
theorem ParamBegin_true (E : Externals) (r r' : CBinaryReader) (pkName : String) (Flags : Nat)
    (h : r.ParamBegin E pkName Flags = some (true, r')) :
    ∃ back rest ci sz, r.mBinaryParmStack = back :: rest ∧ r'.mpStream.pos < U32 ∧
      r'.mBinaryParmStack =
        { Offset := r'.mpStream.pos, Size := sz, NumChildren := 0xFFFFFFFF, ChildIndex := 0 }
          :: { back with
               NumChildren :=
                 if back.NumChildren = 0xFFFFFFFF then (r.ReadSize E).1 else back.NumChildren
               ChildIndex := ci } :: rest := by
  unfold ParamBegin at h
  split at h
  · simp at h
  · rename_i back rest hstack
    split at h
    · rename_i hN
      simp only [Option.some.injEq] at h
      obtain ⟨ci, sz, _, hp, hst⟩ := ParamBeginResolved_true E _ _ _ _ _ _ h
      exact ⟨back, rest, ci, sz, hstack, hp, by rw [hst, if_pos hN]⟩
    · rename_i hN
      simp only [Option.some.injEq] at h
      obtain ⟨ci, sz, _, hp, hst⟩ := ParamBeginResolved_true E _ _ _ _ _ _ h
      exact ⟨back, rest, ci, sz, hstack, hp, by rw [hst, if_neg hN]⟩

/-- Stack after a failed `ParamBegin`: the frames are those of before, the top
one with its child count resolved. -/
theorem ParamBegin_false (E : Externals) (r r' : CBinaryReader) (pkName : String) (Flags : Nat)
    (h : r.ParamBegin E pkName Flags = some (false, r')) :
    ∃ back rest, r.mBinaryParmStack = back :: rest ∧
      r'.mBinaryParmStack =
        { back with
          NumChildren :=
            if back.NumChildren = 0xFFFFFFFF then (r.ReadSize E).1 else back.NumChildren }
          :: rest := by
  unfold ParamBegin at h
  split at h
  · simp at h
  · rename_i back rest hstack
    split at h
    · rename_i hN
      simp only [Option.some.injEq] at h
      have := ParamBeginResolved_false E _ _ _ _ _ _ h
      exact ⟨back, rest, hstack, by rw [this, if_pos hN]⟩
    · rename_i hN
      simp only [Option.some.injEq] at h
      have := ParamBeginResolved_false E _ _ _ _ _ _ h
      exact ⟨back, rest, hstack, by rw [this, if_neg hN]⟩

end CBinaryReader

/-! ## The stack invariant -/

/-- `ParamBegin` keeps the stack invariant: it returns, and a success opens one
more parameter. -/
theorem ParamBegin_StackInv (E : Externals) (root : SBinaryParm) (r : CBinaryReader) (n : Nat)
    (pkName : String) (Flags : Nat) (hinv : StackInv root r n) :
    ∃ b r', r.ParamBegin E pkName Flags = some (b, r') ∧
      StackInv root r' (if b = true then n + 1 else n) := by
  obtain ⟨above, bottom, hst, hlen, ho, hs⟩ := hinv
  have hne : ∃ back rest, r.mBinaryParmStack = back :: rest := by
    cases above with
    | nil => exact ⟨bottom, [], hst⟩
    | cons a as => exact ⟨a, as ++ [bottom], hst⟩
  obtain ⟨back, rest, hstack⟩ := hne
  obtain ⟨b, r', hb⟩ := CBinaryReader.ParamBegin_returns E r back rest pkName Flags hstack
  refine ⟨b, r', hb, ?_⟩
  cases b with
  | true =>
    obtain ⟨back', rest', ci, sz, hstack', _, hst'⟩ := CBinaryReader.ParamBegin_true E r r' _ _ hb
    rw [hst] at hstack'
    unfold StackInv
    rw [hst']
    simp only [Bool.false_eq_true, if_true, if_false]
    cases above with
    | nil =>
      simp only [List.nil_append, List.cons.injEq] at hstack'
      obtain ⟨h1, h2⟩ := hstack'
      subst h1 h2
      exact ⟨[_], _, rfl, by simp [← hlen], ho, hs⟩
    | cons a as =>
      simp only [List.cons_append, List.cons.injEq] at hstack'
      obtain ⟨h1, h2⟩ := hstack'
      subst h1 h2
      exact ⟨_ :: _ :: as, bottom, rfl, by simp [← hlen], ho, hs⟩
  | false =>
    obtain ⟨back', rest', hstack', hst'⟩ := CBinaryReader.ParamBegin_false E r r' _ _ hb
    rw [hst] at hstack'
    unfold StackInv
    rw [hst']
    simp only [Bool.false_eq_true, if_true, if_false]
    cases above with
    | nil =>
      simp only [List.nil_append, List.cons.injEq] at hstack'
      obtain ⟨h1, h2⟩ := hstack'
      subst h1 h2
      exact ⟨[], _, rfl, by simp [← hlen], ho, hs⟩
    | cons a as =>
      simp only [List.cons_append, List.cons.injEq] at hstack'
      obtain ⟨h1, h2⟩ := hstack'
      subst h1 h2
      exact ⟨_ :: as, bottom, rfl, by simp [← hlen], ho, hs⟩

/-- `ParamEnd` with a parameter open keeps the stack invariant: it returns and
closes one parameter. -/
theorem ParamEnd_StackInv (root : SBinaryParm) (r : CBinaryReader) (n : Nat)
    (hinv : StackInv root r (n + 1)) :
    ∃ r', r.ParamEnd = some r' ∧ StackInv root r' n := by
  obtain ⟨above, bottom, hst, hlen, ho, hs⟩ := hinv
  cases above with
  | nil => simp at hlen
  | cons a as =>
    cases as with
    | nil =>
      rw [CBinaryReader.ParamEnd_cons r a bottom [] hst]
      exact ⟨_, rfl, [], _, rfl, by simp at hlen; simp [hlen], ho, hs⟩
    | cons a2 as2 =>
      rw [CBinaryReader.ParamEnd_cons r a a2 (as2 ++ [bottom]) hst]
      exact ⟨_, rfl, _ :: as2, bottom, rfl, by simp at hlen; simp [← hlen], ho, hs⟩

/-- A reader that differs only by its cursor satisfies the same invariant. -/
theorem StackInv_of_stack (root : SBinaryParm) (r r' : CBinaryReader) (n : Nat)
    (h : r'.mBinaryParmStack = r.mBinaryParmStack) (hinv : StackInv root r n) :
    StackInv root r' n := by
  unfold StackInv at hinv ⊢
  rw [h]
  exact hinv

/-- A sequence of client calls started under the stack invariant either is not
well nested or runs to its end and keeps the invariant; it never meets an empty
stack. -/
theorem runCalls_StackInv (E : Externals) (root : SBinaryParm) (calls : List ClientCall) :
    ∀ (r : CBinaryReader) (n : Nat), StackInv root r n →
      runCalls E calls r n ≠ .notNested →
      ∃ r' n', runCalls E calls r n = .done r' n' ∧ StackInv root r' n' := by
  induction calls with
  | nil =>
    intro r n hinv _
    exact ⟨r, n, rfl, hinv⟩
  | cons c cs ih =>
    intro r n hinv hwn
    cases c with
    | ParamBegin pkName Flags =>
      obtain ⟨b, r', hb, hinv'⟩ := ParamBegin_StackInv E root r n pkName Flags hinv
      cases b with
      | true =>
        simp only [runCalls, hb] at hwn ⊢
        exact ih r' (n + 1) (by simpa using hinv') hwn
      | false =>
        simp only [runCalls, hb] at hwn ⊢
        exact ih r' n (by simpa using hinv') hwn
    | ParamEnd =>
      cases n with
      | zero => simp [runCalls] at hwn
      | succ m =>
        obtain ⟨r', he, hinv'⟩ := ParamEnd_StackInv root r m hinv
        simp only [runCalls, he] at hwn ⊢
        exact ih r' m hinv' hwn
    | SerializeContainerSize =>
      simp only [runCalls] at hwn ⊢
      exact ih _ n (StackInv_of_stack root r _ n rfl hinv) hwn
    | SerializePrimitive k =>
      simp only [runCalls] at hwn ⊢
      refine ih _ n (StackInv_of_stack root r _ n ?_ hinv) hwn
      cases k <;> rfl
    | SerializeBulkData Size =>
      simp only [runCalls] at hwn ⊢
      exact ih _ n (StackInv_of_stack root r _ n rfl hinv) hwn

/-! ## The primitive reads, the constructors and the example `SerializeVersion` -/

theorem toU8_toSigned8 (v : Nat) (h : v < 256) : toU8 (toSigned 8 v) = v := by
  unfold toU8 toSigned
  split <;> omega

theorem toU64_toSigned64 (v : Nat) (h : v < 18446744073709551616) :
    toU64 (toSigned 64 v) = v := by
  unfold toU64 toSigned
  split <;> omega

theorem beNat_one_lt (data : List Nat) (p : Nat) : beNat data p 1 < 256 := by
  simpa using beNat_lt data p 1

theorem beNat_eight_lt (data : List Nat) (p : Nat) :
    beNat data p 8 < 18446744073709551616 := by
  simpa using beNat_lt data p 8

/-- Both constructors end in `InitParamStack` on an empty stack, the path
constructor with `SerializeVersion` after it on the legacy branch. -/
theorem constructed_form (E : Externals) (file : List Nat) (opened : Bool) (Magic : Nat)
    (uninit : Bool) (pStream : IInputStream) (rkVersion : CSerialVersion) (r : CBinaryReader)
    (hcons : r = CBinaryReader.fromFile E file opened Magic uninit ∨
      r = CBinaryReader.fromStream E pStream rkVersion) :
    ∃ r0 : CBinaryReader, r0.mBinaryParmStack = [] ∧
      (r = r0.InitParamStack E ∨ r = E.SerializeVersion (r0.InitParamStack E)) := by
  rcases hcons with h | h
  · subst h
    cases opened <;>
      simp only [CBinaryReader.fromFile, IInputStream.IsValid, Bool.false_eq_true, if_true,
        if_false] <;> split
    · exact ⟨_, rfl, Or.inr rfl⟩
    · exact ⟨_, rfl, Or.inl rfl⟩
    · exact ⟨_, rfl, Or.inr rfl⟩
    · exact ⟨_, rfl, Or.inl rfl⟩
  · subst h
    exact ⟨_, rfl, Or.inl rfl⟩

/-- The example `readArchiveVer` leaves the depth of the stack and the `Offset`
and `Size` of every frame as they were, as a well-nested sequence of calls does. -/
theorem readArchiveVer_stack (r : CBinaryReader) :
    (readArchiveVer r).mBinaryParmStack.map (fun f => (f.Offset, f.Size))
      = r.mBinaryParmStack.map (fun f => (f.Offset, f.Size)) := by
  unfold readArchiveVer
  split
  · rename_i r1 hb
    obtain ⟨back, rest, ci, sz, h1, _, h2⟩ :=
      CBinaryReader.ParamBegin_true sampleE r r1 "ArchiveVer" 0 hb
    have hend := CBinaryReader.ParamEnd_cons
      ({ r1 with
         mArchiveVersion := toU16 r1.mpStream.ReadShort.1
         mpStream := r1.mpStream.ReadShort.2 } : CBinaryReader) _ _ rest h2
    split
    · rename_i r2 he
      rw [hend] at he
      simp only [Option.some.injEq] at he
      rw [← he, h1]
      rfl
    · rename_i he
      rw [hend] at he
      simp at he
  · rename_i r1 hb
    obtain ⟨back, rest, h1, h2⟩ := CBinaryReader.ParamBegin_false sampleE r r1 "ArchiveVer" 0 hb
    rw [h1, h2]
    rfl
  · rfl

/-! ## The scan loop on an encoded run of children -/

/-- The loop of lines 125-138 started on the header of the first child of an
encoded run: it stops on the first child whose id is `ParamID`, with its index
and declared size and the stream on the start of its payload, having skipped
every earlier child by its declared size; with no such child it ends after the
run. -/
theorem scanChildren_encoded (E : Externals) (ParamID : Nat) (w : Nat) :
    (cs : ParamList) → ∀ (r : CBinaryReader) (idx : Nat),
      r.sizeWidth E = w →
      seg r.mpStream.data r.mpStream.pos (cs.encode E w) →
      r.mpStream.data.length < U32 → cs.fits E w →
      CBinaryReader.scanChildren E ParamID cs.length idx r =
        match cs.firstMatch E w ParamID idx r.mpStream.pos with
        | some (k, sz, q) => (some (k, sz), { r with mpStream := { r.mpStream with pos := q } })
        | none =>
          (none,
            { r with
              mpStream := { r.mpStream with pos := r.mpStream.pos + (cs.encode E w).length } })
  | .nil, r, idx, _, _, _, _ => by
    simp only [ParamList.length, ParamList.firstMatch, ParamList.encode, List.length_nil,
      Nat.add_zero, CBinaryReader.scanChildren]
  | .cons c cs, r, idx, hw, hseg, hdata, hfit => by
    subst hw
    obtain ⟨hfc, hfcs⟩ := hfit
    simp only [ParamList.encode] at hseg
    have hlen := Param.encode_length E r c
    have hsegc := seg_append_left hseg
    have hsegcs := seg_append_right hseg
    have hle := seg_length_le hseg
    rw [List.length_append] at hle
    rw [Param.encode_eq] at hsegc
    have hhead := seg_append_left hsegc
    have hid : beNat r.mpStream.data r.mpStream.pos 4 = E.Hash32 c.name % U32 := by
      rw [seg_beNat (seg_append_left hhead) 4 (by simp [u32be]), beNat_u32be]
      exact Nat.mod_eq_of_lt (Nat.mod_lt _ (by decide))
    have hsz : r.sizeAt E (r.mpStream.pos + 4) = (c.body E (r.sizeWidth E)).length := by
      have := seg_append_right hhead
      rw [show (u32be (E.Hash32 c.name % U32)).length = 4 from rfl] at this
      exact CBinaryReader.sizeAt_of_seg E r _ _ this (by omega)
        (Param.body_length_lt E _ c hfc)
    have hw2 := CBinaryReader.sizeWidth_cases E r
    have ih := scanChildren_encoded E ParamID (r.sizeWidth E) cs
      { r with
        mpStream :=
          { r.mpStream with pos := r.mpStream.pos + (c.encode E (r.sizeWidth E)).length } }
      (idx + 1) rfl hsegcs hdata hfcs
    simp only [ParamList.length, ParamList.firstMatch, ParamList.encode, List.length_append]
    rw [CBinaryReader.scanChildren_succ, hid, hsz]
    have s1 : ((r.mpStream.Skip 4).Skip (r.sizeWidth E))
        = { r.mpStream with pos := r.mpStream.pos + 4 + r.sizeWidth E } := by
      simp only [IInputStream.Skip]
      rw [Nat.mod_eq_of_lt (show r.mpStream.pos + 4 < U32 by omega),
        Nat.mod_eq_of_lt (show r.mpStream.pos + 4 + r.sizeWidth E < U32 by omega)]
    have s2 : (({ r.mpStream with pos := r.mpStream.pos + 4 + r.sizeWidth E } : IInputStream).Skip
          (c.body E (r.sizeWidth E)).length)
        = { r.mpStream with pos := r.mpStream.pos + (c.encode E (r.sizeWidth E)).length } := by
      simp only [IInputStream.Skip]
      rw [Nat.mod_eq_of_lt (by omega)]
      have e : r.mpStream.pos + 4 + r.sizeWidth E + (c.body E (r.sizeWidth E)).length
          = r.mpStream.pos + (c.encode E (r.sizeWidth E)).length := by omega
      rw [e]
    rw [s1, s2]
    by_cases hm : E.Hash32 c.name % U32 = ParamID
    · rw [if_neg (by simpa using hm), if_pos hm]
    · rw [if_pos hm, if_neg hm, ih]
      have e2 : r.mpStream.pos + (c.encode E (r.sizeWidth E)).length
            + (cs.encode E (r.sizeWidth E)).length
          = r.mpStream.pos + ((c.encode E (r.sizeWidth E)).length
            + (cs.encode E (r.sizeWidth E)).length) := by omega
      simp only [e2]

/-- The loop on the scenario of the spec for any name hash, started on the
first child at 24: asked for `Y`, whose id differs from that of `X`, it returns
index 1 and size 4 and stops at 44. -/
theorem scanChildren_scenario_from_first_child (E : Externals) (r : CBinaryReader)
    (hthr : ¬ 5 < E.eArVer_32BitBinarySize) (hav : r.mArchiveVersion = 5)
    (hdata : r.mpStream.data = encodeFile E 0x1234 5 1 0x41424344 scenarioTree)
    (hpos : r.mpStream.pos = 24)
    (hXY : E.Hash32 "X" % U32 ≠ E.Hash32 "Y" % U32) :
    CBinaryReader.scanChildren E (E.Hash32 "Y" % U32) 2 0 r
      = (some (1, 4), { r with mpStream := { r.mpStream with pos := 44 } }) := by
  have hw : r.sizeWidth E = 4 := by
    unfold CBinaryReader.sizeWidth
    rw [hav, if_neg hthr]
  have hseg : seg r.mpStream.data r.mpStream.pos (scenarioTree.encode E 4) := by
    rw [hdata, hpos]
    refine ⟨[0, 0, 18, 52, 0, 5, 0, 1, 65, 66, 67, 68, 255, 255, 255, 255, 0, 0, 0, 28,
      0, 0, 0, 2], [], ?_, rfl⟩
    simp [encodeFile, encodeRoot, scenarioTree, ParamList.encode, Param.encode,
      ParamList.length, sizeField, hthr, u16be, u32be]
  have hlen : r.mpStream.data.length < U32 := by
    rw [hdata, scenario_bytes E hthr]
    simp [u32be, U32]
  have hfit : scenarioTree.fits E 4 := by
    simp [scenarioTree, ParamList.fits, Param.fits, sizeBound, u32be]
  have h := scanChildren_encoded E (E.Hash32 "Y" % U32) 4 scenarioTree r 0 hw hseg hlen hfit
  have hl : scenarioTree.length = 2 := rfl
  rw [hl] at h
  rw [h]
  simp [scenarioTree, ParamList.firstMatch, Param.name, Param.body, Param.encode, hXY, hpos,
    sizeField, u32be]

/-- The `ChildIndex` of the top frame enters lines 100-143 only through the
test `ChildIndex < NumChildren` of line 105: two values that pass the test
alike give the same result, the same stream, and on success the same stack. -/
theorem ParamBeginResolved_ChildIndex (E : Externals) (r : CBinaryReader) (back : SBinaryParm)
    (rest : List SBinaryParm) (pkName : String) (Flags : Nat) (ci : Nat)
    (hci : ci < back.NumChildren ↔ back.ChildIndex < back.NumChildren) :
    (CBinaryReader.ParamBeginResolved E r { back with ChildIndex := ci } rest pkName Flags).1
        = (CBinaryReader.ParamBeginResolved E r back rest pkName Flags).1 ∧
      (CBinaryReader.ParamBeginResolved E r { back with ChildIndex := ci } rest pkName Flags).2.mpStream
        = (CBinaryReader.ParamBeginResolved E r back rest pkName Flags).2.mpStream ∧
      (CBinaryReader.ParamBeginResolved E r { back with ChildIndex := ci } rest pkName
            Flags).2.mBinaryParmStack.head?
          = if (CBinaryReader.ParamBeginResolved E r back rest pkName Flags).1 = true then
              (CBinaryReader.ParamBeginResolved E r back rest pkName Flags).2.mBinaryParmStack.head?
            else some { back with ChildIndex := ci } := by
  have hscan : ∀ (r1 : CBinaryReader) (Offset ParamID : Nat),
      (CBinaryReader.ParamBeginScan E r1 { back with ChildIndex := ci } rest Offset ParamID).1
          = (CBinaryReader.ParamBeginScan E r1 back rest Offset ParamID).1 ∧
        (CBinaryReader.ParamBeginScan E r1 { back with ChildIndex := ci } rest Offset
            ParamID).2.mpStream
          = (CBinaryReader.ParamBeginScan E r1 back rest Offset ParamID).2.mpStream ∧
        (CBinaryReader.ParamBeginScan E r1 { back with ChildIndex := ci } rest Offset
              ParamID).2.mBinaryParmStack.head?
            = if (CBinaryReader.ParamBeginScan E r1 back rest Offset ParamID).1 = true then
                (CBinaryReader.ParamBeginScan E r1 back rest Offset ParamID).2.mBinaryParmStack.head?
              else some { back with ChildIndex := ci } := by
    intro r1 Offset ParamID
    unfold CBinaryReader.ParamBeginScan
    simp only
    cases CBinaryReader.scanChildren E ParamID back.NumChildren 0
        { r1 with mpStream := r1.mpStream.GoTo back.Offset } with
    | mk found r2 =>
      cases found with
      | none => exact ⟨rfl, rfl, rfl⟩
      | some x => exact ⟨rfl, rfl, rfl⟩
  unfold CBinaryReader.ParamBeginResolved
  simp only
  by_cases ht : back.ChildIndex < back.NumChildren
  · rw [if_pos (hci.mpr ht), if_pos ht]
    split
    · exact ⟨rfl, rfl, rfl⟩
    · exact hscan _ _ _
  · rw [if_neg (fun h => ht (hci.mp h)), if_neg ht]
    exact hscan _ _ _

/-! ## The path constructor on a header with version fields -/

/-- The non-legacy branch of the path constructor in closed form, on a valid
stream whose 16 bits after the magic are not `0xFFFF`: `mArchiveVersion` is the
16-bit field at byte 4, `mFileVersion` the one at byte 6, `mGame` the lookup of
the code at byte 8; the stack holds exactly one frame, with `Offset` `16 + w`,
`Size` and `NumChildren` what `ReadSize` decodes at 16 and at `16 + w`, and
`ChildIndex` 0; the stream stands at `16 + 2w`, with `w` 2 below the threshold
and 4 otherwise. -/
theorem fromFile_non_legacy (E : Externals) (file : List Nat) (Magic : Nat)
    (uninit : Bool) (hns : beNat file 4 2 ≠ 0xFFFF) :
    (CBinaryReader.fromFile E file true Magic uninit).mArchiveVersion = beNat file 4 2 ∧
      (CBinaryReader.fromFile E file true Magic uninit).mFileVersion = beNat file 6 2 ∧
      (CBinaryReader.fromFile E file true Magic uninit).mGame = E.GameFrom4CC (beNat file 8 4) ∧
      (CBinaryReader.fromFile E file true Magic uninit).sizeWidth E
        = (if beNat file 4 2 < E.eArVer_32BitBinarySize then 2 else 4) ∧
      (CBinaryReader.fromFile E file true Magic uninit).mBinaryParmStack
        = [{ Offset := 16 + (CBinaryReader.fromFile E file true Magic uninit).sizeWidth E,
             Size := (CBinaryReader.fromFile E file true Magic uninit).sizeAt E 16,
             NumChildren := (CBinaryReader.fromFile E file true Magic uninit).sizeAt E
               (16 + (CBinaryReader.fromFile E file true Magic uninit).sizeWidth E),
             ChildIndex := 0 }] ∧
      (CBinaryReader.fromFile E file true Magic uninit).mpStream.pos
        = 16 + 2 * (CBinaryReader.fromFile E file true Magic uninit).sizeWidth E ∧
      (CBinaryReader.fromFile E file true Magic uninit).mpStream.data = file := by
  rw [fromFile_opened, if_neg hns, CBinaryReader.InitParamStack_eq]
  have h1 : (if beNat file 4 2 < E.eArVer_32BitBinarySize then 2 else 4) ≤ 4 := by
    split <;> omega
  refine ⟨rfl, rfl, rfl, rfl, ?_, ?_, rfl⟩
  · simp only [CBinaryReader.sizeAt_explicit, CBinaryReader.sizeWidth, U32]
    have e1 : (12 + 4 + (if beNat file 4 2 < E.eArVer_32BitBinarySize then 2 else 4))
        % 4294967296 = 16 + (if beNat file 4 2 < E.eArVer_32BitBinarySize then 2 else 4) := by
      omega
    simp only [e1]
  · simp only [CBinaryReader.sizeWidth, U32]
    omega

/-- The closed form on the scenario of the spec: archive version 5, file version 1,
the root frame `{20, 28, 2, 0}` and the stream at 24. -/
theorem fromFile_non_legacy_scenario :
    beNat scenarioFile 4 2 ≠ 0xFFFF ∧
      (CBinaryReader.fromFile sampleE scenarioFile true 0x1234 false).mArchiveVersion = 5 ∧
      (CBinaryReader.fromFile sampleE scenarioFile true 0x1234 false).mBinaryParmStack
        = [{ Offset := 20, Size := 28, NumChildren := 2, ChildIndex := 0 }] ∧
      (CBinaryReader.fromFile sampleE scenarioFile true 0x1234 false).mpStream.pos = 24 ∧
      (CBinaryReader.fromFile sampleE scenarioFile true 0x1234 false).mpStream.pos
        = 16 + 2 * (CBinaryReader.fromFile sampleE scenarioFile true 0x1234 false).sizeWidth
            sampleE :=
  ⟨by decide, by decide, by decide, by decide,
    (fromFile_non_legacy sampleE scenarioFile 0x1234 false (by decide)).2.2.2.2.2.1⟩

/-! ## The `ChildIndex` of the top frame in `ParamBegin` -/

namespace CBinaryReader

/-- Lines 118-143 with another `ChildIndex` in the top frame: the same result and
the same stream; on a hit the same stack, the scan storing the index found. -/
theorem ParamBeginScan_ChildIndex (E : Externals) (r : CBinaryReader) (back : SBinaryParm)
    (rest : List SBinaryParm) (Offset ParamID ci : Nat) :
    (ParamBeginScan E r { back with ChildIndex := ci } rest Offset ParamID).1
        = (ParamBeginScan E r back rest Offset ParamID).1 ∧
      (ParamBeginScan E r { back with ChildIndex := ci } rest Offset ParamID).2.mpStream
        = (ParamBeginScan E r back rest Offset ParamID).2.mpStream ∧
      (ParamBeginScan E r { back with ChildIndex := ci } rest Offset
            ParamID).2.mBinaryParmStack.head?
          = if (ParamBeginScan E r back rest Offset ParamID).1 = true then
              (ParamBeginScan E r back rest Offset ParamID).2.mBinaryParmStack.head?
            else some { back with ChildIndex := ci } := by
  unfold ParamBeginScan
  simp only
  cases scanChildren E ParamID back.NumChildren 0
      { r with mpStream := r.mpStream.GoTo back.Offset } with
  | mk found r2 =>
    cases found with
    | none => exact ⟨rfl, rfl, rfl⟩
    | some x => exact ⟨rfl, rfl, rfl⟩

/-- Lines 118-143 start with a seek: where the stream stood before does not
matter. -/
theorem ParamBeginScan_cursor (E : Externals) (r : CBinaryReader) (back : SBinaryParm)
    (rest : List SBinaryParm) (Offset ParamID q : Nat) :
    ParamBeginScan E { r with mpStream := { r.mpStream with pos := q } } back rest Offset ParamID
      = ParamBeginScan E r back rest Offset ParamID := rfl

/-- When the id at the stream position is not the one asked for and the flags
do not say to ignore the name, lines 100-143 come down to the scan of lines
118-143, whatever the `ChildIndex`. -/
theorem ParamBeginResolved_miss (E : Externals) (r : CBinaryReader) (back : SBinaryParm)
    (rest : List SBinaryParm) (pkName : String) (Flags : Nat)
    (hid : beNat r.mpStream.data r.mpStream.pos 4 ≠ E.Hash32 pkName % U32)
    (hflag : Flags &&& E.SH_IgnoreName = 0) :
    ParamBeginResolved E r back rest pkName Flags
      = ParamBeginScan E r back rest r.mpStream.Tell (E.Hash32 pkName % U32) := by
  have hid2 : toU32 r.mpStream.ReadLong.1 = beNat r.mpStream.data r.mpStream.pos 4 :=
    toU32_toSigned32 _ (beNat_four_lt _ _)
  unfold ParamBeginResolved
  simp only
  split
  · rw [hid2, if_neg (by
      intro h
      rcases h with h | h
      · exact hid h
      · exact h hflag), ReadSize_snd]
    exact ParamBeginScan_cursor E r back rest _ _ _
  · rfl

/-- The `ChildIndex` of the top frame decides nothing in lines 100-143 unless
it changes the outcome of the test of line 105 while the fast path would hit:
otherwise two values give the same result, the same stream, and on success the
same frame pushed. -/
theorem ParamBeginResolved_ChildIndex_or_miss (E : Externals) (r : CBinaryReader)
    (back : SBinaryParm) (rest : List SBinaryParm) (pkName : String) (Flags : Nat) (ci : Nat)
    (h : (ci < back.NumChildren ↔ back.ChildIndex < back.NumChildren) ∨
      (beNat r.mpStream.data r.mpStream.pos 4 ≠ E.Hash32 pkName % U32 ∧
        Flags &&& E.SH_IgnoreName = 0)) :
    (ParamBeginResolved E r { back with ChildIndex := ci } rest pkName Flags).1
        = (ParamBeginResolved E r back rest pkName Flags).1 ∧
      (ParamBeginResolved E r { back with ChildIndex := ci } rest pkName Flags).2.mpStream
        = (ParamBeginResolved E r back rest pkName Flags).2.mpStream ∧
      (ParamBeginResolved E r { back with ChildIndex := ci } rest pkName
            Flags).2.mBinaryParmStack.head?
          = if (ParamBeginResolved E r back rest pkName Flags).1 = true then
              (ParamBeginResolved E r back rest pkName Flags).2.mBinaryParmStack.head?
            else some { back with ChildIndex := ci } := by
  rcases h with h | ⟨hid, hflag⟩
  · exact ParamBeginResolved_ChildIndex E r back rest pkName Flags ci h
  · rw [ParamBeginResolved_miss E r _ rest pkName Flags hid hflag,
      ParamBeginResolved_miss E r back rest pkName Flags hid hflag]
    exact ParamBeginScan_ChildIndex E r back rest _ _ ci

/-- `ParamBegin` as lines 100-143 run once the child count is resolved: on the
reader after the count was read when the count was unknown, on the reader as
it is otherwise. The stack member of the reader handed on is not looked at. -/
theorem ParamBegin_resolved_form (E : Externals) (r : CBinaryReader) (back : SBinaryParm)
    (rest st : List SBinaryParm) (pkName : String) (Flags : Nat)
    (hstack : r.mBinaryParmStack = back :: rest) :
    r.ParamBegin E pkName Flags = some
      (ParamBeginResolved E
        { r with
          mpStream :=
            if back.NumChildren = 0xFFFFFFFF then r.mpStream.Skip (r.sizeWidth E) else r.mpStream
          mBinaryParmStack := st }
        { back with
          NumChildren :=
            if back.NumChildren = 0xFFFFFFFF then (r.ReadSize E).1 else back.NumChildren }
        rest pkName Flags) := by
  unfold ParamBegin
  rw [hstack]
  simp only
  by_cases hN : back.NumChildren = 0xFFFFFFFF
  · rw [if_pos hN, if_pos hN, if_pos hN, ReadSize_snd, Option.some.injEq]
    exact (ParamBeginResolved_stack E
      { r with mpStream := r.mpStream.Skip (r.sizeWidth E) } st _ rest pkName Flags).symm
  · rw [if_neg hN, if_neg hN, if_neg hN, Option.some.injEq]
    exact (ParamBeginResolved_stack E r st _ rest pkName Flags).symm

end CBinaryReader

/-! ## The statements of the specification -/

/-- C1. The scenario of the spec, run on the code: the root frame is
`{20, 28, 2, 0}` with the stream on the first child at 24; the child count 2
is stored at 20, the header of `X` at 24 and the header of `Y` at 36, its value
9 at 44. `ParamBegin("Y")` asked first returns false and leaves the reader as
it was, because the scan of lines 121-138 restarts at the root's `Offset` 20,
on the child count, not on the first child; `ParamBegin("X")` asked next is
served by the fast path and reads 7. The values obtained are "absent" then 7,
not 9 then 7. -/
theorem C1_scenario_reverse_order_misses_Y :
    scenarioReader.mBinaryParmStack
        = [{ Offset := 20, Size := 28, NumChildren := 2, ChildIndex := 0 }] ∧
      scenarioReader.mpStream.pos = 24 ∧
      beNat scenarioFile 20 4 = 2 ∧
      beNat scenarioFile 24 4 = sampleHash32 "X" ∧
      beNat scenarioFile 36 4 = sampleHash32 "Y" ∧
      beNat scenarioFile 44 4 = 9 ∧
      scenarioReader.ParamBegin sampleE "Y" 0 = some (false, scenarioReader) ∧
      (scenarioReader.ParamBegin sampleE "X" 0).map
          (fun x => (x.1, x.2.SerializePrimitiveInt32.1)) = some (true, 7) := by
  decide

/-- C2 (counterexample). Inside the container `X` of `emptyContainerFile` the
child count is still unread and says zero, so no child carries the hash of
`Z`; `ParamBegin("Z")` returns false, yet the stream has moved from 32 to 36,
over the child count it read. -/
theorem C2_counterexample_first_access_moves_stream :
    emptyContainerReader.mBinaryParmStack.head?.map (fun f => f.NumChildren) = some 0xFFFFFFFF ∧
      emptyContainerReader.sizeAt sampleE emptyContainerReader.mpStream.pos = 0 ∧
      emptyContainerReader.mpStream.pos = 32 ∧
      (emptyContainerReader.ParamBegin sampleE "Z" 0).map (fun x => (x.1, x.2.mpStream.pos))
        = some (false, 36) ∧
      ¬ ((emptyContainerReader.ParamBegin sampleE "Z" 0).map (fun x => (x.1, x.2.mpStream.pos))
        = some (false, emptyContainerReader.mpStream.pos)) := by
  decide

/-- C2 (amended). Whenever `ParamBegin` returns false, the stream stands on the
position saved after the child count was resolved: the position before the call
when the top frame's child count was already known, and `w` bytes after it when
this call read the count (`w` the width of a size field); the bytes of the
stream are untouched. -/
theorem C2_ParamBegin_false_position (E : Externals) (r r' : CBinaryReader)
    (back : SBinaryParm) (rest : List SBinaryParm) (pkName : String) (Flags : Nat)
    (hstack : r.mBinaryParmStack = back :: rest)
    (hpos : r.mpStream.pos < U32)
    (hfalse : r.ParamBegin E pkName Flags = some (false, r')) :
    r'.mpStream.pos =
        (if back.NumChildren = 0xFFFFFFFF then (r.mpStream.pos + r.sizeWidth E) % U32
         else r.mpStream.pos) ∧
      r'.mpStream.data = r.mpStream.data := by
  unfold CBinaryReader.ParamBegin at hfalse
  rw [hstack] at hfalse
  simp only at hfalse
  split at hfalse
  · rename_i hN
    simp only [Option.some.injEq] at hfalse
    have := CBinaryReader.ParamBeginResolved_false E _ _ _ _ _ _ hfalse
    rw [this]
    simp [CBinaryReader.ReadSize_snd, IInputStream.Skip, hN]
  · rename_i hN
    simp only [Option.some.injEq] at hfalse
    have := CBinaryReader.ParamBeginResolved_false E _ _ _ _ _ _ hfalse
    rw [this]
    simp [Nat.mod_eq_of_lt hpos, hN]

/-- C2 (witness). Inside the empty container `X`, whose child count is still
unread, the absent name `Z`: false, and the stream stands `w = 4` bytes after
where it was. -/
theorem C2_ParamBegin_false_position_witness :
    emptyContainerReader.mBinaryParmStack
        = { Offset := 32, Size := 4, NumChildren := 0xFFFFFFFF, ChildIndex := 0 }
          :: [{ Offset := 20, Size := 16, NumChildren := 1, ChildIndex := 0 }] ∧
      emptyContainerReader.mpStream.pos < U32 ∧
      emptyContainerReader.ParamBegin sampleE "Z" 0 = some (false, emptyContainerMiss) ∧
      (emptyContainerMiss.mpStream.pos =
          (if ({ Offset := 32, Size := 4, NumChildren := 0xFFFFFFFF, ChildIndex := 0 } :
              SBinaryParm).NumChildren = 0xFFFFFFFF
            then (emptyContainerReader.mpStream.pos + emptyContainerReader.sizeWidth sampleE) % U32
            else emptyContainerReader.mpStream.pos) ∧
        emptyContainerMiss.mpStream.data = emptyContainerReader.mpStream.data) :=
  ⟨by decide, by decide, by decide,
    C2_ParamBegin_false_position sampleE emptyContainerReader emptyContainerMiss
      { Offset := 32, Size := 4, NumChildren := 0xFFFFFFFF, ChildIndex := 0 }
      [{ Offset := 20, Size := 16, NumChildren := 1, ChildIndex := 0 }] "Z" 0
      (by decide) (by decide) (by decide)⟩

/-- C3. `ParamEnd` on a non-empty stack succeeds and leaves the stream at the
32-bit sum `Offset + Size` of the frame it pops, whatever the stream position
was; when that sum fits in 32 bits this is exactly `Offset + Size`. -/
theorem C3_ParamEnd_seeks_declared_end (r : CBinaryReader) (top : SBinaryParm)
    (rest : List SBinaryParm) (hstack : r.mBinaryParmStack = top :: rest) :
    ∃ r', r.ParamEnd = some r' ∧
      r'.mpStream.pos = (top.Offset + top.Size) % U32 ∧
      (top.Offset + top.Size < U32 → r'.mpStream.pos = top.Offset + top.Size) ∧
      r'.mpStream.data = r.mpStream.data := by
  unfold CBinaryReader.ParamEnd
  rw [hstack]
  cases rest with
  | nil =>
    refine ⟨_, rfl, ?_, ?_, rfl⟩
    · simp [IInputStream.GoTo]
    · intro h
      simp [IInputStream.GoTo, Nat.mod_eq_of_lt h]
  | cons parent below =>
    refine ⟨_, rfl, ?_, ?_, rfl⟩
    · simp [IInputStream.GoTo]
    · intro h
      simp [IInputStream.GoTo, Nat.mod_eq_of_lt h]

/-- C3 (witness). Inside `X` of `emptyContainerFile`, with nothing read of its
4 bytes, `ParamEnd` lands on `32 + 4`. -/
theorem C3_ParamEnd_seeks_declared_end_witness :
    emptyContainerReader.mBinaryParmStack
        = { Offset := 32, Size := 4, NumChildren := 0xFFFFFFFF, ChildIndex := 0 }
          :: [{ Offset := 20, Size := 16, NumChildren := 1, ChildIndex := 0 }] ∧
      ∃ r', emptyContainerReader.ParamEnd = some r' ∧
        r'.mpStream.pos = (32 + 4) % U32 ∧
        (32 + 4 < U32 → r'.mpStream.pos = 32 + 4) ∧
        r'.mpStream.data = emptyContainerReader.mpStream.data :=
  ⟨by decide,
    C3_ParamEnd_seeks_declared_end emptyContainerReader
      { Offset := 32, Size := 4, NumChildren := 0xFFFFFFFF, ChildIndex := 0 }
      [{ Offset := 20, Size := 16, NumChildren := 1, ChildIndex := 0 }] (by decide)⟩

/-- C4. An in-order read of a conforming file of archive version 0 whose only
leaf `X` has a 32768-byte payload: the size field of `X` holds `0x8000`, the
payload starts at 26, `ParamBegin("X")` returns true but pushes a frame whose
`Size` is 4294934528 instead of 32768, and `ParamEnd` then leaves the stream at
4294934554 instead of `26 + 32768`. -/
theorem C4_in_order_read_of_32768_byte_leaf :
    beNat bigLeafFile 24 2 = 32768 ∧
      bigLeafFile.length = 26 + 32768 ∧
      (bigLeafReader.ParamBegin sampleE "X" 0).map
          (fun x => (x.1, x.2.mBinaryParmStack.head?, x.2.mpStream.pos))
        = some (true,
            some { Offset := 26, Size := 4294934528, NumChildren := 0xFFFFFFFF, ChildIndex := 0 },
            26) ∧
      ((bigLeafReader.ParamBegin sampleE "X" 0).bind (fun x => x.2.ParamEnd)).map
          (fun r => r.mpStream.pos) = some 4294934554 := by
  unfold bigLeafReader
  rw [bigLeafFile_eq]
  refine ⟨by decide, ?_, by decide, by decide⟩
  rw [List.length_append, bigPayload_length]
  rfl

/-- C5. `ReadSize` below the threshold on the 16-bit field `0x8000`: two bytes
are consumed, and the value returned is 4294934528 (`0xFFFF8000`), which lies
outside `0..65535`, not the unsigned value 32768 of the field. -/
theorem C5_ReadSize_sign_extends_16_bit_field :
    signBitReader.mArchiveVersion < sampleE.eArVer_32BitBinarySize ∧
      beNat signBitReader.mpStream.data signBitReader.mpStream.pos 2 = 32768 ∧
      (signBitReader.ReadSize sampleE).2.mpStream.pos = signBitReader.mpStream.pos + 2 ∧
      (signBitReader.ReadSize sampleE).1 = 4294934528 ∧
      ¬ (signBitReader.ReadSize sampleE).1 ≤ 65535 := by
  decide

/-- C6. `SerializeContainerSize` leaves the whole reader (stream position and
parameter stack included) as it was, and the value it stores is the value
`ReadSize` returns from the same state. -/
theorem C6_SerializeContainerSize_peeks (E : Externals) (r : CBinaryReader) :
    (r.SerializeContainerSize E).2 = r ∧
      (r.SerializeContainerSize E).2.mpStream.pos = r.mpStream.pos ∧
      (r.SerializeContainerSize E).2.mBinaryParmStack = r.mBinaryParmStack ∧
      (r.SerializeContainerSize E).1 = (r.ReadSize E).1 := by
  refine ⟨rfl, rfl, rfl, ?_⟩
  unfold CBinaryReader.SerializeContainerSize CBinaryReader.ReadSize
    IInputStream.PeekShort IInputStream.PeekLong
  split <;> rfl

/-- C7. The fast path on a size field with the top bit set. The reader built on
`bigLeafFile` (archive version 0, size fields of 2 bytes) has the root frame on
top, with a resolved child count 1 and `ChildIndex` 0, and the stream at 20, on
the header of `X`: the id at 20 is the hash of `X` and the size field at 24
holds 32768. `ParamBegin("X")` returns true, leaves the stream at 26 and the
root frame as it was, and pushes a frame with `Offset` 26, `NumChildren`
`0xFFFFFFFF` and `ChildIndex` 0, but with `Size` 4294934528 instead of 32768.
The same happens for another name passed with `SH_IgnoreName`. -/
theorem C7_fast_path_pushes_sign_extended_size :
    bigLeafReader.mBinaryParmStack
        = [{ Offset := 18, Size := 4294934536, NumChildren := 1, ChildIndex := 0 }] ∧
      bigLeafReader.mpStream.pos = 20 ∧
      bigLeafReader.sizeWidth sampleE = 2 ∧
      beNat bigLeafFile 20 4 = sampleHash32 "X" ∧
      beNat bigLeafFile 24 2 = 32768 ∧
      (bigLeafReader.ParamBegin sampleE "X" 0).map
          (fun x => (x.1, x.2.mBinaryParmStack, x.2.mpStream.pos))
        = some (true,
            [{ Offset := 26, Size := 4294934528, NumChildren := 0xFFFFFFFF, ChildIndex := 0 },
             { Offset := 18, Size := 4294934536, NumChildren := 1, ChildIndex := 0 }], 26) ∧
      sampleE.SH_IgnoreName &&& sampleE.SH_IgnoreName ≠ 0 ∧
      sampleHash32 "Q" ≠ sampleHash32 "X" ∧
      (bigLeafReader.ParamBegin sampleE "Q" sampleE.SH_IgnoreName).map
          (fun x => (x.1, x.2.mBinaryParmStack, x.2.mpStream.pos))
        = some (true,
            [{ Offset := 26, Size := 4294934528, NumChildren := 0xFFFFFFFF, ChildIndex := 0 },
             { Offset := 18, Size := 4294934536, NumChildren := 1, ChildIndex := 0 }], 26) ∧
      ¬ ((bigLeafReader.ParamBegin sampleE "X" 0).map
            (fun x => x.2.mBinaryParmStack.head?.map (fun f => f.Size))
          = some (some (beNat bigLeafFile 24 2))) := by
  unfold bigLeafReader
  rw [bigLeafFile_eq]
  decide

/-- C8. Header negotiation on `bigLeafFile`, a conforming file of archive
version 0 whose root payload has 32776 bytes: the 16 bits after the magic are
not `0xFFFF`, the size field at byte 16 holds 32776 and the count field at byte
18 holds 1. The path constructor sets the archive version 0, the file version
1 and the game, leaves the stream at 20 and one frame with `Offset` 18,
`NumChildren` 1 and `ChildIndex` 0, but with `Size` 4294934536 instead of
32776. -/
theorem C8_root_frame_size_sign_extended :
    beNat bigLeafFile 4 2 ≠ 0xFFFF ∧
      beNat bigLeafFile 4 2 < sampleE.eArVer_32BitBinarySize ∧
      beNat bigLeafFile 16 2 = 32776 ∧
      beNat bigLeafFile 18 2 = 1 ∧
      bigLeafFile.length = 18 + 32776 ∧
      (CBinaryReader.fromFile sampleE bigLeafFile true 0x1234 false).mArchiveVersion = 0 ∧
      (CBinaryReader.fromFile sampleE bigLeafFile true 0x1234 false).mFileVersion = 1 ∧
      (CBinaryReader.fromFile sampleE bigLeafFile true 0x1234 false).mGame = 0x41424344 ∧
      (CBinaryReader.fromFile sampleE bigLeafFile true 0x1234 false).mpStream.pos = 20 ∧
      (CBinaryReader.fromFile sampleE bigLeafFile true 0x1234 false).mBinaryParmStack
        = [{ Offset := 18, Size := 4294934536, NumChildren := 1, ChildIndex := 0 }] ∧
      ¬ ((CBinaryReader.fromFile sampleE bigLeafFile true 0x1234 false).mBinaryParmStack
          = [{ Offset := 18, Size := beNat bigLeafFile 16 2, NumChildren := beNat bigLeafFile 18 2,
               ChildIndex := 0 }]) := by
  rw [bigLeafFile_eq]
  refine ⟨by decide, by decide, by decide, by decide, ?_, by decide, by decide, by decide,
    by decide, by decide, by decide⟩
  rw [List.length_append, bigPayload_length]
  rfl

/-- C10. For a reader built by the path constructor, `IsValid()` is true
exactly when the stream is valid and its first four bytes, read big-endian,
equal `Magic`; on a valid stream with another magic the constructor still parses
the header and runs `InitParamStack`, only with `mMagicValid` false. For a
reader built by the stream constructor, `IsValid()` is the validity of the
stream. `SerializeVersion`, a member of the base class, is assumed not to touch
the private magic flag nor the validity of the stream. -/
theorem C10_IsValid (E : Externals) (file : List Nat) (opened : Bool) (Magic : Nat)
    (uninit : Bool) (pStream : IInputStream) (rkVersion : CSerialVersion)
    (hsv : ∀ r : CBinaryReader,
      (E.SerializeVersion r).mMagicValid = r.mMagicValid ∧
        (E.SerializeVersion r).mpStream.valid = r.mpStream.valid) :
    ((CBinaryReader.fromFile E file opened Magic uninit).IsValid = true
        ↔ opened = true ∧ beNat file 0 4 = Magic % U32) ∧
      (opened = true → beNat file 0 4 ≠ Magic % U32 →
        CBinaryReader.fromFile E file opened Magic uninit =
          if beNat file 4 2 = 65535 then
            E.SerializeVersion (CBinaryReader.InitParamStack E
              { mArchiveVersion := E.defArchiveVersion, mFileVersion := E.defFileVersion,
                mGame := E.defGame, mBinaryParmStack := [],
                mpStream := { data := file, pos := 4, valid := true },
                mMagicValid := false, mOwnsStream := true, mInAttribute := false })
          else
            CBinaryReader.InitParamStack E
              { mArchiveVersion := beNat file 4 2, mFileVersion := beNat file 6 2,
                mGame := E.GameFrom4CC (beNat file 8 4), mBinaryParmStack := [],
                mpStream := { data := file, pos := 12, valid := true },
                mMagicValid := false, mOwnsStream := true, mInAttribute := false }) ∧
      (CBinaryReader.fromStream E pStream rkVersion).IsValid = pStream.IsValid := by
  refine ⟨?_, ?_, ?_⟩
  · cases opened with
    | true =>
      rw [fromFile_opened]
      split
      · simp [CBinaryReader.IsValid, IInputStream.IsValid, (hsv _).1, (hsv _).2,
          (InitParamStack_valid E _).1, (InitParamStack_valid E _).2]
      · simp [CBinaryReader.IsValid, IInputStream.IsValid,
          (InitParamStack_valid E _).1, (InitParamStack_valid E _).2]
    | false =>
      unfold CBinaryReader.fromFile
      simp only [IInputStream.IsValid, Bool.false_eq_true, if_false, false_and, iff_false]
      split
      · simp [CBinaryReader.IsValid, IInputStream.IsValid, (hsv _).1, (hsv _).2,
          (InitParamStack_valid E _).1, (InitParamStack_valid E _).2]
      · simp [CBinaryReader.IsValid, IInputStream.IsValid,
          (InitParamStack_valid E _).1, (InitParamStack_valid E _).2,
          IInputStream.ReadShort, IInputStream.ReadFourCC, IInputStream.Skip]
  · intro ho hm
    subst ho
    rw [fromFile_opened]
    simp [hm]
  · unfold CBinaryReader.fromStream
    simp [CBinaryReader.IsValid, (InitParamStack_valid E _).1, (InitParamStack_valid E _).2,
      IInputStream.IsValid]

/-- C10 (witness). The legacy file opened with its own magic, under the
example `SerializeVersion` that reads the archive version: the reader is valid.
The scenario of the spec opened with the magic `0x9999`: the reader is not
valid, and the root frame `{20, 28, 2, 0}` is there all the same. -/
theorem C10_IsValid_witness :
    (∀ r : CBinaryReader,
      (versionReadingE.SerializeVersion r).mMagicValid = r.mMagicValid ∧
        (versionReadingE.SerializeVersion r).mpStream.valid = r.mpStream.valid) ∧
      (CBinaryReader.fromFile versionReadingE legacyFile true 0x1234 false).IsValid = true ∧
      ((CBinaryReader.fromFile versionReadingE legacyFile true 0x1234 false).IsValid = true
        ↔ true = true ∧ beNat legacyFile 0 4 = 0x1234 % U32) ∧
      (CBinaryReader.fromFile sampleE scenarioFile true 0x9999 false).IsValid = false ∧
      (CBinaryReader.fromFile sampleE scenarioFile true 0x9999 false).mBinaryParmStack
        = [{ Offset := 20, Size := 28, NumChildren := 2, ChildIndex := 0 }] ∧
      ((CBinaryReader.fromFile sampleE scenarioFile true 0x9999 false).IsValid = true
        ↔ true = true ∧ beNat scenarioFile 0 4 = 0x9999 % U32) :=
  ⟨readArchiveVer_frame, by decide,
    (C10_IsValid versionReadingE legacyFile true 0x1234 false
      { data := [], pos := 0, valid := true }
      { ArchiveVersion := 0, FileVersion := 0, Game := 0 } readArchiveVer_frame).1,
    by decide, by decide,
    (C10_IsValid sampleE scenarioFile true 0x9999 false
      { data := [], pos := 0, valid := true }
      { ArchiveVersion := 0, FileVersion := 0, Game := 0 } (fun _ => ⟨rfl, rfl⟩)).1⟩

/-- C11. Pointer validity gate: below the refactor threshold,
`PreSerializePointer` returns true for every pointer value, null or not, and
leaves the whole reader, stream position and parameter stack included, as it
was, whatever the serialization operator of `IArchive` would do; at or after the
threshold the result is that of serializing the parameter named `PointerValid`,
holding whether the pointer is not null. -/
theorem C11_PreSerializePointer_gate (E : Externals)
    (Serial : String → Bool → CBinaryReader → Bool × CBinaryReader)
    (r : CBinaryReader) (Pointer Flags : Nat)
    (hlt : r.mArchiveVersion < E.eArVer_Refactor) :
    r.PreSerializePointer E Serial Pointer Flags = (true, r) ∧
      (r.PreSerializePointer E Serial Pointer Flags).2.mpStream.pos = r.mpStream.pos ∧
      (r.PreSerializePointer E Serial Pointer Flags).2.mBinaryParmStack = r.mBinaryParmStack ∧
      (∀ r2 : CBinaryReader, E.eArVer_Refactor ≤ r2.mArchiveVersion →
        r2.PreSerializePointer E Serial Pointer Flags
          = Serial "PointerValid" (decide (Pointer ≠ 0)) r2) := by
  have h1 : r.PreSerializePointer E Serial Pointer Flags = (true, r) := by
    unfold CBinaryReader.PreSerializePointer
    rw [if_neg (by omega)]
  refine ⟨h1, by rw [h1], by rw [h1], ?_⟩
  intro r2 h2
  unfold CBinaryReader.PreSerializePointer
  rw [if_pos h2]

/-- C11 (witness). A file of archive version 1, below the refactor threshold 2
of `sampleE`, whose root holds `PointerValid = false`: serializing that
parameter would return false and move the stream from 24 to 33, yet
`PreSerializePointer` on a null pointer returns true and leaves the reader as
it was. On the same file with archive version 2 the parameter is looked up and
a non-null pointer is reported not valid. -/
theorem C11_PreSerializePointer_gate_witness :
    (pointerReader 1).mArchiveVersion < sampleE.eArVer_Refactor ∧
      (serialBool "PointerValid" true (pointerReader 1)).1 = false ∧
      (serialBool "PointerValid" true (pointerReader 1)).2.mpStream.pos = 33 ∧
      (pointerReader 1).mpStream.pos = 24 ∧
      ((pointerReader 2).PreSerializePointer sampleE serialBool 77 0).1 = false ∧
      ((pointerReader 1).PreSerializePointer sampleE serialBool 0 0 = (true, pointerReader 1) ∧
        ((pointerReader 1).PreSerializePointer sampleE serialBool 0 0).2.mpStream.pos
          = (pointerReader 1).mpStream.pos ∧
        ((pointerReader 1).PreSerializePointer sampleE serialBool 0 0).2.mBinaryParmStack
          = (pointerReader 1).mBinaryParmStack ∧
        (∀ r2 : CBinaryReader, sampleE.eArVer_Refactor ≤ r2.mArchiveVersion →
          r2.PreSerializePointer sampleE serialBool 0 0
            = serialBool "PointerValid" (decide ((0 : Nat) ≠ 0)) r2)) :=
  ⟨by decide, by decide, by decide, by decide, by decide,
    C11_PreSerializePointer_gate sampleE serialBool (pointerReader 1) 0 0 (by decide)⟩

/-- C12. Stack invariant. A reader built by either constructor comes out of
`InitParamStack` run on an empty stack (followed by `SerializeVersion` on the
legacy branch) and holds exactly one frame, with the `Offset` and `Size` of the
root frame `InitParamStack` pushed. After every well-nested sequence of client
calls on it the run has reached its end, the stack is not empty, its depth is 1
plus the number of open parameters, and its bottom frame still has the `Offset`
and `Size` of the root frame; a `ParamBegin` that then returns false leaves the
depth as it is. `SerializeVersion`, a member of the base class, is assumed to
leave the depth of the stack and the `Offset` and `Size` of its frames as they
were, as a well-nested sequence of calls does. -/
theorem C12_stack_invariant (E : Externals) (file : List Nat) (opened : Bool) (Magic : Nat)
    (uninit : Bool) (pStream : IInputStream) (rkVersion : CSerialVersion) (r : CBinaryReader)
    (calls : List ClientCall)
    (hsv : ∀ r : CBinaryReader,
      (E.SerializeVersion r).mBinaryParmStack.map (fun f => (f.Offset, f.Size))
        = r.mBinaryParmStack.map (fun f => (f.Offset, f.Size)))
    (hcons : r = CBinaryReader.fromFile E file opened Magic uninit ∨
      r = CBinaryReader.fromStream E pStream rkVersion)
    (hwn : runCalls E calls r 0 ≠ .notNested) :
    ∃ (r0 : CBinaryReader) (root : SBinaryParm),
      r0.mBinaryParmStack = [] ∧ (r0.InitParamStack E).mBinaryParmStack = [root] ∧
      (r = r0.InitParamStack E ∨ r = E.SerializeVersion (r0.InitParamStack E)) ∧
      (∃ bottom, r.mBinaryParmStack = [bottom] ∧
        bottom.Offset = root.Offset ∧ bottom.Size = root.Size) ∧
      ∃ r' n, runCalls E calls r 0 = .done r' n ∧
        r'.mBinaryParmStack ≠ [] ∧
        r'.mBinaryParmStack.length = 1 + n ∧
        (∃ bottom, r'.mBinaryParmStack.getLast? = some bottom ∧
          bottom.Offset = root.Offset ∧ bottom.Size = root.Size) ∧
        (∀ (pkName : String) (Flags : Nat) (r'' : CBinaryReader),
          r'.ParamBegin E pkName Flags = some (false, r'') →
          r''.mBinaryParmStack.length = r'.mBinaryParmStack.length) := by
  obtain ⟨r0, h0, hr⟩ := constructed_form E file opened Magic uninit pStream rkVersion r hcons
  have hroot : ∃ root, (r0.InitParamStack E).mBinaryParmStack = [root] := by
    rw [CBinaryReader.InitParamStack_eq, h0]
    exact ⟨_, rfl⟩
  obtain ⟨root, hroot⟩ := hroot
  have hbottom : ∃ bottom, r.mBinaryParmStack = [bottom] ∧
      bottom.Offset = root.Offset ∧ bottom.Size = root.Size := by
    rcases hr with h | h
    · rw [h, hroot]
      exact ⟨root, rfl, rfl, rfl⟩
    · have := hsv (r0.InitParamStack E)
      rw [← h, hroot] at this
      cases hst : r.mBinaryParmStack with
      | nil =>
        rw [hst] at this
        simp at this
      | cons b bs =>
        rw [hst] at this
        cases bs with
        | nil =>
          simp only [List.map_cons, List.map_nil, List.cons.injEq, Prod.mk.injEq, and_true] at this
          exact ⟨b, rfl, this.1, this.2⟩
        | cons b2 bs2 => simp at this
  refine ⟨r0, root, h0, hroot, hr, hbottom, ?_⟩
  obtain ⟨bottom, hb, ho, hs⟩ := hbottom
  have hinv : StackInv root r 0 := ⟨[], bottom, hb, rfl, ho, hs⟩
  obtain ⟨r', n, hrun, above, bottom', hst', hlen, ho', hs'⟩ :=
    runCalls_StackInv E root calls r 0 hinv hwn
  refine ⟨r', n, hrun, ?_, ?_, ⟨bottom', ?_, ho', hs'⟩, ?_⟩
  · rw [hst']
    simp
  · rw [hst', List.length_append, hlen]
    simp [Nat.add_comm]
  · rw [hst']
    simp
  · intro pkName Flags r'' hf
    obtain ⟨back, rest, h1, h2⟩ := CBinaryReader.ParamBegin_false E r' r'' pkName Flags hf
    rw [h1, h2]
    rfl

/-- C12 (witness). The path constructor on a legacy file, with the example
`SerializeVersion` that reads the archive version: the root frame is
`{10, 18, 2, 1}`, and after `X` is entered, an absent name asked inside it and
one byte read, one parameter is open and the stack holds the frame of `X` above
the root frame. The stream constructor on the root node of the scenario of the
spec, run through `sampleCalls`: one parameter is open at the end, `Y`, above
the root frame `{20, 28, 2, 1}`. -/
theorem C12_stack_invariant_witness :
    (∀ r : CBinaryReader,
      (versionReadingE.SerializeVersion r).mBinaryParmStack.map (fun f => (f.Offset, f.Size))
        = r.mBinaryParmStack.map (fun f => (f.Offset, f.Size))) ∧
      beNat legacyFileX 4 2 = 0xFFFF ∧
      legacyXReader.mBinaryParmStack
        = [{ Offset := 10, Size := 18, NumChildren := 2, ChildIndex := 1 }] ∧
      runCalls versionReadingE legacyCalls legacyXReader 0 ≠ .notNested ∧
      runCalls versionReadingE legacyCalls legacyXReader 0
        = .done
            { legacyXReader with
              mpStream := { legacyXReader.mpStream with pos := 29 }
              mBinaryParmStack :=
                [{ Offset := 26, Size := 2, NumChildren := 0, ChildIndex := 0 },
                 { Offset := 10, Size := 18, NumChildren := 2, ChildIndex := 1 }] } 1 ∧
      (∃ (r0 : CBinaryReader) (root : SBinaryParm),
        r0.mBinaryParmStack = [] ∧
        (r0.InitParamStack versionReadingE).mBinaryParmStack = [root] ∧
        (legacyXReader = r0.InitParamStack versionReadingE ∨
          legacyXReader = versionReadingE.SerializeVersion (r0.InitParamStack versionReadingE)) ∧
        (∃ bottom, legacyXReader.mBinaryParmStack = [bottom] ∧
          bottom.Offset = root.Offset ∧ bottom.Size = root.Size) ∧
        ∃ r' n, runCalls versionReadingE legacyCalls legacyXReader 0 = .done r' n ∧
          r'.mBinaryParmStack ≠ [] ∧
          r'.mBinaryParmStack.length = 1 + n ∧
          (∃ bottom, r'.mBinaryParmStack.getLast? = some bottom ∧
            bottom.Offset = root.Offset ∧ bottom.Size = root.Size) ∧
          (∀ (pkName : String) (Flags : Nat) (r'' : CBinaryReader),
            r'.ParamBegin versionReadingE pkName Flags = some (false, r'') →
            r''.mBinaryParmStack.length = r'.mBinaryParmStack.length)) ∧
      runCalls sampleE sampleCalls embeddedReader 0 ≠ .notNested ∧
      runCalls sampleE sampleCalls embeddedReader 0
        = .done
            { embeddedReader with
              mpStream := { embeddedReader.mpStream with pos := 44 }
              mBinaryParmStack :=
                [{ Offset := 44, Size := 4, NumChildren := 0xFFFFFFFF, ChildIndex := 0 },
                 { Offset := 20, Size := 28, NumChildren := 2, ChildIndex := 1 }] } 1 ∧
      (∃ (r0 : CBinaryReader) (root : SBinaryParm),
        r0.mBinaryParmStack = [] ∧
        (r0.InitParamStack sampleE).mBinaryParmStack = [root] ∧
        (embeddedReader = r0.InitParamStack sampleE ∨
          embeddedReader = sampleE.SerializeVersion (r0.InitParamStack sampleE)) ∧
        (∃ bottom, embeddedReader.mBinaryParmStack = [bottom] ∧
          bottom.Offset = root.Offset ∧ bottom.Size = root.Size) ∧
        ∃ r' n, runCalls sampleE sampleCalls embeddedReader 0 = .done r' n ∧
          r'.mBinaryParmStack ≠ [] ∧
          r'.mBinaryParmStack.length = 1 + n ∧
          (∃ bottom, r'.mBinaryParmStack.getLast? = some bottom ∧
            bottom.Offset = root.Offset ∧ bottom.Size = root.Size) ∧
          (∀ (pkName : String) (Flags : Nat) (r'' : CBinaryReader),
            r'.ParamBegin sampleE pkName Flags = some (false, r'') →
            r''.mBinaryParmStack.length = r'.mBinaryParmStack.length)) :=
  ⟨readArchiveVer_stack, by decide, by decide, by decide, by decide,
    C12_stack_invariant versionReadingE legacyFileX true 0x1234 false
      { data := [], pos := 0, valid := true }
      { ArchiveVersion := 0, FileVersion := 0, Game := 0 } legacyXReader legacyCalls
      readArchiveVer_stack (Or.inl rfl) (by decide),
    by decide, by decide,
    C12_stack_invariant sampleE [] true 0 false
      { data := scenarioFile, pos := 12, valid := true }
      { ArchiveVersion := 5, FileVersion := 1, Game := 0x41424344 } embeddedReader sampleCalls
      (fun _ => rfl) (Or.inr rfl) (by decide)⟩

/-- C13. Primitive codec widths: `SerializePrimitive` of an integer kind moves
the stream by the width of the kind (1 for `bool`, `char`, `int8`, `uint8`; 2
for `int16`, `uint16`; 4 for `int32`, `uint32`; 8 for `int64`, `uint64`) in the
32-bit positions of the reader, and by exactly that many bytes when the sum
fits; it changes nothing else, the parameter stack included. The value is the
big-endian value of those bytes in the target type: signed for the signed
kinds, the unsigned value of the same bits for the unsigned kinds, the same
eight bits for `char`, and 0 or 1 for `bool` as the byte is zero or not. -/
theorem C13_SerializePrimitive_widths (k : PrimKind) (r : CBinaryReader) :
    (r.SerializePrimitive k).2 = { r with mpStream := r.mpStream.Skip k.width } ∧
      (r.SerializePrimitive k).2.mpStream.pos = (r.mpStream.pos + k.width) % U32 ∧
      (r.mpStream.pos + k.width < U32 →
        (r.SerializePrimitive k).2.mpStream.pos = r.mpStream.pos + k.width) ∧
      (r.SerializePrimitive k).2.mBinaryParmStack = r.mBinaryParmStack ∧
      (r.SerializePrimitive .bool).1
        = (if beNat r.mpStream.data r.mpStream.pos 1 = 0 then 0 else 1) ∧
      toU8 (r.SerializePrimitive .char).1 = beNat r.mpStream.data r.mpStream.pos 1 ∧
      (r.SerializePrimitive .int8).1 = toSigned 8 (beNat r.mpStream.data r.mpStream.pos 1) ∧
      (r.SerializePrimitive .uint8).1 = (beNat r.mpStream.data r.mpStream.pos 1 : Nat) ∧
      (r.SerializePrimitive .int16).1 = toSigned 16 (beNat r.mpStream.data r.mpStream.pos 2) ∧
      (r.SerializePrimitive .uint16).1 = (beNat r.mpStream.data r.mpStream.pos 2 : Nat) ∧
      (r.SerializePrimitive .int32).1 = toSigned 32 (beNat r.mpStream.data r.mpStream.pos 4) ∧
      (r.SerializePrimitive .uint32).1 = (beNat r.mpStream.data r.mpStream.pos 4 : Nat) ∧
      (r.SerializePrimitive .int64).1 = toSigned 64 (beNat r.mpStream.data r.mpStream.pos 8) ∧
      (r.SerializePrimitive .uint64).1 = (beNat r.mpStream.data r.mpStream.pos 8 : Nat) := by
  have h1 : (r.SerializePrimitive k).2 = { r with mpStream := r.mpStream.Skip k.width } := by
    cases k <;> rfl
  refine ⟨h1, by rw [h1]; rfl, ?_, by rw [h1], ?_, ?_, rfl, ?_, rfl, ?_, rfl, ?_, rfl, ?_⟩
  · intro h
    rw [h1]
    exact Nat.mod_eq_of_lt h
  · simp only [CBinaryReader.SerializePrimitive, IInputStream.ReadBool]
    by_cases hb : beNat r.mpStream.data r.mpStream.pos 1 = 0 <;> simp [hb]
  · exact toU8_toSigned8 _ (beNat_one_lt _ _)
  · simp only [CBinaryReader.SerializePrimitive, IInputStream.ReadByte]
    rw [toU8_toSigned8 _ (beNat_one_lt _ _)]
  · simp only [CBinaryReader.SerializePrimitive, IInputStream.ReadShort]
    rw [toU16_toSigned16 _ (beNat_two_lt _ _)]
  · simp only [CBinaryReader.SerializePrimitive, IInputStream.ReadLong]
    rw [toU32_toSigned32 _ (beNat_four_lt _ _)]
  · simp only [CBinaryReader.SerializePrimitive, IInputStream.ReadLongLong]
    rw [toU64_toSigned64 _ (beNat_eight_lt _ _)]

/-- C13 (witness). On the bytes `80 01 FF FE 00 00 00 02`: an `int8` reads
-128 and a `uint8` 128, an `int16` -32767 and a `uint16` 32769, an `int32`
-2147352578 and a `uint32` 2147614718, an `int64` -9222809095491289086 and a
`uint64` 9223934978218262530, a `bool` true; the `int16` read leaves the stream
at 2 and the stack as it was. -/
theorem C13_SerializePrimitive_widths_witness :
    (primReader.SerializePrimitive .bool).1 = 1 ∧
      (primReader.SerializePrimitive .int8).1 = -128 ∧
      (primReader.SerializePrimitive .uint8).1 = 128 ∧
      (primReader.SerializePrimitive .int16).1 = -32767 ∧
      (primReader.SerializePrimitive .uint16).1 = 32769 ∧
      (primReader.SerializePrimitive .int32).1 = -2147352578 ∧
      (primReader.SerializePrimitive .uint32).1 = 2147614718 ∧
      (primReader.SerializePrimitive .int64).1 = -9222809095491289086 ∧
      (primReader.SerializePrimitive .uint64).1 = 9223934978218262530 ∧
      (primReader.SerializePrimitive .int16).2.mpStream.pos = 2 ∧
      (primReader.SerializePrimitive .int16).2.mpStream.pos
        = (primReader.mpStream.pos + PrimKind.int16.width) % U32 ∧
      (primReader.SerializePrimitive .int16).2.mBinaryParmStack = primReader.mBinaryParmStack :=
  ⟨by decide, by decide, by decide, by decide, by decide, by decide, by decide, by decide,
    by decide, by decide,
    (C13_SerializePrimitive_widths .int16 primReader).2.1,
    (C13_SerializePrimitive_widths .int16 primReader).2.2.2.1⟩

/-- C14. `ParamEnd` stack effect: on a stack of depth at least 1, `ParamEnd`
returns and removes exactly the top frame. When a frame remains beneath, that
frame becomes the top with its `ChildIndex` incremented in 32 bits, which is
its previous value plus 1 unless that was `0xFFFFFFFF`; its `Offset`, `Size`
and `NumChildren` and every frame beneath it are unchanged. When the top frame
was the only one the stack becomes empty and nothing is incremented. -/
theorem C14_ParamEnd_stack_effect (r : CBinaryReader) (top : SBinaryParm)
    (rest : List SBinaryParm) (hstack : r.mBinaryParmStack = top :: rest) :
    ∃ r', r.ParamEnd = some r' ∧
      r'.mBinaryParmStack.length + 1 = r.mBinaryParmStack.length ∧
      (∀ parent below, rest = parent :: below →
        r'.mBinaryParmStack = { parent with ChildIndex := (parent.ChildIndex + 1) % U32 } :: below ∧
        (parent.ChildIndex < 0xFFFFFFFF →
          r'.mBinaryParmStack = { parent with ChildIndex := parent.ChildIndex + 1 } :: below)) ∧
      (rest = [] → r'.mBinaryParmStack = []) := by
  unfold CBinaryReader.ParamEnd
  rw [hstack]
  cases rest with
  | nil =>
    refine ⟨_, rfl, rfl, ?_, fun _ => rfl⟩
    intro parent below h
    simp at h
  | cons p bs =>
    refine ⟨_, rfl, rfl, ?_, ?_⟩
    · intro parent below h
      simp only [List.cons.injEq] at h
      obtain ⟨h1, h2⟩ := h
      subst h1 h2
      refine ⟨rfl, ?_⟩
      intro hlt
      have : (p.ChildIndex + 1) % U32 = p.ChildIndex + 1 :=
        Nat.mod_eq_of_lt (by unfold U32; omega)
      simp only [this]
    · intro h
      simp at h

/-- C14 (witness). Inside `X` of `emptyContainerFile` the stack holds the frame
of `X` above the root frame: `ParamEnd` leaves the root frame alone, its
`ChildIndex` now 1. On the scenario of the spec right after construction the
root frame is the only one, and `ParamEnd` empties the stack. -/
theorem C14_ParamEnd_stack_effect_witness :
    emptyContainerReader.mBinaryParmStack
        = { Offset := 32, Size := 4, NumChildren := 0xFFFFFFFF, ChildIndex := 0 }
          :: [{ Offset := 20, Size := 16, NumChildren := 1, ChildIndex := 0 }] ∧
      (emptyContainerReader.ParamEnd.map (fun r => r.mBinaryParmStack))
        = some [{ Offset := 20, Size := 16, NumChildren := 1, ChildIndex := 1 }] ∧
      (scenarioReader.ParamEnd.map (fun r => r.mBinaryParmStack)) = some [] ∧
      ∃ r', emptyContainerReader.ParamEnd = some r' ∧
        r'.mBinaryParmStack.length + 1 = emptyContainerReader.mBinaryParmStack.length ∧
        (∀ parent below,
          [({ Offset := 20, Size := 16, NumChildren := 1, ChildIndex := 0 } : SBinaryParm)]
            = parent :: below →
          r'.mBinaryParmStack
            = { parent with ChildIndex := (parent.ChildIndex + 1) % U32 } :: below ∧
          (parent.ChildIndex < 0xFFFFFFFF →
            r'.mBinaryParmStack = { parent with ChildIndex := parent.ChildIndex + 1 } :: below)) ∧
        (([{ Offset := 20, Size := 16, NumChildren := 1, ChildIndex := 0 }] : List SBinaryParm)
            = [] →
          r'.mBinaryParmStack = []) :=
  ⟨by decide, by decide, by decide,
    C14_ParamEnd_stack_effect emptyContainerReader
      { Offset := 32, Size := 4, NumChildren := 0xFFFFFFFF, ChildIndex := 0 }
      [{ Offset := 20, Size := 16, NumChildren := 1, ChildIndex := 0 }] (by decide)⟩

/-- C15. The fallback scan on the scenario of the spec. The root frame is
`{20, 28, 2, 0}` with the stream at 24; the children are `X` (header at 24,
size 4) and `Y` (header at 36, size 4), with different ids, and no flag is
passed. Asked for `Y`, the fast path misses on the id of `X`. The loop of lines
125-138 started on the first child, at 24, finds `Y` at index 1 with size 4 and
stops at 44, the start of its payload. Started where line 123 puts it, on the
`Offset` 20 of the frame, which is the child count, it finds nothing, and
`ParamBegin("Y")` returns false with the stack and the stream as they were. -/
theorem C15_scan_starts_on_the_child_count :
    scenarioReader.mBinaryParmStack
        = [{ Offset := 20, Size := 28, NumChildren := 2, ChildIndex := 0 }] ∧
      scenarioReader.mpStream.pos = 24 ∧
      beNat scenarioFile 24 4 = sampleHash32 "X" ∧
      scenarioReader.sizeAt sampleE 28 = 4 ∧
      beNat scenarioFile 36 4 = sampleHash32 "Y" ∧
      scenarioReader.sizeAt sampleE 40 = 4 ∧
      sampleHash32 "X" ≠ sampleHash32 "Y" ∧
      0 &&& sampleE.SH_IgnoreName = 0 ∧
      CBinaryReader.scanChildren sampleE (sampleHash32 "Y") 2 0
          { scenarioReader with mpStream := scenarioReader.mpStream.GoTo 24 }
        = (some (1, 4),
            { scenarioReader with mpStream := { scenarioReader.mpStream with pos := 44 } }) ∧
      (CBinaryReader.scanChildren sampleE (sampleHash32 "Y") 2 0
          { scenarioReader with mpStream := scenarioReader.mpStream.GoTo 20 }).1 = none ∧
      (scenarioReader.ParamBegin sampleE "Y" 0).map
          (fun x => (x.1, x.2.mBinaryParmStack, x.2.mpStream.pos))
        = some (false, [{ Offset := 20, Size := 28, NumChildren := 2, ChildIndex := 0 }], 24) := by
  decide

/-- C16 (counterexample). Two readers on `singleChildFile`, both reached from
the constructor by well-nested client calls, both inside `X` with the stream at
48 and the frame `{32, 16, 1}` of `X` above the root frame: one came by
`skippingCalls` and has `ChildIndex` 0, the other by `enteringCalls` and has
`ChildIndex` 1. They differ in nothing else. At 48 stands the header of `Y`,
the sibling that follows `X`. Asked for `Y` without any flag, the first enters
it by the fast path (true, frame `{56, 4}`, stream at 56); the second, whose
`ChildIndex` is not below the child count 1, skips the fast path and returns
false with the stream at 48. -/
theorem C16_counterexample_reachable_pair :
    runCalls sampleE skippingCalls singleChildReader 0 = .done (afterChildReader 0) 1 ∧
      runCalls sampleE enteringCalls singleChildReader 0 = .done (afterChildReader 1) 1 ∧
      (afterChildReader 1).mpStream = (afterChildReader 0).mpStream ∧
      afterChildReader 1
        = { afterChildReader 0 with
            mBinaryParmStack :=
              [{ Offset := 32, Size := 16, NumChildren := 1, ChildIndex := 1 },
               { Offset := 20, Size := 40, NumChildren := 2, ChildIndex := 0 }] } ∧
      (afterChildReader 0).mBinaryParmStack
        = [{ Offset := 32, Size := 16, NumChildren := 1, ChildIndex := 0 },
           { Offset := 20, Size := 40, NumChildren := 2, ChildIndex := 0 }] ∧
      singleChildFile.length = 60 ∧
      beNat singleChildFile 48 4 = sampleHash32 "Y" ∧
      0 &&& sampleE.SH_IgnoreName = 0 ∧
      ((afterChildReader 0).ParamBegin sampleE "Y" 0).map
          (fun x => (x.1, x.2.mBinaryParmStack.head?, x.2.mpStream.pos))
        = some (true,
            some { Offset := 56, Size := 4, NumChildren := 0xFFFFFFFF, ChildIndex := 0 }, 56) ∧
      ((afterChildReader 1).ParamBegin sampleE "Y" 0).map
          (fun x => (x.1, x.2.mBinaryParmStack.head?, x.2.mpStream.pos))
        = some (false,
            some { Offset := 32, Size := 16, NumChildren := 1, ChildIndex := 1 }, 48) ∧
      ¬ (((afterChildReader 0).ParamBegin sampleE "Y" 0).map (fun x => x.1)
          = ((afterChildReader 1).ParamBegin sampleE "Y" 0).map (fun x => x.1)) := by
  decide

/-- C16 (amended). Two reader states over the same stream that differ only in
the `ChildIndex` of the top frame, `back.ChildIndex` in one and `ci` in the
other, and any name. When the two values fall on the same side of the child
count of the frame (the count the call resolves when it was unknown), or when
the id at the stream position (taken after the count was read) is not the hash
of the name and the flags do not say to ignore the name, `ParamBegin` returns
the same boolean in both, leaves the stream at the same position, and on true
has pushed the same frame. -/
theorem C16_ChildIndex_only_through_the_test (E : Externals) (r : CBinaryReader)
    (back : SBinaryParm) (rest : List SBinaryParm) (pkName : String) (Flags ci : Nat)
    (hstack : r.mBinaryParmStack = back :: rest)
    (h : (ci < (if back.NumChildren = 0xFFFFFFFF then (r.ReadSize E).1 else back.NumChildren) ↔
          back.ChildIndex
            < (if back.NumChildren = 0xFFFFFFFF then (r.ReadSize E).1 else back.NumChildren)) ∨
      (beNat r.mpStream.data
          (if back.NumChildren = 0xFFFFFFFF then (r.mpStream.Skip (r.sizeWidth E)).pos
           else r.mpStream.pos) 4 ≠ E.Hash32 pkName % U32 ∧
        Flags &&& E.SH_IgnoreName = 0)) :
    ∃ (b : Bool) (r1 r2 : CBinaryReader),
      r.ParamBegin E pkName Flags = some (b, r1) ∧
      CBinaryReader.ParamBegin E
          { r with mBinaryParmStack := { back with ChildIndex := ci } :: rest } pkName Flags
        = some (b, r2) ∧
      r2.mpStream = r1.mpStream ∧
      (b = true → r2.mBinaryParmStack.head? = r1.mBinaryParmStack.head?) := by
  have pack : ∀ (X Y : Option (Bool × CBinaryReader)) (P1 P2 : Bool × CBinaryReader)
      (fallback : SBinaryParm),
      P2.1 = P1.1 → P2.2.mpStream = P1.2.mpStream →
      P2.2.mBinaryParmStack.head?
        = (if P1.1 = true then P1.2.mBinaryParmStack.head? else some fallback) →
      X = some P1 → Y = some P2 →
      ∃ (b : Bool) (r1 r2 : CBinaryReader), X = some (b, r1) ∧ Y = some (b, r2) ∧
        r2.mpStream = r1.mpStream ∧
        (b = true → r2.mBinaryParmStack.head? = r1.mBinaryParmStack.head?) := by
    intro X Y P1 P2 fallback k1 k2 k3 hX hY
    refine ⟨P1.1, P1.2, P2.2, hX, ?_, k2, ?_⟩
    · rw [hY, ← k1]
    · intro hb
      rw [if_pos hb] at k3
      exact k3
  have e1 := CBinaryReader.ParamBegin_resolved_form E r back rest [] pkName Flags hstack
  have e2 := CBinaryReader.ParamBegin_resolved_form E
    { r with mBinaryParmStack := { back with ChildIndex := ci } :: rest }
    { back with ChildIndex := ci } rest [] pkName Flags rfl
  rw [CBinaryReader.ReadSize_fst] at e1 e2 h
  by_cases hN : back.NumChildren = 0xFFFFFFFF
  · simp only [if_pos hN] at e1 e2 h
    have key := CBinaryReader.ParamBeginResolved_ChildIndex_or_miss E
      { r with mpStream := r.mpStream.Skip (r.sizeWidth E), mBinaryParmStack := [] }
      { back with
        NumChildren :=
          if r.mArchiveVersion < E.eArVer_32BitBinarySize then
            toU32 (toSigned 16 (beNat r.mpStream.data r.mpStream.pos 2))
          else toU32 (toSigned 32 (beNat r.mpStream.data r.mpStream.pos 4)) }
      rest pkName Flags ci h
    exact pack _ _ _ _ _ key.1 key.2.1 key.2.2 e1 e2
  · simp only [if_neg hN] at e1 e2 h
    have key := CBinaryReader.ParamBeginResolved_ChildIndex_or_miss E
      { r with mBinaryParmStack := [] } back rest pkName Flags ci h
    exact pack _ _ _ _ _ key.1 key.2.1 key.2.2 e1 e2

/-- C16 (witness). On the scenario of the spec, the reader that entered and
left `X` and the reader that read the twelve bytes of `X` without entering it
both stand at 36 on the header of `Y`, with `ChildIndex` 1 and 0 in the root
frame, both below the child count 2: asked for `Y`, both return true with the
frame `{44, 4}` pushed and the stream at 44. On `singleChildFile`, the two
readers inside `X` at 48 with `ChildIndex` 0 and 1, on either side of the child
count 1, asked for `Z`, whose hash is not the id at 48: both return false with
the stream at 48. -/
theorem C16_ChildIndex_only_through_the_test_witness :
    runCalls sampleE scenarioEnterCalls scenarioReader 0 = .done (beforeYReader 1) 0 ∧
      runCalls sampleE scenarioSkipCalls scenarioReader 0 = .done (beforeYReader 0) 0 ∧
      ({ beforeYReader 1 with
          mBinaryParmStack :=
            { ({ Offset := 20, Size := 28, NumChildren := 2, ChildIndex := 1 } : SBinaryParm) with
              ChildIndex := 0 } :: [] } : CBinaryReader) = beforeYReader 0 ∧
      ((beforeYReader 1).ParamBegin sampleE "Y" 0).map
          (fun x => (x.1, x.2.mBinaryParmStack.head?, x.2.mpStream.pos))
        = some (true,
            some { Offset := 44, Size := 4, NumChildren := 0xFFFFFFFF, ChildIndex := 0 }, 44) ∧
      ((beforeYReader 0).ParamBegin sampleE "Y" 0).map
          (fun x => (x.1, x.2.mBinaryParmStack.head?, x.2.mpStream.pos))
        = some (true,
            some { Offset := 44, Size := 4, NumChildren := 0xFFFFFFFF, ChildIndex := 0 }, 44) ∧
      (∃ (b : Bool) (r1 r2 : CBinaryReader),
        (beforeYReader 1).ParamBegin sampleE "Y" 0 = some (b, r1) ∧
        CBinaryReader.ParamBegin sampleE
            { beforeYReader 1 with
              mBinaryParmStack :=
                { ({ Offset := 20, Size := 28, NumChildren := 2, ChildIndex := 1 } : SBinaryParm)
                  with ChildIndex := 0 } :: [] } "Y" 0
          = some (b, r2) ∧
        r2.mpStream = r1.mpStream ∧
        (b = true → r2.mBinaryParmStack.head? = r1.mBinaryParmStack.head?)) ∧
      beNat singleChildFile 48 4 ≠ sampleHash32 "Z" ∧
      ((afterChildReader 0).ParamBegin sampleE "Z" 0).map (fun x => (x.1, x.2.mpStream.pos))
        = some (false, 48) ∧
      ((afterChildReader 1).ParamBegin sampleE "Z" 0).map (fun x => (x.1, x.2.mpStream.pos))
        = some (false, 48) ∧
      (∃ (b : Bool) (r1 r2 : CBinaryReader),
        (afterChildReader 0).ParamBegin sampleE "Z" 0 = some (b, r1) ∧
        CBinaryReader.ParamBegin sampleE
            { afterChildReader 0 with
              mBinaryParmStack :=
                { ({ Offset := 32, Size := 16, NumChildren := 1, ChildIndex := 0 } : SBinaryParm)
                  with ChildIndex := 1 }
                  :: [{ Offset := 20, Size := 40, NumChildren := 2, ChildIndex := 0 }] } "Z" 0
          = some (b, r2) ∧
        r2.mpStream = r1.mpStream ∧
        (b = true → r2.mBinaryParmStack.head? = r1.mBinaryParmStack.head?)) :=
  ⟨by decide, by decide, by decide, by decide, by decide,
    C16_ChildIndex_only_through_the_test sampleE (beforeYReader 1)
      { Offset := 20, Size := 28, NumChildren := 2, ChildIndex := 1 } [] "Y" 0 0
      (by decide) (Or.inl (by decide)),
    by decide, by decide, by decide,
    C16_ChildIndex_only_through_the_test sampleE (afterChildReader 0)
      { Offset := 32, Size := 16, NumChildren := 1, ChildIndex := 0 }
      [{ Offset := 20, Size := 40, NumChildren := 2, ChildIndex := 0 }] "Z" 0 1
      (by decide) (Or.inr (by decide))⟩

/-- C18. Failure is atomic on the stack: when `ParamBegin` returns false the
stack has the depth it had, the frames beneath the top one are those of before,
the top frame has kept its `Offset`, `Size` and `ChildIndex`, and when its
`NumChildren` was not `0xFFFFFFFF` on entry the whole stack is unchanged. -/
theorem C18_ParamBegin_failure_keeps_stack (E : Externals) (r r' : CBinaryReader)
    (pkName : String) (Flags : Nat)
    (hfalse : r.ParamBegin E pkName Flags = some (false, r')) :
    ∃ (back back' : SBinaryParm) (rest : List SBinaryParm),
      r.mBinaryParmStack = back :: rest ∧ r'.mBinaryParmStack = back' :: rest ∧
      r'.mBinaryParmStack.length = r.mBinaryParmStack.length ∧
      back'.Offset = back.Offset ∧ back'.Size = back.Size ∧
      back'.ChildIndex = back.ChildIndex ∧
      (back.NumChildren ≠ 0xFFFFFFFF → r'.mBinaryParmStack = r.mBinaryParmStack) := by
  obtain ⟨back, rest, h1, h2⟩ := CBinaryReader.ParamBegin_false E r r' pkName Flags hfalse
  refine ⟨back, _, rest, h1, h2, by rw [h1, h2]; rfl, rfl, rfl, rfl, ?_⟩
  intro hN
  rw [h1, h2, if_neg hN]

/-- C18 (witness). Inside the empty container `X`, whose child count is still
unread, the absent name `Z`: false, and the stack differs only by the
`NumChildren` of the top frame, now 0. -/
theorem C18_ParamBegin_failure_keeps_stack_witness :
    emptyContainerReader.mBinaryParmStack
        = { Offset := 32, Size := 4, NumChildren := 0xFFFFFFFF, ChildIndex := 0 }
          :: [{ Offset := 20, Size := 16, NumChildren := 1, ChildIndex := 0 }] ∧
      emptyContainerMiss.mBinaryParmStack
        = { Offset := 32, Size := 4, NumChildren := 0, ChildIndex := 0 }
          :: [{ Offset := 20, Size := 16, NumChildren := 1, ChildIndex := 0 }] ∧
      ∃ (back back' : SBinaryParm) (rest : List SBinaryParm),
        emptyContainerReader.mBinaryParmStack = back :: rest ∧
        emptyContainerMiss.mBinaryParmStack = back' :: rest ∧
        emptyContainerMiss.mBinaryParmStack.length = emptyContainerReader.mBinaryParmStack.length ∧
        back'.Offset = back.Offset ∧ back'.Size = back.Size ∧
        back'.ChildIndex = back.ChildIndex ∧
        (back.NumChildren ≠ 0xFFFFFFFF →
          emptyContainerMiss.mBinaryParmStack = emptyContainerReader.mBinaryParmStack) :=
  ⟨by decide, by decide,
    C18_ParamBegin_failure_keeps_stack sampleE emptyContainerReader emptyContainerMiss "Z" 0
      (by decide)⟩

/-- C19. Shape of a successful entry: when `ParamBegin` returns true, by the
fast path or by the scan, the stack is exactly one frame deeper; the new top
frame has its `Offset` on the stream position of the return, `NumChildren`
`0xFFFFFFFF` and `ChildIndex` 0; the frames beneath the previous top are
unchanged and the previous top has kept its `Offset` and `Size`. -/
theorem C19_ParamBegin_success_shape (E : Externals) (r r' : CBinaryReader)
    (pkName : String) (Flags : Nat)
    (htrue : r.ParamBegin E pkName Flags = some (true, r')) :
    ∃ (top back back' : SBinaryParm) (rest : List SBinaryParm),
      r.mBinaryParmStack = back :: rest ∧ r'.mBinaryParmStack = top :: back' :: rest ∧
      r'.mBinaryParmStack.length = r.mBinaryParmStack.length + 1 ∧
      top.Offset = r'.mpStream.pos ∧ top.Offset = r'.mpStream.Tell ∧
      top.NumChildren = 0xFFFFFFFF ∧ top.ChildIndex = 0 ∧
      back'.Offset = back.Offset ∧ back'.Size = back.Size := by
  obtain ⟨back, rest, ci, sz, h1, hp, h2⟩ := CBinaryReader.ParamBegin_true E r r' pkName Flags htrue
  refine ⟨_, back, _, rest, h1, h2, by rw [h1, h2]; rfl, rfl, ?_, rfl, rfl, rfl, rfl⟩
  simp only [IInputStream.Tell]
  rw [Nat.mod_eq_of_lt hp]

/-- C19 (witness). Inside the container `X` of `nestedFile`, `A` asked first:
true, the frame `{44, 4, 0xFFFFFFFF, 0}` is pushed with the stream at 44, above
the frame of `X`, whose child count is now 2, and the root frame. -/
theorem C19_ParamBegin_success_shape_witness :
    insideXReader.ParamBegin sampleE "A" 0 = some (true,
        { insideXReader with
          mpStream := { insideXReader.mpStream with pos := 44 }
          mBinaryParmStack :=
            [{ Offset := 44, Size := 4, NumChildren := 0xFFFFFFFF, ChildIndex := 0 },
             { Offset := 32, Size := 26, NumChildren := 2, ChildIndex := 0 },
             { Offset := 20, Size := 50, NumChildren := 2, ChildIndex := 0 }] }) ∧
      ∃ (top back back' : SBinaryParm) (rest : List SBinaryParm),
        insideXReader.mBinaryParmStack = back :: rest ∧
        ({ insideXReader with
            mpStream := { insideXReader.mpStream with pos := 44 }
            mBinaryParmStack :=
              [{ Offset := 44, Size := 4, NumChildren := 0xFFFFFFFF, ChildIndex := 0 },
               { Offset := 32, Size := 26, NumChildren := 2, ChildIndex := 0 },
               { Offset := 20, Size := 50, NumChildren := 2, ChildIndex := 0 }] }
            : CBinaryReader).mBinaryParmStack = top :: back' :: rest ∧
        ({ insideXReader with
            mpStream := { insideXReader.mpStream with pos := 44 }
            mBinaryParmStack :=
              [{ Offset := 44, Size := 4, NumChildren := 0xFFFFFFFF, ChildIndex := 0 },
               { Offset := 32, Size := 26, NumChildren := 2, ChildIndex := 0 },
               { Offset := 20, Size := 50, NumChildren := 2, ChildIndex := 0 }] }
            : CBinaryReader).mBinaryParmStack.length = insideXReader.mBinaryParmStack.length + 1 ∧
        top.Offset = 44 ∧ top.Offset = (44 : Nat) % U32 ∧
        top.NumChildren = 0xFFFFFFFF ∧ top.ChildIndex = 0 ∧
        back'.Offset = back.Offset ∧ back'.Size = back.Size :=
  ⟨by decide,
    C19_ParamBegin_success_shape sampleE insideXReader _ "A" 0 (by decide)⟩

end LibCommon
